import Mathlib

/-!
# Stepper motor driver (`drivers/stepper/stepper.c`)

A shallow embedding of the stepper driver: the waypoint queue (`set_next_coord`), the
kinematic helpers (`get_speed`, `get_acc_speed`, `get_next_interval_acc`, ...), the phase
planner (`get_next_phase`) and the sequencer (`stepper_update_state`).

Conventions of the embedding

* `double` is IEEE-754 binary64 with round-to-nearest-even (`Dbl`); every arithmetic
  operation of the C source is one correctly rounded operation (no extended precision, no
  fused multiply-add).
* `uint32_t` is `Nat` with an explicit `% 2 ^ 32` where the source can wrap; `int32_t` is
  `Int` with exact arithmetic (signed overflow is undefined in C, the embedding describes
  the executions that stay in range); `is_int32`, `position_in_range` and
  `brake_point_in_range` say that the `int32_t` arithmetic of an execution stays in range.
* A conversion from `double` to an integer type whose truncated value does not fit is
  undefined behaviour in C; it is the result `Res.undefined`.
* Pointers to `stepper_path_t` are addresses (`Nat`), `none` is `NULL`, the memory is a
  function from addresses to nodes.
* A callback invocation is recorded in the list `Run.calls`, a `k_work_submit` in the
  counter `Sys.submitted`.
* Loops and the recursion of `stepper_update_state` take a fuel argument; running out of
  fuel is the result `Res.timeout`.
-/

namespace Stepper

/-! ## Results of fallible computations -/

/-- Outcome of a computation: a value, undefined behaviour, or fuel exhausted. -/
inductive Res (α : Type) where
  | ok (a : α)
  | undefined
  | timeout
  deriving DecidableEq, Repr

namespace Res

/-- Sequencing of fallible computations. -/
def bind {α β : Type} : Res α → (α → Res β) → Res β
  | ok a, f => f a
  | undefined, _ => undefined
  | timeout, _ => timeout

instance : Monad Res where
  pure := ok
  bind := bind

/-- The result `ok n`, built after `n` has been evaluated. -/
def nat (n : Nat) : Res Nat :=
  match n with
  | 0 => ok 0
  | k + 1 => ok (k + 1)

/-- The result `ok z`, built after `z` has been evaluated. -/
def int (z : Int) : Res Int :=
  match z with
  | .ofNat 0 => ok (.ofNat 0)
  | .ofNat (k + 1) => ok (.ofNat (k + 1))
  | .negSucc 0 => ok (.negSucc 0)
  | .negSucc (k + 1) => ok (.negSucc (k + 1))

end Res

/-! ## IEEE-754 binary64 -/

/-- A binary64 datum: `fin s m e` is `(-1)^s * m * 2^e`. The operations below produce the
canonical form `m < 2^53`, `-1074 ≤ e ≤ 971`, and `2^52 ≤ m` unless `e = -1074`. -/
inductive Dbl where
  | fin (s : Bool) (m : Nat) (e : Int)
  | inf (s : Bool)
  | nan
  deriving DecidableEq, Repr

namespace Dbl

/-- The datum `fin s m e`, built after its components have been evaluated (this only fixes
the order of evaluation, see `Dbl_mk_eq`). -/
def mk (s : Bool) (m : Nat) (e : Int) : Dbl :=
  match s, m, e with
  | false, 0, .ofNat 0 => fin false 0 (.ofNat 0)
  | false, 0, .ofNat (k + 1) => fin false 0 (.ofNat (k + 1))
  | false, 0, .negSucc 0 => fin false 0 (.negSucc 0)
  | false, 0, .negSucc (k + 1) => fin false 0 (.negSucc (k + 1))
  | false, n + 1, .ofNat 0 => fin false (n + 1) (.ofNat 0)
  | false, n + 1, .ofNat (k + 1) => fin false (n + 1) (.ofNat (k + 1))
  | false, n + 1, .negSucc 0 => fin false (n + 1) (.negSucc 0)
  | false, n + 1, .negSucc (k + 1) => fin false (n + 1) (.negSucc (k + 1))
  | true, 0, .ofNat 0 => fin true 0 (.ofNat 0)
  | true, 0, .ofNat (k + 1) => fin true 0 (.ofNat (k + 1))
  | true, 0, .negSucc 0 => fin true 0 (.negSucc 0)
  | true, 0, .negSucc (k + 1) => fin true 0 (.negSucc (k + 1))
  | true, n + 1, .ofNat 0 => fin true (n + 1) (.ofNat 0)
  | true, n + 1, .ofNat (k + 1) => fin true (n + 1) (.ofNat (k + 1))
  | true, n + 1, .negSucc 0 => fin true (n + 1) (.negSucc 0)
  | true, n + 1, .negSucc (k + 1) => fin true (n + 1) (.negSucc (k + 1))

/-- The comparison `a ≤ b` of integers as a Boolean. -/
def ile : Int → Int → Bool
  | .ofNat a, .ofNat b => Nat.ble a b
  | .ofNat _, .negSucc _ => false
  | .negSucc _, .ofNat _ => true
  | .negSucc a, .negSucc b => Nat.ble b a

/-- The comparison `a < b` of integers as a Boolean. -/
def ilt (a b : Int) : Bool := !ile b a

/-- The comparison `a = b` of integers as a Boolean. -/
def ieq : Int → Int → Bool
  | .ofNat a, .ofNat b => Nat.beq a b
  | .ofNat _, .negSucc _ => false
  | .negSucc _, .ofNat _ => false
  | .negSucc a, .negSucc b => Nat.beq a b

/-- Decision of `a ≤ b` on integers by the Boolean comparison. -/
instance decLeInt (a b : Int) : Decidable (a ≤ b) :=
  decidable_of_iff (ile a b = true) (by
    cases a <;> cases b <;>
      simp only [ile, Nat.ble_eq, Bool.false_eq_true, false_iff, true_iff, Int.ofNat_eq_coe,
        Int.negSucc_eq] <;> omega)

/-- Decision of `a < b` on integers by the Boolean comparison. -/
instance decLtInt (a b : Int) : Decidable (a < b) :=
  decidable_of_iff (ile b a = false) (by
    rw [← Bool.not_eq_true]
    cases a <;> cases b <;>
      simp only [ile, Nat.ble_eq, Bool.false_eq_true, not_false_eq_true, not_true_eq_false,
        false_iff, true_iff, Int.ofNat_eq_coe, Int.negSucc_eq] <;> omega)

/-- Decision of `a = b` on integers by the Boolean comparison. -/
instance decEqInt (a b : Int) : Decidable (a = b) :=
  decidable_of_iff (ieq a b = true) (by
    cases a <;> cases b <;>
      simp only [ieq, Nat.beq_eq, Bool.false_eq_true, false_iff, true_iff, Int.ofNat_eq_coe,
        Int.negSucc_eq] <;> omega)

/-- Binary search for `⌊log₂ n⌋` among `acc, ..., acc + 2^j - 1`. -/
def ilog2Search (n : Nat) : Nat → Nat → Nat
  | 0, acc => acc
  | j + 1, acc =>
    bif Nat.ble (2 ^ (acc + 2 ^ j)) n then ilog2Search n j (acc + 2 ^ j)
    else ilog2Search n j acc

/-- Least `j` (searching upwards from the given one) with `n < 2^(2^j)`. -/
def ilog2Levels (n : Nat) : Nat → Nat → Nat
  | 0, j => j
  | fuel + 1, j => bif Nat.blt n (2 ^ (2 ^ j)) then j else ilog2Levels n fuel (j + 1)

/-- One step of the binary search: raise the candidate `a` by `k` when `2^(a+k) ≤ n`. -/
def ilog2Step (n k a : Nat) : Nat := bif Nat.ble (2 ^ (a + k)) n then a + k else a

/-- Floor of the binary logarithm, `⌊log₂ n⌋` (`0` for `n = 0`). Below `2^64`, `2^256` and
`2^4096` the six, eight or twelve steps of the binary search are written out. -/
def ilog2 (n : Nat) : Nat :=
  bif Nat.blt n (2 ^ 64) then
    ilog2Step n 1 (ilog2Step n 2 (ilog2Step n 4 (ilog2Step n 8 (ilog2Step n 16
      (ilog2Step n 32 0)))))
  else bif Nat.blt n (2 ^ 256) then
    ilog2Step n 1 (ilog2Step n 2 (ilog2Step n 4 (ilog2Step n 8 (ilog2Step n 16
      (ilog2Step n 32 (ilog2Step n 64 (ilog2Step n 128 0)))))))
  else bif Nat.blt n (2 ^ 4096) then
    ilog2Step n 1 (ilog2Step n 2 (ilog2Step n 4 (ilog2Step n 8 (ilog2Step n 16
      (ilog2Step n 32 (ilog2Step n 64 (ilog2Step n 128 (ilog2Step n 256 (ilog2Step n 512
        (ilog2Step n 1024 (ilog2Step n 2048 0)))))))))))
  else ilog2Search n (ilog2Levels n n 0) 0

/-- The comparison `2^h ≤ n / d` for positive `d`. -/
def pow2Le (n d : Nat) (h : Int) : Bool :=
  Nat.ble (d * 2 ^ h.toNat) (n * 2 ^ (-h).toNat)

/-- The logarithm `⌊log₂ (n / d)⌋` of a positive rational, from the logarithms of `n` and
of `d`: it is their difference or one less. -/
def floorLog2 (n d : Nat) : Int :=
  bif pow2Le n d ((ilog2 n : Int) - (ilog2 d : Int)) then (ilog2 n : Int) - (ilog2 d : Int)
  else (ilog2 n : Int) - (ilog2 d : Int) - 1

/-- The logarithm `⌊log₂ (n / d)⌋` of a positive rational, tried first at the guess `h`
and its neighbours `h - 1` and `h + 1`; any other case is left to `floorLog2`. The guess
only shortens the search. -/
def floorLog2Near (n d : Nat) (h : Int) : Int :=
  bif pow2Le n d h then
    bif !pow2Le n d (h + 1) then h
    else bif !pow2Le n d (h + 2) then h + 1
    else floorLog2 n d
  else
    bif pow2Le n d (h - 1) then h - 1
    else floorLog2 n d

/-- Round the non-negative rational `n / d` (with `0 < d`), whose logarithm
`⌊log₂ (n / d)⌋` is `fl`, to the nearest binary64, ties to even, and attach the sign `s`.
The quotient is taken at the exponent `e` that leaves 53 bits (or at `-1074` for
subnormal values). Values that round to `2^1024` or more become infinite. -/
def roundAt (s : Bool) (n d : Nat) (fl : Int) : Dbl :=
  let e : Int := bif ile (fl - 52) (-1074) then -1074 else fl - 52
  let num := n * 2 ^ (-e).toNat
  let den := d * 2 ^ e.toNat
  let q := num / den
  let r := num % den
  let q1 :=
    bif Nat.blt den (2 * r) || (Nat.beq den (2 * r) && Nat.beq (q % 2) 1) then q + 1 else q
  let m := bif Nat.beq q1 (2 ^ 53) then 2 ^ 52 else q1
  let e1 := bif Nat.beq q1 (2 ^ 53) then e + 1 else e
  bif ilt 971 e1 then inf s else mk s m e1

/-- Round the non-negative rational `n / d` (with `0 < d`) to the nearest binary64, ties to
even, and attach the sign `s`. -/
def round (s : Bool) (n d : Nat) : Dbl :=
  bif Nat.beq n 0 then fin s 0 (-1074) else roundAt s n d (floorLog2 n d)

/-- The same as `round`, with a guess `h` of `⌊log₂ (n / d)⌋`. -/
def roundNear (s : Bool) (n d : Nat) (h : Int) : Dbl :=
  bif Nat.beq n 0 then fin s 0 (-1074) else roundAt s n d (floorLog2Near n d h)

/-- Round the exact dyadic value `m * 2^e`; `b` is a guess of `⌊log₂ m⌋`. -/
def ofExact (s : Bool) (m : Nat) (e : Int) (b : Int) : Dbl :=
  roundNear s (m * 2 ^ e.toNat) (2 ^ (-e).toNat) (b + e)

/-- The C conversion `(double)z` of an integer. -/
def ofInt (z : Int) : Dbl :=
  bif ieq z 0 then fin false 0 (-1074) else roundAt (ilt z 0) z.natAbs 1 (ilog2 z.natAbs)

/-- A decimal literal `n / d` of the source, e.g. `0.001` is `ofRatio 1 1000`. -/
def ofRatio (n d : Nat) : Dbl := round false n d

/-- Positive zero, the literal `0.0`. -/
def zero : Dbl := fin false 0 (-1074)

/-- Unary minus. -/
def neg : Dbl → Dbl
  | fin s m e => fin (!s) m e
  | inf s => inf (!s)
  | nan => nan

/-- Correctly rounded addition. -/
def add : Dbl → Dbl → Dbl
  | nan, _ => nan
  | _, nan => nan
  | inf s, inf t => bif xor s t then nan else inf s
  | inf s, fin _ _ _ => inf s
  | fin _ _ _, inf t => inf t
  | fin s m e, fin t k f =>
    let g := bif ile e f then e else f
    let a := m * 2 ^ (e - g).toNat
    let b := k * 2 ^ (f - g).toNat
    let h := (bif ile e f then f else e) - g + 52
    bif xor s t then
      bif Nat.beq a b then zero
      else bif Nat.blt b a then ofExact s (a - b) g h
      else ofExact t (b - a) g h
    else ofExact s (a + b) g h

/-- Correctly rounded subtraction. -/
def sub (x y : Dbl) : Dbl := add x (neg y)

/-- Correctly rounded multiplication. -/
def mul : Dbl → Dbl → Dbl
  | nan, _ => nan
  | _, nan => nan
  | inf s, inf t => inf (xor s t)
  | inf s, fin t k _ => bif Nat.beq k 0 then nan else inf (xor s t)
  | fin s m _, inf t => bif Nat.beq m 0 then nan else inf (xor s t)
  | fin s m e, fin t k f => ofExact (xor s t) (m * k) (e + f) 105

/-- Correctly rounded division. -/
def div : Dbl → Dbl → Dbl
  | nan, _ => nan
  | _, nan => nan
  | inf _, inf _ => nan
  | inf s, fin t _ _ => inf (xor s t)
  | fin s _ _, inf t => fin (xor s t) 0 (-1074)
  | fin s m e, fin t k f =>
    bif Nat.beq k 0 then (bif Nat.beq m 0 then nan else inf (xor s t))
    else roundNear (xor s t) (m * 2 ^ (e - f).toNat) (k * 2 ^ (f - e).toNat) (e - f)

/-- Newton iteration for the integer square root, started from a value `x` above `√n`:
replace `x` by `(x + n / x) / 2` while that decreases it. -/
def isqrtIter (n : Nat) : Nat → Nat → Nat
  | 0, x => x
  | fuel + 1, x =>
    bif Nat.blt ((x + n / x) / 2) x then isqrtIter n fuel ((x + n / x) / 2) else x

/-- Integer square root, `⌊√n⌋`. -/
def isqrt (n : Nat) : Nat :=
  bif Nat.ble n 1 then n else isqrtIter n (2 ^ (ilog2 n / 2 + 1)) (2 ^ (ilog2 n / 2 + 1))

/-- Correctly rounded square root (`sqrt` of `math.h`). The mantissa is scaled by `2^128`
(and by 2 more when the exponent is odd); its integer square root `r` has more than 54
bits, and `2 * r + 1` stands for an inexact root between `r` and `r + 1`. -/
def sqrt : Dbl → Dbl
  | nan => nan
  | inf s => bif s then nan else inf false
  | fin s m e =>
    bif Nat.beq m 0 then fin s 0 (-1074)
    else bif s then nan
    else
      let even := ieq (e % 2) 0
      let m0 := bif even then m else 2 * m
      let e0 := bif even then e else e - 1
      let n := m0 * 2 ^ 128
      let r := isqrt n
      ofExact false (2 * r + (bif Nat.beq (r * r) n then 0 else 1)) (e0 / 2 - 65) 91

/-- Signed integer `(-1)^s * m * 2^sh`. -/
def sval (s : Bool) (m : Nat) (sh : Int) : Int :=
  bif s then -((m * 2 ^ sh.toNat : Nat) : Int) else ((m * 2 ^ sh.toNat : Nat) : Int)

/-- The C comparison `x < y`. -/
def lt : Dbl → Dbl → Bool
  | nan, _ => false
  | _, nan => false
  | inf s, inf t => s && !t
  | inf s, fin _ _ _ => s
  | fin _ _ _, inf t => !t
  | fin s m e, fin t k f =>
    let g := bif ile e f then e else f
    ilt (sval s m (e - g)) (sval t k (f - g))

/-- The C comparison `x == y`. -/
def eq : Dbl → Dbl → Bool
  | nan, _ => false
  | _, nan => false
  | inf s, inf t => !xor s t
  | inf _, fin _ _ _ => false
  | fin _ _ _, inf _ => false
  | fin s m e, fin t k f =>
    let g := bif ile e f then e else f
    ieq (sval s m (e - g)) (sval t k (f - g))

/-- The C comparison `x > y`. -/
def gt (x y : Dbl) : Bool := lt y x

/-- The C comparison `x <= y`. -/
def le (x y : Dbl) : Bool := lt x y || eq x y

/-- The C comparison `x != y`. -/
def ne (x y : Dbl) : Bool := !eq x y

/-- Truncation toward zero of a finite value; `none` for infinities and NaN. -/
def trunc : Dbl → Option Int
  | nan => none
  | inf _ => none
  | fin s m e =>
    let mag : Nat := bif ile 0 e then m * 2 ^ e.toNat else m / 2 ^ (-e).toNat
    some (bif s then -(mag : Int) else (mag : Int))

/-- The C conversion `(uint32_t)x`, undefined unless the truncated value fits. -/
def toUInt32 (x : Dbl) : Res Nat :=
  match trunc x with
  | none => .undefined
  | some z => bif ile 0 z && ilt z 4294967296 then Res.nat z.toNat else .undefined

/-- The C conversion `(int32_t)x`, undefined unless the truncated value fits. -/
def toInt32 (x : Dbl) : Res Int :=
  match trunc x with
  | none => .undefined
  | some z => bif ile (-2147483648) z && ilt z 2147483648 then Res.int z else .undefined

end Dbl

/-! ## Data model (`stepper.h`, `stepper.c`) -/

/-- The C `point_cb_t`: a callback is identified by its address, `none` is `NULL`. -/
abbrev point_cb_t := Option Nat

/-- The C `stepper_point_t`. -/
structure stepper_point_t where
  x : Int
  cb : point_cb_t
  deriving DecidableEq, Repr

/-- The C `stepper_path_t`; `next` is a pointer to a node, `none` is `NULL`. -/
structure stepper_path_t where
  next : Option Nat
  p : stepper_point_t
  deriving DecidableEq, Repr

/-- The kinematic fields of the C `struct stepper_config`. -/
structure stepper_config where
  distance_per_step : Int
  max_acceleration : Dbl
  max_velocity : Dbl
  deriving DecidableEq, Repr

/-- The C `enum move_phase`. -/
inductive move_phase where
  | STOP
  | ACCELERATE
  | MOVE
  | DECELERATE
  deriving DecidableEq, Repr

open move_phase

/-- The C `struct stepper_data` (without the alarm configuration). -/
structure stepper_data where
  current_phase : move_phase
  current_interval : Nat
  path : Option Nat
  position : stepper_point_t
  forward : Bool
  half_step : Bool
  current_velocity : Dbl
  deriving DecidableEq, Repr

/-- The driver instance together with the memory holding the caller-owned path nodes and
the number of work items submitted with `k_work_submit`: the state `set_next_coord` works
on. -/
structure Sys where
  data : stepper_data
  mem : Nat → stepper_path_t
  submitted : Nat

/-- The driver data together with the callback invocations made so far (function and
argument, oldest first): the state `stepper_update_state` works on. The path nodes are
only read by it; their memory is a parameter. -/
structure Run where
  data : stepper_data
  calls : List (Nat × Int)
  deriving DecidableEq, Repr

/-! ## The range of `int32_t` -/

/-- The values of the C type `int32_t`. The `int32_t` arithmetic of the driver (the update
of the position, the brake distance, the brake point) is embedded with exact integers; a
signed overflow is undefined behaviour in C, and the exact result is the result of the
source when the operands and the results are values of `int32_t`. -/
def is_int32 (z : Int) : Prop := -2147483648 ≤ z ∧ z ≤ 2147483647

/-- Decision of `is_int32`. -/
instance (z : Int) : Decidable (is_int32 z) := by
  unfold is_int32; infer_instance

/-- The block "Update current coordinates" of `stepper_update_state` stays in the range of
`int32_t`: `distance_per_step` and `position.x` are values of `int32_t`, and so is the
result of the `+=` or `-=` that the block executes when `current_interval != 0`. -/
def position_in_range (config : stepper_config) (data : stepper_data) : Prop :=
  is_int32 config.distance_per_step ∧ is_int32 data.position.x ∧
  (data.current_interval ≠ 0 →
    is_int32 (if data.forward = true then data.position.x + config.distance_per_step
      else data.position.x - config.distance_per_step))

/-- Decision of `position_in_range`. -/
instance (config : stepper_config) (data : stepper_data) :
    Decidable (position_in_range config data) := by
  unfold position_in_range; infer_instance

/-- The `int32_t` arithmetic of `get_next_phase` for the waypoint `next_pos` stays in the
range of `int32_t`, with `bd` the value returned by `get_brake_distance`: the operands and
`bd` (the sum computed by `get_brake_distance`) are values of `int32_t`, and so are the
intermediate result and the result of the brake point, and the result of
`brake_point - distance_per_step` or `brake_point + distance_per_step` in the branch that
evaluates it. -/
def brake_point_in_range (config : stepper_config) (data : stepper_data)
    (next_pos : stepper_point_t) (bd : Int) : Prop :=
  is_int32 config.distance_per_step ∧ is_int32 data.position.x ∧ is_int32 next_pos.x ∧
  is_int32 bd ∧
  if data.forward = true then
    is_int32 (next_pos.x - config.distance_per_step) ∧
    is_int32 (next_pos.x - config.distance_per_step - bd) ∧
    (data.position.x < next_pos.x - config.distance_per_step - bd →
      is_int32 (next_pos.x - config.distance_per_step - bd - config.distance_per_step))
  else
    is_int32 (next_pos.x + config.distance_per_step) ∧
    is_int32 (next_pos.x + config.distance_per_step + bd) ∧
    (data.position.x > next_pos.x + config.distance_per_step + bd →
      is_int32 (next_pos.x + config.distance_per_step + bd + config.distance_per_step))

/-- Decision of `brake_point_in_range`. -/
instance (config : stepper_config) (data : stepper_data) (next_pos : stepper_point_t)
    (bd : Int) : Decidable (brake_point_in_range config data next_pos bd) := by
  unfold brake_point_in_range; infer_instance

/-! ## Unit conversion macros -/

/-- The C macro `INTERVAL_TO_S(x)`, `(double)x / 1000000.0`. -/
def INTERVAL_TO_S (x : Nat) : Dbl := Dbl.div (Dbl.ofInt x) (Dbl.ofInt 1000000)

/-- The C macro `S_TO_INTERVAL(x)`, `(uint32_t)(x * 1000000.0 + 0.5)`. -/
def S_TO_INTERVAL (x : Dbl) : Res Nat :=
  Dbl.toUInt32 (Dbl.add (Dbl.mul x (Dbl.ofInt 1000000)) (Dbl.ofRatio 1 2))

/-- The C macro `DISTANCE_TO_M(x)`, `(double)x / 1000.0`. -/
def DISTANCE_TO_M (x : Int) : Dbl := Dbl.div (Dbl.ofInt x) (Dbl.ofInt 1000)

/-- The C macro `M_TO_DISTANCE(x)`, `(int32_t)(x * 1000.0)`. -/
def M_TO_DISTANCE (x : Dbl) : Res Int := Dbl.toInt32 (Dbl.mul x (Dbl.ofInt 1000))

/-! ## Kinematic model -/

/-- The C function `get_speed`. -/
def get_speed (config : stepper_config) (interval : Nat) : Dbl :=
  if interval = 0 then Dbl.zero
  else Dbl.div (DISTANCE_TO_M config.distance_per_step) (INTERVAL_TO_S interval)

/-- The C function `get_acc_speed`. -/
def get_acc_speed (config : stepper_config) (interval v0 : Dbl) : Dbl :=
  if Dbl.eq interval Dbl.zero then Dbl.zero
  else Dbl.add
    (Dbl.mul (Dbl.ofInt 2) (Dbl.sub (Dbl.div (DISTANCE_TO_M config.distance_per_step) interval) v0))
    v0

/-- The C function `get_next_interval_acc`: the returned interval and the value stored
through `next_velocity`. -/
def get_next_interval_acc (config : stepper_config) (data : stepper_data) :
    Res (Nat × Option Dbl) := do
  let current_speed := data.current_velocity
  let delta := Dbl.sqrt (Dbl.add (Dbl.mul current_speed current_speed)
    (Dbl.mul (Dbl.mul (Dbl.ofInt 2) config.max_acceleration)
      (DISTANCE_TO_M config.distance_per_step)))
  let t := Dbl.div (Dbl.add (Dbl.neg current_speed) delta) config.max_acceleration
  let next_interval ← S_TO_INTERVAL t
  let t := INTERVAL_TO_S next_interval
  let next_velocity := get_acc_speed config t current_speed
  if 0 < next_interval ∧ Dbl.gt next_velocity config.max_velocity = true then
    let next_interval ←
      S_TO_INTERVAL (Dbl.div (DISTANCE_TO_M config.distance_per_step) config.max_velocity)
    pure (next_interval, some (get_speed config next_interval))
  else
    pure (next_interval, some next_velocity)

/-- The C function `get_next_interval_dec`; on the early return nothing is stored through
`next_velocity` (`none`). -/
def get_next_interval_dec (config : stepper_config) (data : stepper_data) :
    Res (Nat × Option Dbl) := do
  let current_speed := data.current_velocity
  let delta := Dbl.sub (Dbl.mul current_speed current_speed)
    (Dbl.mul (Dbl.mul (Dbl.ofInt 2) config.max_acceleration)
      (DISTANCE_TO_M config.distance_per_step))
  if Dbl.lt delta Dbl.zero = true then
    pure (0, none)
  else
    let t := Dbl.div (Dbl.sub current_speed (Dbl.sqrt delta)) config.max_acceleration
    let next_interval ← S_TO_INTERVAL t
    let t := INTERVAL_TO_S next_interval
    let next_velocity := get_acc_speed config t current_speed
    if next_interval = data.current_interval then
      let next_interval := (next_interval + 1) % 2 ^ 32
      pure (next_interval, some (get_speed config next_interval))
    else
      pure (next_interval, some next_velocity)

/-- The C function `get_next_interval_lin`. -/
def get_next_interval_lin (config : stepper_config) (data : stepper_data) :
    Res (Nat × Option Dbl) := do
  let interval ←
    S_TO_INTERVAL (Dbl.div (DISTANCE_TO_M config.distance_per_step) data.current_velocity)
  pure (interval, some (get_speed config interval))

/-- The C function `get_brake_distance`. The sum of the converted distance and
`distance_per_step`, an `int32_t` addition in the source, is the exact sum: the value of the
source when the sum is a value of `int32_t` (`is_int32`). -/
def get_brake_distance (config : stepper_config) (data : stepper_data) : Res Int := do
  let s ← M_TO_DISTANCE (Dbl.div (Dbl.mul data.current_velocity data.current_velocity)
    (Dbl.mul (Dbl.ofInt 2) config.max_acceleration))
  pure (s + config.distance_per_step)

/-! ## Phase planner -/

/-- The C function `get_next_phase`. The brake point, which the source computes in
`int32_t` and casts to `int32_t`, and `brake_point - distance_per_step` and
`brake_point + distance_per_step` are exact integers: the values of the source when the
arithmetic stays in the range of `int32_t` (`brake_point_in_range`), where the cast changes
nothing. -/
def get_next_phase (config : stepper_config) (data : stepper_data)
    (next_pos : stepper_point_t) : Res move_phase := do
  let bd ← get_brake_distance config data
  let brake_point : Int :=
    if data.forward then next_pos.x - config.distance_per_step - bd
    else next_pos.x + config.distance_per_step + bd
  if data.forward = true ∧ data.position.x < brake_point then
    if data.position.x < brake_point - config.distance_per_step then pure ACCELERATE
    else pure MOVE
  else if data.forward = false ∧ data.position.x > brake_point then
    if data.position.x > brake_point + config.distance_per_step then pure ACCELERATE
    else pure MOVE
  else if 0 < data.current_interval then pure DECELERATE
  else pure STOP

/-- The C function `get_next_interval`. -/
def get_next_interval (config : stepper_config) (data : stepper_data) (phase : move_phase) :
    Res (Nat × Option Dbl) :=
  match phase with
  | ACCELERATE => get_next_interval_acc config data
  | MOVE => get_next_interval_lin config data
  | DECELERATE => get_next_interval_dec config data
  | STOP => pure (0, none)

/-! ## Sequencer -/

/-- The C function `stepper_update_state`. The two calls of `get_next_interval` in the
source (the first with a local `next_velocity`, the second storing through
`&data->current_velocity`) are both present; a call that stores nothing leaves
`current_velocity` as it was. `mem` is the memory holding the path nodes, which the
function only reads. The fuel bounds the depth of the recursion. The `+=` and `-=` on the
`int32_t` position are exact: the values of the source when the result is a value of
`int32_t` (`position_in_range`). -/
def stepper_update_state (config : stepper_config) (mem : Nat → stepper_path_t) :
    Nat → Run → Res Run
  | 0, _ => .timeout
  | fuel + 1, s => do
    let data := s.data
    /- Update current coordinates. -/
    let data : stepper_data :=
      if data.current_interval ≠ 0 then
        if data.forward then
          { data with position := { data.position with
              x := data.position.x + config.distance_per_step } }
        else
          { data with position := { data.position with
              x := data.position.x - config.distance_per_step } }
      else data
    /- Check if the path is not empty. -/
    match data.path with
    | none =>
      if data.current_phase ≠ STOP then
        pure { s with data := { data with
          current_phase := STOP, current_interval := 0, current_velocity := Dbl.zero } }
      else
        pure { s with data := data }
    | some head =>
      /- Check if waypoint has been reached. -/
      let wpt : Bool := decide ((mem head).p.x = data.position.x)
      let calls : List (Nat × Int) :=
        if wpt then
          match (mem head).p.cb with
          | some cb => s.calls ++ [(cb, (mem head).p.x)]
          | none => s.calls
        else s.calls
      let path : Nat :=
        if wpt then
          match (mem head).next with
          | some next => next
          | none => head
        else head
      let data : stepper_data := { data with path := some path }
      /- Navigate to the next point. -/
      let data : stepper_data :=
        if data.current_interval = 0 then
          { data with forward := decide ((mem path).p.x > data.position.x) }
        else data
      let phase ← get_next_phase config data (mem path).p
      let data : stepper_data := { data with current_phase := phase }
      let phase ←
        match (mem path).next with
        | some next =>
          if data.forward then
            if (mem path).p.x < (mem next).p.x then
              get_next_phase config data (mem next).p
            else pure data.current_phase
          else
            if (mem path).p.x > (mem next).p.x then
              get_next_phase config data (mem next).p
            else pure data.current_phase
        | none => pure data.current_phase
      let data : stepper_data := { data with current_phase := phase }
      let probe ← get_next_interval config data data.current_phase
      let data : stepper_data ←
        if probe.1 ≠ 0 ∨ wpt = true then do
          let r ← get_next_interval config data data.current_phase
          pure { data with
            current_interval := r.1
            current_velocity := r.2.getD data.current_velocity }
        else if data.forward = true ∧ (mem path).p.x > data.position.x then
          pure { data with
            current_interval := (data.current_interval + 1) % 2 ^ 32
            current_velocity := get_speed config ((data.current_interval + 1) % 2 ^ 32) }
        else if data.forward = false ∧ (mem path).p.x < data.position.x then
          pure { data with
            current_interval := (data.current_interval + 1) % 2 ^ 32
            current_velocity := get_speed config ((data.current_interval + 1) % 2 ^ 32) }
        else
          pure { data with current_interval := 0, current_velocity := get_speed config 0 }
      /- If calculations returned stop state - pop item from the path. -/
      let data : stepper_data :=
        if data.current_phase = STOP then
          { data with
            current_interval := 0
            current_velocity := Dbl.ofInt 0
            path := (mem path).next }
        else data
      let s1 : Run := { s with data := data, calls := calls }
      /- If stopped - run again, there may be another waypoint to be processed. -/
      if data.current_interval = 0 then stepper_update_state config mem fuel s1
      else pure s1

/-! ## Waypoint queue -/

/-- The loop of `set_next_coord`, started at `last_step`: `ok none` when the loop leaves
the function with `return -1`, `ok (some tail)` when it ends at the last node. -/
def find_tail (mem : Nat → stepper_path_t) (coord : Option Nat) : Nat → Nat → Res (Option Nat)
  | 0, _ => .timeout
  | fuel + 1, last_step =>
    match (mem last_step).next with
    | none => .ok (some last_step)
    | some next => if some next = coord then .ok none else find_tail mem coord fuel next

/-- The C function `set_next_coord`: the returned code and the state after the call. A
`NULL` argument that reaches `coord->next = NULL` is undefined behaviour. The fuel bounds
the number of iterations of the loop. -/
def set_next_coord (fuel : Nat) (s : Sys) (coord : Option Nat) : Res (Int × Sys) :=
  if s.data.path = coord then .ok (-1, s)
  else
    match s.data.path with
    | none =>
      match coord with
      | none => .undefined
      | some c =>
        let s1 : Sys := { s with
          mem := Function.update s.mem c { s.mem c with next := none }
          data := { s.data with path := some c } }
        if s.data.current_interval = 0 then .ok (0, { s1 with submitted := s1.submitted + 1 })
        else .ok (0, s1)
    | some head =>
      match find_tail s.mem coord fuel head with
      | .timeout => .timeout
      | .undefined => .undefined
      | .ok none => .ok (-1, s)
      | .ok (some last_step) =>
        match coord with
        | none => .undefined
        | some c =>
          let mem1 := Function.update s.mem c { s.mem c with next := none }
          .ok (0, { s with
            mem := Function.update mem1 last_step { mem1 last_step with next := some c } })

/-- The pointer `p` leads through exactly the nodes `l`, in this order, to `NULL`: the
queue is a finite `NULL`-terminated chain. -/
def chain (mem : Nat → stepper_path_t) : Option Nat → List Nat → Prop
  | p, [] => p = none
  | p, a :: l => p = some a ∧ chain mem (mem a).next l

/-! ## Runs of the sequencer -/

/-- Continue with the evaluated natural number. -/
def seqNat {α : Type} (n : Nat) (k : Nat → α) : α :=
  match n with
  | 0 => k 0
  | m + 1 => k (m + 1)

/-- Continue with the evaluated integer. -/
def seqInt {α : Type} (z : Int) (k : Int → α) : α :=
  match z with
  | .ofNat n => seqNat n fun n => k (.ofNat n)
  | .negSucc n => seqNat n fun n => k (.negSucc n)

/-- Continue with the evaluated Boolean. -/
def seqBool {α : Type} (b : Bool) (k : Bool → α) : α :=
  match b with
  | true => k true
  | false => k false

/-- Continue with the evaluated pointer. -/
def seqPtr {α : Type} (p : Option Nat) (k : Option Nat → α) : α :=
  match p with
  | none => k none
  | some n => seqNat n fun n => k (some n)

/-- Continue with the evaluated phase. -/
def seqPhase {α : Type} (p : move_phase) (k : move_phase → α) : α :=
  match p with
  | STOP => k STOP
  | ACCELERATE => k ACCELERATE
  | MOVE => k MOVE
  | DECELERATE => k DECELERATE

/-- Continue with the evaluated binary64 datum. -/
def seqDbl {α : Type} (x : Dbl) (k : Dbl → α) : α :=
  match x with
  | .fin s m e => seqBool s fun s => seqNat m fun m => seqInt e fun e => k (.fin s m e)
  | .inf s => seqBool s fun s => k (.inf s)
  | .nan => k .nan

/-- The same driver data with every field evaluated (see `stepper_data_eval_eq`). -/
def stepper_data.eval (d : stepper_data) : stepper_data :=
  seqPhase d.current_phase fun ph =>
  seqNat d.current_interval fun i =>
  seqPtr d.path fun p =>
  seqInt d.position.x fun x =>
  seqPtr d.position.cb fun cb =>
  seqBool d.forward fun f =>
  seqBool d.half_step fun h =>
  seqDbl d.current_velocity fun v =>
  { current_phase := ph, current_interval := i, path := p, position := { x := x, cb := cb },
    forward := f, half_step := h, current_velocity := v }

/-- Continue with the evaluated list of callback invocations. -/
def seqCalls {α : Type} (l : List (Nat × Int)) (k : List (Nat × Int) → α) : α :=
  match l with
  | [] => k []
  | (f, x) :: rest =>
    seqNat f fun f => seqInt x fun x => seqCalls rest fun rest => k ((f, x) :: rest)

/-- The same state with every component evaluated (see `Run_eval_eq`). -/
def Run.eval (s : Run) : Run :=
  seqCalls s.calls fun calls => { data := s.data.eval, calls := calls }

/-- The states after each of the first `n` top-level calls of `stepper_update_state`
(as made by the timer handler or by a test), starting from `s`. The list ends early when
a call does not return. -/
def trace (config : stepper_config) (mem : Nat → stepper_path_t) (fuel : Nat) :
    Nat → Run → List Run
  | 0, _ => []
  | n + 1, s =>
    match stepper_update_state config mem fuel s with
    | .ok s1 => s1.eval :: trace config mem fuel n s1.eval
    | .undefined => []
    | .timeout => []

/-! ## The scenarios of `tests/drivers/stepper/src/main.c` -/

/-- The configuration `dev_config` of the test suite: `distance_per_step = 1`,
`max_acceleration = 0.001`, `max_velocity = 0.01`. -/
def dev_config : stepper_config :=
  { distance_per_step := 1
    max_acceleration := Dbl.ofRatio 1 1000
    max_velocity := Dbl.ofRatio 1 100 }

/-- The driver data at the start of a scenario: position 0, interval 0, velocity 0 and
the queue head `path`. The other fields are those of the test's `dev_data`. -/
def start_data (path : Option Nat) : stepper_data :=
  { current_phase := STOP
    current_interval := 0
    path := path
    position := { x := 0, cb := none }
    forward := false
    half_step := false
    current_velocity := Dbl.zero }

/-- A memory in which the node at address 1 is the waypoint `x₁` followed by `next₁` and
the node at address 2 is the waypoint `x₂`, the last one. The callback of the node at
address `a` is the function `a`. -/
def two_nodes (x₁ : Int) (next₁ : Option Nat) (x₂ : Int) : Nat → stepper_path_t :=
  fun a =>
    if a = 1 then { next := next₁, p := { x := x₁, cb := some 1 } }
    else { next := none, p := { x := x₂, cb := some 2 } }

/-- A stopped motor at position 0 with the given memory and the queue head at address 1. -/
def start_sys (mem : Nat → stepper_path_t) : Sys :=
  { data := start_data (some 1), mem := mem, submitted := 0 }

/-- A stopped motor at position 0 with the queue head at address 1, before any callback. -/
def start_run : Run := { data := start_data (some 1), calls := [] }

/-- The run of `test_stepper_brakes`: queue `[x = 1000]`, 1001 calls. -/
def run_1000 : List Run := trace dev_config (two_nodes 1000 none 0) 4 1001 start_run

/-- The run of `test_negative_stepper_brakes`: queue `[x = -1000]`, 1001 calls. -/
def run_neg_1000 : List Run :=
  trace dev_config (two_nodes (-1000) none 0) 4 1001 start_run

/-- The run of `test_stepper_brakes_2points`: queue `[x = 100, x = 200]`, 201 calls. -/
def run_100_200 : List Run :=
  trace dev_config (two_nodes 100 (some 2) 200) 4 201 start_run

/-- The run of `test_stepper_brakes_revert`: queue `[x = 100, x = 50]`, 151 calls. -/
def run_100_50 : List Run :=
  trace dev_config (two_nodes 100 (some 2) 50) 4 151 start_run

/-- The brake point the tests compute for a forward move to `target`,
`target - distance_per_step - get_brake_distance`, from the current velocity. -/
def brake_point_fwd (config : stepper_config) (target : Int) (d : stepper_data) : Res Int := do
  let bd ← get_brake_distance config d
  pure (target - config.distance_per_step - bd)

/-- The brake point the tests compute for a backward move to `target`,
`target + distance_per_step + get_brake_distance`, from the current velocity. -/
def brake_point_bwd (config : stepper_config) (target : Int) (d : stepper_data) : Res Int := do
  let bd ← get_brake_distance config d
  pure (target + config.distance_per_step + bd)

/-- The phase rule at one state of a forward move, with the brake point of the current
velocity: not `DECELERATE` before the brake point, not `ACCELERATE` at or after it. -/
def brake_rule_fwd (config : stepper_config) (target : Int) (d : stepper_data) : Bool :=
  match brake_point_fwd config target d with
  | .ok bp =>
    if bp > d.position.x then decide (d.current_phase ≠ DECELERATE)
    else decide (d.current_phase ≠ ACCELERATE)
  | .undefined => false
  | .timeout => false

/-- The phase rule at one state of a backward move, with the brake point of the current
velocity: not `DECELERATE` before the brake point, not `ACCELERATE` at or after it. -/
def brake_rule_bwd (config : stepper_config) (target : Int) (d : stepper_data) : Bool :=
  match brake_point_bwd config target d with
  | .ok bp =>
    if bp < d.position.x then decide (d.current_phase ≠ DECELERATE)
    else decide (d.current_phase ≠ ACCELERATE)
  | .undefined => false
  | .timeout => false

/-- The assertions in the loop of `test_stepper_brakes` and `test_stepper_brakes_2points`
at the successive states of a run: the brake point `bp` is recomputed from the current
velocity only while the phase is not `DECELERATE`, and is held otherwise. -/
def brake_asserts_fwd (config : stepper_config) (target : Int) : Int → List Run → Bool
  | _, [] => true
  | bp, s :: rest =>
    match (if s.data.current_phase ≠ DECELERATE then brake_point_fwd config target s.data
           else .ok bp) with
    | .ok bp1 =>
      (if bp1 > s.data.position.x then decide (s.data.current_phase ≠ DECELERATE)
       else decide (s.data.current_phase ≠ ACCELERATE))
      && brake_asserts_fwd config target bp1 rest
    | .undefined => false
    | .timeout => false

/-- The mirror relation between a state `p` of a run to a positive target and the state
`n` of the run to the negated target after the same number of calls. -/
def mirrored (p n : stepper_data) : Prop :=
  n.current_phase = p.current_phase ∧ n.current_interval = p.current_interval ∧
  n.current_velocity = p.current_velocity ∧ n.position.x = -p.position.x ∧
  p.forward = true ∧ n.forward = false

instance (p n : stepper_data) : Decidable (mirrored p n) := by
  unfold mirrored; infer_instance

/-- The driver data after 949 calls of the run to `x = 1000` (and, up to the position and
the queue head, of the run to `[x = 100, x = 200]` after 149 calls). -/
def data_at_brake (head : Nat) (x : Int) : stepper_data :=
  { current_phase := DECELERATE, current_interval := 100505, path := some head,
    position := { x := x, cb := none }, forward := true, half_step := false,
    current_velocity := .fin false 5706677533498743 (-59) }

/-- The driver data at the end of a scenario: stopped at `x` with an empty queue. -/
def data_at_rest (x : Int) : stepper_data :=
  { current_phase := STOP, current_interval := 0, path := none,
    position := { x := x, cb := none }, forward := false, half_step := false,
    current_velocity := .fin false 0 (-1074) }

/-- The driver data once `get_next_interval_acc` has reached `max_velocity` in the test
configuration: interval `100000`, velocity `0.01`. -/
def data_at_max_velocity : stepper_data :=
  { current_phase := STOP, current_interval := 100000, path := none,
    position := { x := 0, cb := none }, forward := false, half_step := false,
    current_velocity := .fin false 5764607523034235 (-59) }

/-! ## The acceleration test `test_stepper_acc` -/

/-- The function `absd` of the test suite, the distance of two values. -/
def absd (a b : Dbl) : Dbl := if Dbl.gt a b then Dbl.sub a b else Dbl.sub b a

/-- One application of `get_next_interval_acc` as the test makes it:
`data->current_interval = get_next_interval_acc(&dev, &data->current_velocity)`. -/
def acc_step (config : stepper_config) (data : stepper_data) : Res stepper_data := do
  let r ← get_next_interval_acc config data
  pure { data with
    current_interval := r.1
    current_velocity := r.2.getD data.current_velocity }

/-- The driver data after `n` successive applications of `get_next_interval_acc`. -/
def acc_run (config : stepper_config) : Nat → stepper_data → Res stepper_data
  | 0, d => .ok d
  | n + 1, d =>
    match acc_step config d with
    | .ok d1 => acc_run config n d1
    | .undefined => .undefined
    | .timeout => .timeout

/-- The acceleration realised by a step from `speed_before` to `speed_after` that takes
`interval` microseconds, `(speed_after - speed_before) / INTERVAL_TO_S(interval)`. -/
def realized_acc (interval : Nat) (speed_before speed_after : Dbl) : Dbl :=
  Dbl.div (Dbl.sub speed_after speed_before) (INTERVAL_TO_S interval)

/-- The comparison the test makes for the step taken from `data`: when the realised
acceleration exceeds `max_acceleration` it is strictly closer to it than the acceleration
realised with the interval plus one; otherwise, unless the velocity after the step is
`max_velocity`, it is strictly closer than the acceleration realised with the interval
minus one. (The test skips the comparison when the second acceleration is `0.0`; that
guard is not needed here.) -/
def acc_step_close (config : stepper_config) (data : stepper_data) : Res Bool := do
  let after ← acc_step config data
  let speed_before := data.current_velocity
  let speed_after := after.current_velocity
  let acc := realized_acc after.current_interval speed_before speed_after
  if Dbl.gt acc config.max_acceleration = true then
    let interval := (after.current_interval + 1) % 2 ^ 32
    let acc2 := realized_acc interval speed_before
      (get_acc_speed config (INTERVAL_TO_S interval) speed_before)
    pure (Dbl.lt (absd acc config.max_acceleration) (absd config.max_acceleration acc2))
  else if Dbl.ne speed_after config.max_velocity = true then
    let interval := (after.current_interval + (2 ^ 32 - 1)) % 2 ^ 32
    let acc2 := realized_acc interval speed_before
      (get_acc_speed config (INTERVAL_TO_S interval) speed_before)
    pure (Dbl.lt (absd acc config.max_acceleration) (absd config.max_acceleration acc2))
  else pure true

/-- The comparison `acc_step_close` holds for the first `n` steps of the run from `d`. -/
def acc_all_close (config : stepper_config) : Nat → stepper_data → Bool
  | 0, _ => true
  | n + 1, d =>
    match acc_step_close config d, acc_step config d with
    | .ok true, .ok d1 => acc_all_close config n d1.eval
    | _, _ => false

/-- The driver data of the acceleration test with the given interval and velocity. -/
def acc_data (interval : Nat) (velocity : Dbl) : stepper_data :=
  { start_data none with current_interval := interval, current_velocity := velocity }

/-- A configuration as the devicetree macro builds it from `distance-per-step-mm = <1>`,
`max-acceleration = <144>` and `max-velocity = <200>`. -/
def brisk_config : stepper_config :=
  { distance_per_step := 1
    max_acceleration := Dbl.div (Dbl.ofInt 144) (Dbl.ofInt 1000)
    max_velocity := Dbl.div (Dbl.ofInt 200) (Dbl.ofInt 1000) }

/-- A configuration as the devicetree macro builds it from `distance-per-step-mm = <1>`,
`max-acceleration = <50>` and `max-velocity = <3>`: the two limits are the integer
properties divided by `1000.0`. -/
def slow_config : stepper_config :=
  { distance_per_step := 1
    max_acceleration := Dbl.div (Dbl.ofInt 50) (Dbl.ofInt 1000)
    max_velocity := Dbl.div (Dbl.ofInt 3) (Dbl.ofInt 1000) }

/-! ## The passes of the sequencer -/

/-- The first block of `stepper_update_state`, "Update current coordinates": a step that
was in flight moves the position by `distance_per_step` in the direction `forward`. The
`+=` and `-=` on the `int32_t` position are exact: the values of the source when the result
is a value of `int32_t` (`position_in_range`). -/
def update_coordinates (config : stepper_config) (data : stepper_data) : stepper_data :=
  if data.current_interval ≠ 0 then
    if data.forward then
      { data with position := { data.position with
          x := data.position.x + config.distance_per_step } }
    else
      { data with position := { data.position with
          x := data.position.x - config.distance_per_step } }
  else data

/-- The block "Check if the path is not empty" of `stepper_update_state` when
`data->path == NULL`: the emergency stop. -/
def empty_path_stop (data : stepper_data) : stepper_data :=
  if data.current_phase ≠ STOP then
    { data with current_phase := STOP, current_interval := 0, current_velocity := Dbl.zero }
  else data

/-- The local `wpt` of `stepper_update_state`: the head waypoint has been reached. -/
def waypoint_reached (mem : Nat → stepper_path_t) (head : Nat) (data : stepper_data) : Bool :=
  decide ((mem head).p.x = data.position.x)

/-- The callback invocations after the block "Check if waypoint has been reached". -/
def arrival_calls (mem : Nat → stepper_path_t) (head : Nat) (wpt : Bool)
    (calls : List (Nat × Int)) : List (Nat × Int) :=
  if wpt then
    match (mem head).p.cb with
    | some cb => calls ++ [(cb, (mem head).p.x)]
    | none => calls
  else calls

/-- The queue head after the block "Check if waypoint has been reached": the successor of
a reached head when there is one. -/
def arrival_head (mem : Nat → stepper_path_t) (head : Nat) (wpt : Bool) : Nat :=
  if wpt then
    match (mem head).next with
    | some next => next
    | none => head
  else head

/-- The block "Navigate to the next point" of `stepper_update_state`: the direction is set
from the head `path` when the motor is stopped. -/
def navigate (mem : Nat → stepper_path_t) (path : Nat) (data : stepper_data) : stepper_data :=
  if data.current_interval = 0 then
    { data with forward := decide ((mem path).p.x > data.position.x) }
  else data

/-- The phase selection of `stepper_update_state` (the assignment of `current_phase` from
the head `path` and the look-ahead to its successor). -/
def select_phase (config : stepper_config) (mem : Nat → stepper_path_t) (path : Nat)
    (data : stepper_data) : Res move_phase := do
  let phase ← get_next_phase config data (mem path).p
  let data : stepper_data := { data with current_phase := phase }
  match (mem path).next with
  | some next =>
    if data.forward then
      if (mem path).p.x < (mem next).p.x then
        get_next_phase config data (mem next).p
      else pure data.current_phase
    else
      if (mem path).p.x > (mem next).p.x then
        get_next_phase config data (mem next).p
      else pure data.current_phase
  | none => pure data.current_phase

/-- The `if` / `else if` chain of `stepper_update_state` after the phase selection, for the
result `probe` of the first call of `get_next_interval`: the newly computed interval is
accepted when it is non-zero or a waypoint has been reached, else the interval is
incremented while the head lies ahead, else the interval is zeroed. -/
def accept_interval (config : stepper_config) (mem : Nat → stepper_path_t) (path : Nat)
    (wpt : Bool) (data : stepper_data) (probe : Nat × Option Dbl) : Res stepper_data :=
  if probe.1 ≠ 0 ∨ wpt = true then do
    let r ← get_next_interval config data data.current_phase
    pure { data with
      current_interval := r.1
      current_velocity := r.2.getD data.current_velocity }
  else if data.forward = true ∧ (mem path).p.x > data.position.x then
    pure { data with
      current_interval := (data.current_interval + 1) % 2 ^ 32
      current_velocity := get_speed config ((data.current_interval + 1) % 2 ^ 32) }
  else if data.forward = false ∧ (mem path).p.x < data.position.x then
    pure { data with
      current_interval := (data.current_interval + 1) % 2 ^ 32
      current_velocity := get_speed config ((data.current_interval + 1) % 2 ^ 32) }
  else
    pure { data with current_interval := 0, current_velocity := get_speed config 0 }

/-- The interval selection of `stepper_update_state`: the first call of
`get_next_interval` and the `if` / `else if` chain on its result. -/
def select_interval (config : stepper_config) (mem : Nat → stepper_path_t) (path : Nat)
    (wpt : Bool) (data : stepper_data) : Res stepper_data := do
  let probe ← get_next_interval config data data.current_phase
  accept_interval config mem path wpt data probe

/-- The block "If calculations returned stop state - pop item from the path" of
`stepper_update_state`. -/
def stop_pop (mem : Nat → stepper_path_t) (path : Nat) (data : stepper_data) : stepper_data :=
  if data.current_phase = STOP then
    { data with
      current_interval := 0
      current_velocity := Dbl.ofInt 0
      path := (mem path).next }
  else data

/-- The queue head of `stepper_update_state` at the phase selection, for a non-empty queue
with the head `head` and the driver data `data` after the update of the coordinates. -/
def pass_head (mem : Nat → stepper_path_t) (head : Nat) (data : stepper_data) : Nat :=
  arrival_head mem head (waypoint_reached mem head data)

/-- The driver data of `stepper_update_state` at the phase selection (after the blocks
"Check if waypoint has been reached" and "Navigate to the next point"), for a non-empty
queue with the head `head` and the driver data `data` after the update of the coordinates. -/
def pass_data (mem : Nat → stepper_path_t) (head : Nat) (data : stepper_data) : stepper_data :=
  navigate mem (pass_head mem head data) { data with path := some (pass_head mem head data) }

/-- One pass through the body of `stepper_update_state`, without the recursive call at its
end. The flag tells whether the pass reached the end of the body (`true`) or left through
the `return` of the empty-path block (`false`). -/
def update_pass (config : stepper_config) (mem : Nat → stepper_path_t) (s : Run) :
    Res (Run × Bool) :=
  let data := update_coordinates config s.data
  match data.path with
  | none => pure ({ s with data := empty_path_stop data }, false)
  | some head => do
    let phase ← select_phase config mem (pass_head mem head data) (pass_data mem head data)
    let data1 ← select_interval config mem (pass_head mem head data)
      (waypoint_reached mem head data) { pass_data mem head data with current_phase := phase }
    pure ({ data := stop_pop mem (pass_head mem head data) data1,
            calls := arrival_calls mem head (waypoint_reached mem head data) s.calls }, true)

/-- The end of the body of `stepper_update_state`: the stop block and the recursive call,
for the driver data `data` after the interval selection. -/
def update_finish (config : stepper_config) (mem : Nat → stepper_path_t) (fuel : Nat)
    (path : Nat) (calls : List (Nat × Int)) (data : stepper_data) : Res Run :=
  if (stop_pop mem path data).current_interval = 0 then
    stepper_update_state config mem fuel { data := stop_pop mem path data, calls := calls }
  else .ok { data := stop_pop mem path data, calls := calls }

/-! ## Position resynchronisation -/

/-- The C function `set_position`: the returned code and the state after the call. The
argument is the target of the pointer `position`, `none` is `NULL`. -/
def set_position (s : Sys) (position : Option stepper_point_t) : Int × Sys :=
  match position with
  | none => (-1, s)
  | some p => (0, { s with data := { s.data with position := { x := p.x, cb := none } } })

/-! ## Runs of the driver -/

/-- The driver data that can occur: the initial data of a device instance (phase `STOP`,
interval 0), the data after a completed call of `stepper_update_state` on data that can
occur, and data that differ from such data in fields other than the phase and the interval
(`set_next_coord` changes the queue, `set_position` the position, the timer handler the
flag `half_step`). -/
inductive Reachable (config : stepper_config) : stepper_data → Prop where
  | init (d : stepper_data) (hphase : d.current_phase = STOP) (hinterval : d.current_interval = 0) :
      Reachable config d
  | update (mem : Nat → stepper_path_t) (fuel : Nat) (s s' : Run) (h : Reachable config s.data)
      (hcall : stepper_update_state config mem fuel s = .ok s') : Reachable config s'.data
  | other (d d' : stepper_data) (h : Reachable config d)
      (hphase : d'.current_phase = d.current_phase)
      (hinterval : d'.current_interval = d.current_interval) : Reachable config d'

/-! ## Hardware: pins, counter, initialisation and the timer handler -/

/-- The value of `ENODEV` in the C library of Zephyr. -/
def ENODEV : Int := 19

/-- What the driver has done to the hardware: the logical level last written to each of
the five pins, the field `alarm_cfg.ticks` of the driver data, the ticks of every alarm
armed with `counter_set_channel_alarm` (oldest first) and the number of calls of
`counter_start`. -/
structure Hw where
  dir : Bool
  step : Bool
  m1 : Bool
  m2 : Bool
  nstby : Bool
  alarm_ticks : Nat
  alarms : List Nat
  counter_starts : Nat
  deriving DecidableEq, Repr

/-- What the hardware answers during `stepper_init`: `device_is_ready` of the port of the
pin `gpios[i]` (`i = 0, ..., 4` for `dir`, `step`, `m1`, `m2`, `nstby`), the value returned by
`gpio_pin_configure_dt` for it, and `device_is_ready(timer_device)`. -/
structure Devices where
  port_ready : Nat → Bool
  configure : Nat → Int
  timer_ready : Bool

/-- The effect of `gpio_pin_set_dt` (and of a successful configuration as
`GPIO_OUTPUT_ACTIVE`) on the pin `gpios[i]`. -/
def Hw.set_pin (hw : Hw) (i : Nat) (level : Bool) : Hw :=
  match i with
  | 0 => { hw with dir := level }
  | 1 => { hw with step := level }
  | 2 => { hw with m1 := level }
  | 3 => { hw with m2 := level }
  | _ => { hw with nstby := level }

/-- The loop `for (size_t i = 0; (i < 5) && !err; i++)` of `stepper_init`, with `n`
iterations left before `i` reaches 5. -/
def init_gpios (dv : Devices) : Nat → Nat → Int → Hw → Int × Hw
  | 0, _, err, hw => (err, hw)
  | n + 1, i, err, hw =>
    if err ≠ 0 then (err, hw)
    else
      let r : Int × Hw :=
        if dv.port_ready i then
          (dv.configure i, if dv.configure i = 0 then hw.set_pin i true else hw)
        else (-ENODEV, hw)
      if r.1 ≠ 0 then r
      else init_gpios dv n (i + 1) r.1 r.2

/-- The C comma operator `a, b`: the left operand is evaluated and dropped, the value is
the right operand. -/
def comma {α β : Type} (_ : α) (b : β) : β := b

/-- The C function `stepper_init`: the returned code and the hardware after the call. The
condition of the last `if` is the comma expression
`device_is_ready(timer_device), "Timer device not ready"`; its right operand is a string
literal, a non-null pointer, which counts as true. -/
def stepper_init (dv : Devices) (hw : Hw) : Int × Hw :=
  let r := init_gpios dv 5 0 0 hw
  let hw := ((r.2.set_pin 2 false).set_pin 3 false).set_pin 4 false
  let hw :=
    if comma dv.timer_ready true then { hw with counter_starts := hw.counter_starts + 1 }
    else hw
  (r.1, hw)

/-- The C function `stepper_timer_start`; `counter_us_to_ticks` is the conversion of the
counter driver for `timer_device`. -/
def stepper_timer_start (counter_us_to_ticks : Nat → Nat) (data : stepper_data) (hw : Hw) : Hw :=
  if data.current_interval > 0 then
    { hw with
      nstby := true
      alarm_ticks := counter_us_to_ticks data.current_interval
      alarms := hw.alarms ++ [counter_us_to_ticks data.current_interval] }
  else
    { hw with nstby := false }

/-- The block of `stepper_timer_handler` that toggles the step pin: with `half_step` set
the pin is written 0 and the flag is cleared, else the pin is written 1 and the flag is
set. -/
def toggle_step (s : Run) (hw : Hw) : Run × Hw :=
  if s.data.half_step then
    ({ s with data := { s.data with half_step := false } }, { hw with step := false })
  else
    ({ s with data := { s.data with half_step := true } }, { hw with step := true })

/-- The block of `stepper_timer_handler` that writes the direction pin from `forward`. -/
def write_direction (data : stepper_data) (hw : Hw) : Hw :=
  if data.forward then { hw with dir := true } else { hw with dir := false }

/-- The C function `stepper_timer_handler`. -/
def stepper_timer_handler (config : stepper_config) (mem : Nat → stepper_path_t)
    (counter_us_to_ticks : Nat → Nat) (fuel : Nat) (s : Run) (hw : Hw) : Res (Run × Hw) :=
  if s.data.current_interval = 0 then do
    let s ← stepper_update_state config mem fuel s
    pure (s, stepper_timer_start counter_us_to_ticks s.data hw)
  else do
    let s ← if s.data.half_step = false then stepper_update_state config mem fuel s else pure s
    let r := toggle_step s hw
    let hw := write_direction r.1.data r.2
    pure (r.1, stepper_timer_start counter_us_to_ticks r.1.data hw)

/-! ## The deceleration step -/

/-- The discriminant `delta` of `get_next_interval_dec`,
`v * v - 2.0 * max_acceleration * DISTANCE_TO_M(distance_per_step)`. -/
def dec_discriminant (config : stepper_config) (data : stepper_data) : Dbl :=
  Dbl.sub (Dbl.mul data.current_velocity data.current_velocity)
    (Dbl.mul (Dbl.mul (Dbl.ofInt 2) config.max_acceleration)
      (DISTANCE_TO_M config.distance_per_step))

/-- The solution `t` of `get_next_interval_dec` before its conversion to microseconds,
`(v - sqrt(delta)) / max_acceleration`. -/
def dec_solution (config : stepper_config) (data : stepper_data) : Dbl :=
  Dbl.div (Dbl.sub data.current_velocity (Dbl.sqrt (dec_discriminant config data)))
    config.max_acceleration

/-! ## Look-ahead -/

/-- The waypoint the look-ahead rule names for the queue head `path` and the direction
`forward`: the successor of the head when there is one and it lies further along the
direction of travel (forward and `head.x < next.x`, or backward and `head.x > next.x`), and
the head in every other case. -/
def lookahead_target (mem : Nat → stepper_path_t) (path : Nat) (forward : Bool) :
    stepper_point_t :=
  match (mem path).next with
  | some next =>
    if (forward = true ∧ (mem path).p.x < (mem next).p.x) ∨
        (forward = false ∧ (mem path).p.x > (mem next).p.x) then (mem next).p
    else (mem path).p
  | none => (mem path).p

/-! ## A state of the two-waypoint scenario -/

/-- The motor of the test configuration moving forward at `max_velocity` at position `x`,
in phase `ACCELERATE`, with the queue head at address 1. -/
def cruising (x : Int) : Run :=
  { data :=
      { current_phase := ACCELERATE, current_interval := 100000, path := some 1,
        position := { x := x, cb := none }, forward := true, half_step := false,
        current_velocity := .fin false 5764607523034235 (-59) },
    calls := [] }

/-- The hardware before the driver has touched it. -/
def idle_hw : Hw :=
  { dir := false, step := false, m1 := false, m2 := false, nstby := false,
    alarm_ticks := 0, alarms := [], counter_starts := 0 }

/-! ## The course of a deceleration -/

/-- The intervals of the successive states `prev`, then those of the list, strictly
increase. -/
def intervals_increase_from (prev : Run) : List Run → Bool
  | [] => true
  | s :: rest =>
    decide (prev.data.current_interval < s.data.current_interval) &&
      intervals_increase_from s rest

/-- The intervals of the successive states strictly increase. -/
def intervals_increase : List Run → Bool
  | [] => true
  | s :: rest => intervals_increase_from s rest

/-- The numbers of the calls, counted from `k` for the first state of the list, after
which the velocity is not strictly below the velocity of the state before (`prev` for the
first one). -/
def velocity_rises_from (prev : Run) : Nat → List Run → List Nat
  | _, [] => []
  | k, s :: rest =>
    if Dbl.lt s.data.current_velocity prev.data.current_velocity then
      velocity_rises_from s (k + 1) rest
    else k :: velocity_rises_from s (k + 1) rest

/-- The numbers of the calls after which the velocity is not strictly below the velocity
after the call before, for the states after the calls `k`, `k + 1`, ... -/
def velocity_rises (k : Nat) : List Run → List Nat
  | [] => []
  | s :: rest => velocity_rises_from s (k + 1) rest

/-- Driver data of a forward move with the queue head at address 1. -/
def moving (phase : move_phase) (interval : Nat) (x : Int) (velocity : Dbl) : stepper_data :=
  { current_phase := phase, current_interval := interval, path := some 1,
    position := { x := x, cb := none }, forward := true, half_step := false,
    current_velocity := velocity }

/-! ## Values of binary64 data -/

/-- The binary64 datum `x` is finite and positive with the value `r`. -/
def Dbl.IsPos (x : Dbl) (r : ℚ) : Prop :=
  ∃ m e, x = .fin false m e ∧ 0 < m ∧ (m : ℚ) * 2 ^ e = r

/-- The value `x` is the real `r` up to the relative error `2^-53` of one rounding to
nearest. -/
def Dbl.Near (x r : ℚ) : Prop :=
  r * (1 - 2 ^ (-53 : Int)) ≤ x ∧ x ≤ r * (1 + 2 ^ (-53 : Int))

/-- The real `r` lies between `2^-k` and `2^k`. -/
def Dbl.Within (k : Nat) (r : ℚ) : Prop :=
  (2 : ℚ) ^ (-(k : Int)) ≤ r ∧ r ≤ 2 ^ (k : Int)

/-! ## Signs of binary64 data -/

/-- The sign bit of the datum is clear (`+0`, a positive number, `+inf`), or the datum is a
NaN. -/
def Dbl.nonneg : Dbl → Bool
  | .fin s _ _ => !s
  | .inf s => !s
  | .nan => true

/-! ## The acceleration step -/

/-- The solution `t` of `get_next_interval_acc` before its conversion to microseconds,
`(-v + sqrt(v * v + 2.0 * max_acceleration * DISTANCE_TO_M(distance_per_step))) /
max_acceleration`. -/
def acc_solution (config : stepper_config) (data : stepper_data) : Dbl :=
  Dbl.div
    (Dbl.add (Dbl.neg data.current_velocity)
      (Dbl.sqrt (Dbl.add (Dbl.mul data.current_velocity data.current_velocity)
        (Dbl.mul (Dbl.mul (Dbl.ofInt 2) config.max_acceleration)
          (DISTANCE_TO_M config.distance_per_step)))))
    config.max_acceleration

/-- The condition of the `if` of `get_next_interval_acc` under "Check for maximum allowed
velocity", for the interval `next_interval` converted from the solution. -/
def acc_clamped (config : stepper_config) (data : stepper_data) (next_interval : Nat) : Prop :=
  0 < next_interval ∧
    Dbl.gt (get_acc_speed config (INTERVAL_TO_S next_interval) data.current_velocity)
      config.max_velocity = true

/-! ## Runs of the timer handler -/

/-- The state after `n` successive calls of `stepper_timer_handler`, the first one made by
the work item that `set_next_coord` submits and the others by the alarm. -/
def handler_run (config : stepper_config) (mem : Nat → stepper_path_t)
    (counter_us_to_ticks : Nat → Nat) (fuel : Nat) : Nat → Run × Hw → Res (Run × Hw)
  | 0, r => .ok r
  | n + 1, r =>
    match stepper_timer_handler config mem counter_us_to_ticks fuel r.1 r.2 with
    | .ok r1 => handler_run config mem counter_us_to_ticks fuel n (r1.1.eval, r1.2)
    | .undefined => .undefined
    | .timeout => .timeout

/-- The driver data of `STEPPER_DEVICE` (phase `STOP`, interval 0, velocity 0, position 0,
`forward = true`, `half_step = false`) once `set_next_coord` has queued the node at
address 1, before any callback. -/
def device_run : Run := { data := { start_data (some 1) with forward := true }, calls := [] }

/-! ## A configuration with a step of two millimetres -/

/-- The test configuration with `distance_per_step = 2`. -/
def wide_config : stepper_config := { dev_config with distance_per_step := 2 }

/-- Driver data of a move with the queue head at address 1. -/
def heading (forward : Bool) (phase : move_phase) (interval : Nat) (x : Int) (velocity : Dbl) :
    stepper_data :=
  { current_phase := phase, current_interval := interval, path := some 1,
    position := { x := x, cb := none }, forward := forward, half_step := false,
    current_velocity := velocity }

/-! ## A motor whose queue has been emptied -/

/-- A motor moving backward at `max_velocity` in the test configuration, at position 0,
with an empty queue. -/
def starved : Run := { data := { data_at_max_velocity with current_phase := MOVE }, calls := [] }

/-- Decision of the condition `acc_clamped`. -/
instance (config : stepper_config) (data : stepper_data) (next_interval : Nat) :
    Decidable (acc_clamped config data next_interval) := by
  unfold acc_clamped; infer_instance

/-! ## The integer helpers of the binary64 model -/

namespace Dbl

theorem ilog2Step_spec (n k a : Nat) (h₁ : 2 ^ a ≤ n) (h₂ : n < 2 ^ (a + (k + k))) :
    2 ^ ilog2Step n k a ≤ n ∧ n < 2 ^ (ilog2Step n k a + k) := by
  unfold ilog2Step
  cases h : Nat.ble (2 ^ (a + k)) n with
  | true =>
    simp only [cond_true]
    exact ⟨Nat.le_of_ble_eq_true h, by rw [Nat.add_assoc]; exact h₂⟩
  | false =>
    simp only [cond_false]
    refine ⟨h₁, ?_⟩
    have : ¬ 2 ^ (a + k) ≤ n := fun hle => by
      rw [Nat.ble_eq_true_of_le hle] at h
      exact Bool.noConfusion h
    exact Nat.lt_of_not_le this

theorem ilog2Search_spec (n : Nat) :
    ∀ (j acc : Nat), 2 ^ acc ≤ n → n < 2 ^ (acc + 2 ^ j) →
      2 ^ ilog2Search n j acc ≤ n ∧ n < 2 ^ (ilog2Search n j acc + 1) := by
  intro j
  induction j with
  | zero =>
    intro acc h₁ h₂
    exact ⟨h₁, by simpa [ilog2Search] using h₂⟩
  | succ j ih =>
    intro acc h₁ h₂
    unfold ilog2Search
    cases h : Nat.ble (2 ^ (acc + 2 ^ j)) n with
    | true =>
      simp only [cond_true]
      refine ih _ (Nat.le_of_ble_eq_true h) ?_
      rw [Nat.add_assoc, ← Nat.two_mul, ← Nat.pow_succ']
      exact h₂
    | false =>
      simp only [cond_false]
      refine ih _ h₁ ?_
      have : ¬ 2 ^ (acc + 2 ^ j) ≤ n := fun hle => by
        rw [Nat.ble_eq_true_of_le hle] at h
        exact Bool.noConfusion h
      exact Nat.lt_of_not_le this

theorem ilog2Levels_spec (n : Nat) :
    ∀ (fuel j : Nat), n < 2 ^ 2 ^ (j + fuel) → n < 2 ^ 2 ^ ilog2Levels n fuel j := by
  intro fuel
  induction fuel with
  | zero => intro j h; simpa [ilog2Levels] using h
  | succ fuel ih =>
    intro j h
    unfold ilog2Levels
    cases hb : Nat.blt n (2 ^ 2 ^ j) with
    | true =>
      simp only [cond_true]
      exact Nat.lt_of_lt_of_le (Nat.le_of_ble_eq_true hb) (Nat.le_refl _)
    | false =>
      simp only [cond_false]
      exact ih (j + 1) (by rw [Nat.add_assoc, Nat.add_comm 1 fuel]; exact h)

/-- The function `ilog2` is the binary logarithm: `2^(ilog2 n) ≤ n < 2^(ilog2 n + 1)`. -/
theorem ilog2_spec (n : Nat) (hn : 0 < n) : 2 ^ ilog2 n ≤ n ∧ n < 2 ^ (ilog2 n + 1) := by
  have h0 : 2 ^ 0 ≤ n := hn
  unfold ilog2
  cases h64 : Nat.blt n (2 ^ 64) with
  | true =>
    simp only [cond_true]
    have hlt : n < 2 ^ (0 + (32 + 32)) := by
      rw [show 0 + (32 + 32) = 64 from rfl]
      exact Nat.le_of_ble_eq_true h64
    obtain ⟨a1, b1⟩ := ilog2Step_spec n 32 0 h0 hlt
    obtain ⟨a2, b2⟩ := ilog2Step_spec n 16 _ a1 b1
    obtain ⟨a3, b3⟩ := ilog2Step_spec n 8 _ a2 b2
    obtain ⟨a4, b4⟩ := ilog2Step_spec n 4 _ a3 b3
    obtain ⟨a5, b5⟩ := ilog2Step_spec n 2 _ a4 b4
    exact ilog2Step_spec n 1 _ a5 b5
  | false =>
    simp only [cond_false]
    cases h256 : Nat.blt n (2 ^ 256) with
    | true =>
      simp only [cond_true]
      have hlt : n < 2 ^ (0 + (128 + 128)) := by
        rw [show 0 + (128 + 128) = 256 from rfl]
        exact Nat.le_of_ble_eq_true h256
      obtain ⟨a1, b1⟩ := ilog2Step_spec n 128 0 h0 hlt
      obtain ⟨a2, b2⟩ := ilog2Step_spec n 64 _ a1 b1
      obtain ⟨a3, b3⟩ := ilog2Step_spec n 32 _ a2 b2
      obtain ⟨a4, b4⟩ := ilog2Step_spec n 16 _ a3 b3
      obtain ⟨a5, b5⟩ := ilog2Step_spec n 8 _ a4 b4
      obtain ⟨a6, b6⟩ := ilog2Step_spec n 4 _ a5 b5
      obtain ⟨a7, b7⟩ := ilog2Step_spec n 2 _ a6 b6
      exact ilog2Step_spec n 1 _ a7 b7
    | false =>
      simp only [cond_false]
      cases h4096 : Nat.blt n (2 ^ 4096) with
      | true =>
        simp only [cond_true]
        have hlt : n < 2 ^ (0 + (2048 + 2048)) := by
          rw [show 0 + (2048 + 2048) = 4096 from rfl]
          exact Nat.le_of_ble_eq_true h4096
        obtain ⟨a1, b1⟩ := ilog2Step_spec n 2048 0 h0 hlt
        obtain ⟨a2, b2⟩ := ilog2Step_spec n 1024 _ a1 b1
        obtain ⟨a3, b3⟩ := ilog2Step_spec n 512 _ a2 b2
        obtain ⟨a4, b4⟩ := ilog2Step_spec n 256 _ a3 b3
        obtain ⟨a5, b5⟩ := ilog2Step_spec n 128 _ a4 b4
        obtain ⟨a6, b6⟩ := ilog2Step_spec n 64 _ a5 b5
        obtain ⟨a7, b7⟩ := ilog2Step_spec n 32 _ a6 b6
        obtain ⟨a8, b8⟩ := ilog2Step_spec n 16 _ a7 b7
        obtain ⟨a9, b9⟩ := ilog2Step_spec n 8 _ a8 b8
        obtain ⟨a10, b10⟩ := ilog2Step_spec n 4 _ a9 b9
        obtain ⟨a11, b11⟩ := ilog2Step_spec n 2 _ a10 b10
        exact ilog2Step_spec n 1 _ a11 b11
      | false =>
        simp only [cond_false]
        refine ilog2Search_spec n _ 0 h0 ?_
        rw [Nat.zero_add]
        refine ilog2Levels_spec n n 0 ?_
        rw [Nat.zero_add]
        exact Nat.lt_of_lt_of_le (Nat.lt_two_pow n)
          (Nat.pow_le_pow_right (by decide) (Nat.le_of_lt (Nat.lt_two_pow n)))

/-- The function `ilog2` agrees with the library's `Nat.log2`. -/
theorem ilog2_eq_log2 (n : Nat) : ilog2 n = Nat.log2 n := by
  rcases Nat.eq_zero_or_pos n with rfl | hn
  · decide!
  · obtain ⟨h₁, h₂⟩ := ilog2_spec n hn
    have hne : n ≠ 0 := Nat.pos_iff_ne_zero.mp hn
    have a : ilog2 n ≤ n.log2 := (Nat.le_log2 hne).2 h₁
    have b : n.log2 < ilog2 n + 1 := (Nat.log2_lt hne).2 h₂
    omega

theorem isqrtIter_eq (n : Nat) :
    ∀ (fuel x : Nat), x ≤ fuel → isqrtIter n fuel x = Nat.sqrt.iter n x := by
  intro fuel
  induction fuel with
  | zero =>
    intro x hx
    have hx0 : x = 0 := Nat.le_zero.mp hx
    subst hx0
    unfold Nat.sqrt.iter
    simp [isqrtIter]
  | succ fuel ih =>
    intro x hx
    unfold Nat.sqrt.iter
    unfold isqrtIter
    by_cases h : (x + n / x) / 2 < x
    · have hb : Nat.blt ((x + n / x) / 2) x = true := Nat.ble_eq_true_of_le h
      simp only [hb, cond_true, h, dite_true]
      exact ih _ (by omega)
    · have hb : Nat.blt ((x + n / x) / 2) x = false := by
        cases hc : Nat.blt ((x + n / x) / 2) x with
        | false => rfl
        | true => exact absurd (Nat.le_of_ble_eq_true hc) h
      simp only [hb, cond_false, h, dite_false]

/-- The function `isqrt` is the integer square root:
`isqrt n * isqrt n ≤ n < (isqrt n + 1) * (isqrt n + 1)`. -/
theorem isqrt_spec (n : Nat) :
    isqrt n * isqrt n ≤ n ∧ n < (isqrt n + 1) * (isqrt n + 1) := by
  unfold isqrt
  cases h : Nat.ble n 1 with
  | true =>
    simp only [cond_true]
    have : n ≤ 1 := Nat.le_of_ble_eq_true h
    interval_cases n <;> simp
  | false =>
    simp only [cond_false]
    have hn : 0 < n := by
      rcases Nat.eq_zero_or_pos n with h0 | h0
      · subst h0; simp at h
      · exact h0
    rw [isqrtIter_eq n _ _ (Nat.le_refl _)]
    refine ⟨Nat.sqrt.iter_sq_le _ _, Nat.sqrt.lt_iter_succ_sq _ _ ?_⟩
    obtain ⟨_, h₂⟩ := ilog2_spec n hn
    have hle : ilog2 n + 1 ≤ (ilog2 n / 2 + 1) + (ilog2 n / 2 + 1) := by omega
    calc n < 2 ^ (ilog2 n + 1) := h₂
      _ ≤ 2 ^ ((ilog2 n / 2 + 1) + (ilog2 n / 2 + 1)) := Nat.pow_le_pow_right (by decide) hle
      _ = 2 ^ (ilog2 n / 2 + 1) * 2 ^ (ilog2 n / 2 + 1) := Nat.pow_add _ _ _
      _ ≤ (2 ^ (ilog2 n / 2 + 1) + 1) * (2 ^ (ilog2 n / 2 + 1) + 1) :=
        Nat.mul_le_mul (Nat.le_succ _) (Nat.le_succ _)

theorem pow2Le_iff (n d : Nat) (h : Int) :
    pow2Le n d h = true ↔ (d : ℚ) * 2 ^ h ≤ n := by
  unfold pow2Le
  rw [Nat.ble_eq]
  rcases le_total 0 h with hh | hh
  · obtain ⟨k, rfl⟩ := Int.eq_ofNat_of_zero_le hh
    have e1 : (-(k : Int)).toNat = 0 := by omega
    simp only [Int.toNat_ofNat, e1, pow_zero, mul_one, zpow_natCast]
    exact_mod_cast Iff.rfl
  · obtain ⟨k, hk⟩ := Int.eq_ofNat_of_zero_le (neg_nonneg.mpr hh)
    have hk' : h = -(k : Int) := by omega
    subst hk'
    have e1 : (-(k : Int)).toNat = 0 := by omega
    have e2 : (-(-(k : Int))).toNat = k := by omega
    simp only [e1, e2, pow_zero, mul_one, zpow_neg, zpow_natCast]
    have hpos : (0 : ℚ) < 2 ^ k := by positivity
    rw [← div_eq_mul_inv, div_le_iff₀ hpos]
    exact_mod_cast Iff.rfl

theorem pow2Le_mono (n d : Nat) (h h' : Int) (hle : h' ≤ h) (hp : pow2Le n d h = true) :
    pow2Le n d h' = true := by
  rw [pow2Le_iff] at hp ⊢
  refine le_trans ?_ hp
  refine mul_le_mul_of_nonneg_left ?_ (Nat.cast_nonneg d)
  exact zpow_le_zpow_right₀ (by norm_num) hle

theorem pow2Le_unique (n d : Nat) (x y : Int)
    (hx : pow2Le n d x = true) (hx' : pow2Le n d (x + 1) = false)
    (hy : pow2Le n d y = true) (hy' : pow2Le n d (y + 1) = false) : x = y := by
  rcases lt_trichotomy x y with h | h | h
  · have := pow2Le_mono n d y (x + 1) (by omega) hy
    rw [this] at hx'
    exact Bool.noConfusion hx'
  · exact h
  · have := pow2Le_mono n d x (y + 1) (by omega) hx
    rw [this] at hy'
    exact Bool.noConfusion hy'

/-- The function `floorLog2` is the logarithm of the quotient:
`2^(floorLog2 n d) ≤ n / d < 2^(floorLog2 n d + 1)`. -/
theorem floorLog2_spec (n d : Nat) (hn : 0 < n) (hd : 0 < d) :
    pow2Le n d (floorLog2 n d) = true ∧ pow2Le n d (floorLog2 n d + 1) = false := by
  obtain ⟨a₁, a₂⟩ := ilog2_spec n hn
  obtain ⟨b₁, b₂⟩ := ilog2_spec d hd
  have a₁' : (2 : ℚ) ^ (ilog2 n : Int) ≤ n := by
    rw [zpow_natCast]; exact_mod_cast a₁
  have a₂' : (n : ℚ) < 2 ^ ((ilog2 n : Int) + 1) := by
    rw [show ((ilog2 n : Int) + 1) = ((ilog2 n + 1 : Nat) : Int) from rfl, zpow_natCast]
    exact_mod_cast a₂
  have b₁' : (2 : ℚ) ^ (ilog2 d : Int) ≤ d := by
    rw [zpow_natCast]; exact_mod_cast b₁
  have b₂' : (d : ℚ) < 2 ^ ((ilog2 d : Int) + 1) := by
    rw [show ((ilog2 d : Int) + 1) = ((ilog2 d + 1 : Nat) : Int) from rfl, zpow_natCast]
    exact_mod_cast b₂
  have two_ne : (2 : ℚ) ≠ 0 := by norm_num
  -- one above the difference of the logarithms is too much
  have hi : pow2Le n d ((ilog2 n : Int) - (ilog2 d : Int) + 1) = false := by
    cases hc : pow2Le n d ((ilog2 n : Int) - (ilog2 d : Int) + 1) with
    | false => rfl
    | true =>
      rw [pow2Le_iff] at hc
      have h1 : (2 : ℚ) ^ (ilog2 d : Int) * 2 ^ ((ilog2 n : Int) - (ilog2 d : Int) + 1) ≤
          (d : ℚ) * 2 ^ ((ilog2 n : Int) - (ilog2 d : Int) + 1) :=
        mul_le_mul_of_nonneg_right b₁' (by positivity)
      rw [← zpow_add₀ two_ne] at h1
      have h2 : (ilog2 d : Int) + ((ilog2 n : Int) - (ilog2 d : Int) + 1) = (ilog2 n : Int) + 1 := by
        omega
      rw [h2] at h1
      exact absurd (lt_of_lt_of_le a₂' (le_trans h1 hc)) (lt_irrefl _)
  -- one below the difference of the logarithms is not
  have lo : pow2Le n d ((ilog2 n : Int) - (ilog2 d : Int) - 1) = true := by
    rw [pow2Le_iff]
    have h1 : (d : ℚ) * 2 ^ ((ilog2 n : Int) - (ilog2 d : Int) - 1) ≤
        2 ^ ((ilog2 d : Int) + 1) * 2 ^ ((ilog2 n : Int) - (ilog2 d : Int) - 1) :=
      mul_le_mul_of_nonneg_right (le_of_lt b₂') (by positivity)
    rw [← zpow_add₀ two_ne] at h1
    have h2 : (ilog2 d : Int) + 1 + ((ilog2 n : Int) - (ilog2 d : Int) - 1) = (ilog2 n : Int) := by
      omega
    rw [h2] at h1
    exact le_trans h1 a₁'
  unfold floorLog2
  cases hc : pow2Le n d ((ilog2 n : Int) - (ilog2 d : Int)) with
  | true => simp only [cond_true]; exact ⟨hc, hi⟩
  | false =>
    simp only [cond_false]
    refine ⟨lo, ?_⟩
    rw [show (ilog2 n : Int) - (ilog2 d : Int) - 1 + 1 = (ilog2 n : Int) - (ilog2 d : Int) by omega]
    exact hc

/-- The guess passed to `floorLog2Near` does not change its result. -/
theorem floorLog2Near_eq (n d : Nat) (h : Int) (hn : 0 < n) (hd : 0 < d) :
    floorLog2Near n d h = floorLog2 n d := by
  obtain ⟨s₁, s₂⟩ := floorLog2_spec n d hn hd
  unfold floorLog2Near
  cases h0 : pow2Le n d h with
  | true =>
    simp only [cond_true]
    cases h1 : pow2Le n d (h + 1) with
    | false =>
      simp only [Bool.not_false, cond_true]
      exact pow2Le_unique n d _ _ h0 h1 s₁ s₂
    | true =>
      simp only [Bool.not_true, cond_false]
      cases h2 : pow2Le n d (h + 2) with
      | false =>
        simp only [Bool.not_false, cond_true]
        exact pow2Le_unique n d _ _ h1 (by rw [show h + 1 + 1 = h + 2 by omega]; exact h2) s₁ s₂
      | true => simp only [Bool.not_true, cond_false]
  | false =>
    simp only [cond_false]
    cases h1 : pow2Le n d (h - 1) with
    | true =>
      simp only [cond_true]
      exact pow2Le_unique n d _ _ h1 (by rw [show h - 1 + 1 = h by omega]; exact h0) s₁ s₂
    | false => simp only [cond_false]

/-- Rounding with a guess of the logarithm is rounding. -/
theorem roundNear_eq (s : Bool) (n d : Nat) (h : Int) (hd : 0 < d) :
    roundNear s n d h = round s n d := by
  unfold roundNear round
  cases hn : Nat.beq n 0 with
  | true => rfl
  | false =>
    have hpos : 0 < n := by
      rcases Nat.eq_zero_or_pos n with h0 | h0
      · subst h0; simp at hn
      · exact h0
    simp only [cond_false, floorLog2Near_eq n d h hpos hd]

/-- Rounding an exact dyadic value does not depend on the guess of the logarithm. -/
theorem ofExact_eq (s : Bool) (m : Nat) (e b : Int) :
    ofExact s m e b = round s (m * 2 ^ e.toNat) (2 ^ (-e).toNat) := by
  unfold ofExact
  exact roundNear_eq s _ _ _ (Nat.pow_pos (by decide))

end Dbl

/-! ## Evaluation order -/

theorem seqNat_eq {α : Type} (n : Nat) (k : Nat → α) : seqNat n k = k n := by
  cases n <;> rfl

theorem seqInt_eq {α : Type} (z : Int) (k : Int → α) : seqInt z k = k z := by
  cases z <;> simp [seqInt, seqNat_eq]

theorem seqBool_eq {α : Type} (b : Bool) (k : Bool → α) : seqBool b k = k b := by
  cases b <;> rfl

theorem seqPtr_eq {α : Type} (p : Option Nat) (k : Option Nat → α) : seqPtr p k = k p := by
  cases p <;> simp [seqPtr, seqNat_eq]

theorem seqPhase_eq {α : Type} (p : move_phase) (k : move_phase → α) : seqPhase p k = k p := by
  cases p <;> rfl

theorem seqDbl_eq {α : Type} (x : Dbl) (k : Dbl → α) : seqDbl x k = k x := by
  cases x <;> simp [seqDbl, seqNat_eq, seqInt_eq, seqBool_eq]

theorem stepper_data_eval_eq (d : stepper_data) : d.eval = d := by
  simp [stepper_data.eval, seqNat_eq, seqInt_eq, seqBool_eq, seqPtr_eq, seqPhase_eq, seqDbl_eq]

theorem seqCalls_eq {α : Type} (l : List (Nat × Int)) (k : List (Nat × Int) → α) :
    seqCalls l k = k l := by
  induction l generalizing k with
  | nil => rfl
  | cons a l ih =>
    obtain ⟨f, x⟩ := a
    simp [seqCalls, seqNat_eq, seqInt_eq, ih]

theorem Run_eval_eq (s : Run) : s.eval = s := by
  simp [Run.eval, seqCalls_eq, stepper_data_eval_eq]

theorem Dbl_mk_eq (s : Bool) (m : Nat) (e : Int) : Dbl.mk s m e = Dbl.fin s m e := by
  unfold Dbl.mk; split <;> rfl

theorem Res_nat_eq (n : Nat) : Res.nat n = .ok n := by
  cases n <;> rfl

theorem Res_int_eq (z : Int) : Res.int z = .ok z := by
  unfold Res.int; split <;> rfl

/-- The list `trace config fuel n s` consists of the states reached by successive calls:
its first element is the result of the call on `s`, the rest is the trace from there. -/
theorem trace_succ (config : stepper_config) (mem : Nat → stepper_path_t) (fuel n : Nat)
    (s s1 : Run) (h : stepper_update_state config mem fuel s = .ok s1) :
    trace config mem fuel (n + 1) s = s1 :: trace config mem fuel n s1 := by
  simp [trace, h, Run_eval_eq]

theorem exists_mem_of_map_getElem? {α β : Type} (f : α → β) (l : List α) (i : Nat) (b : β)
    (h : (l.map f)[i]? = some b) : ∃ a ∈ l, f a = b := by
  rw [List.getElem?_map] at h
  cases ha : l[i]? with
  | none => simp [ha] at h
  | some a =>
    simp [ha] at h
    exact ⟨a, List.getElem?_mem ha, h⟩

/-! ## Properties of the waypoint queue -/

theorem chain_unique (mem : Nat → stepper_path_t) :
    ∀ (l l' : List Nat) (p : Option Nat), chain mem p l → chain mem p l' → l = l' := by
  intro l
  induction l with
  | nil =>
    intro l' p h h'
    cases l' with
    | nil => rfl
    | cons b l' =>
      simp only [chain] at h h'
      rw [h] at h'
      exact absurd h'.1 (by simp)
  | cons a l ih =>
    intro l' p h h'
    cases l' with
    | nil =>
      simp only [chain] at h h'
      rw [h'] at h
      exact absurd h.1 (by simp)
    | cons b l' =>
      simp only [chain] at h h'
      have hab : a = b := by
        have := h.1.symm.trans h'.1
        exact Option.some.inj this
      subst hab
      rw [ih l' _ h.2 h'.2]

theorem chain_mem_suffix (mem : Nat → stepper_path_t) (c : Nat) :
    ∀ (l : List Nat) (p : Option Nat), chain mem p l → c ∈ l →
      ∃ l₂, l₂.length < l.length ∧ chain mem (mem c).next l₂ := by
  intro l
  induction l with
  | nil => intro p _ hc; simp at hc
  | cons a l ih =>
    intro p h hc
    simp only [chain] at h
    rcases List.mem_cons.mp hc with hca | hcl
    · subst hca
      exact ⟨l, by simp, h.2⟩
    · obtain ⟨l₂, hlen, hch⟩ := ih _ h.2 hcl
      exact ⟨l₂, by simp; omega, hch⟩

theorem chain_nodup (mem : Nat → stepper_path_t) :
    ∀ (l : List Nat) (p : Option Nat), chain mem p l → l.Nodup := by
  intro l
  induction l with
  | nil => intro p _; exact List.nodup_nil
  | cons a l ih =>
    intro p h
    simp only [chain] at h
    refine List.nodup_cons.mpr ⟨?_, ih _ h.2⟩
    intro ha
    obtain ⟨l₂, hlen, hch⟩ := chain_mem_suffix mem a l _ h.2 ha
    have := chain_unique mem _ _ _ h.2 hch
    rw [this] at hlen
    exact absurd hlen (lt_irrefl _)

theorem find_tail_of_mem (mem : Nat → stepper_path_t) (c : Nat) :
    ∀ (l : List Nat) (a fuel : Nat), chain mem (mem a).next l → c ∈ l → l.length ≤ fuel →
      find_tail mem (some c) fuel a = .ok none := by
  intro l
  induction l with
  | nil => intro a fuel _ hc; simp at hc
  | cons b l ih =>
    intro a fuel h hc hfuel
    simp only [chain] at h
    cases fuel with
    | zero => simp at hfuel
    | succ fuel =>
      simp only [find_tail, h.1]
      by_cases hbc : b = c
      · simp [hbc]
      · have hcl : c ∈ l := by
          rcases List.mem_cons.mp hc with h1 | h1
          · exact absurd h1.symm hbc
          · exact h1
        simp only [Option.some.injEq, hbc, if_false]
        exact ih b fuel h.2 hcl (by simpa using hfuel)

theorem find_tail_of_not_mem (mem : Nat → stepper_path_t) (c : Nat) :
    ∀ (l : List Nat) (a fuel : Nat), chain mem (mem a).next l → c ∉ l → l.length < fuel →
      find_tail mem (some c) fuel a = .ok (some ((a :: l).getLast (List.cons_ne_nil a l))) := by
  intro l
  induction l with
  | nil =>
    intro a fuel h _ hfuel
    simp only [chain] at h
    cases fuel with
    | zero => simp at hfuel
    | succ fuel => simp [find_tail, h]
  | cons b l ih =>
    intro a fuel h hc hfuel
    simp only [chain] at h
    cases fuel with
    | zero => simp at hfuel
    | succ fuel =>
      have hbc : b ≠ c := fun hbc => hc (by simp [hbc])
      have hcl : c ∉ l := fun hcl => hc (List.mem_cons_of_mem _ hcl)
      simp only [find_tail, h.1, Option.some.injEq, hbc, if_false]
      rw [ih b fuel h.2 hcl (by simpa using hfuel)]
      simp [List.getLast_cons]

theorem chain_append_node (mem : Nat → stepper_path_t) (c t : Nat) (n₀ n₁ : stepper_path_t)
    (h₀ : n₀.next = none) (h₁ : n₁.next = some c) :
    ∀ (l : List Nat) (p : Option Nat), chain mem p (l ++ [t]) → c ∉ l ++ [t] →
      (l ++ [t]).Nodup →
      chain (Function.update (Function.update mem c n₀) t n₁) p (l ++ [t] ++ [c]) := by
  intro l
  induction l with
  | nil =>
    intro p h hc _
    have hct : c ≠ t := fun h => hc (by simp [h])
    simp only [List.nil_append, chain] at h ⊢
    refine ⟨h.1, ?_, ?_⟩
    · simp [Function.update_same, h₁]
    · simp [Function.update_same, Function.update_noteq hct, h₀]
  | cons a l ih =>
    intro p h hc hnd
    simp only [List.cons_append, chain] at h ⊢
    have hac : a ≠ c := fun hac => hc (by simp [hac])
    have hat : a ≠ t := fun hat => by
      rw [List.cons_append, List.nodup_cons] at hnd
      exact hnd.1 (by simp [hat])
    refine ⟨h.1, ?_⟩
    rw [Function.update_noteq hat, Function.update_noteq hac]
    have := ih (mem a).next h.2 (fun hm => hc (List.mem_cons_of_mem _ hm))
      (by rw [List.cons_append, List.nodup_cons] at hnd; exact hnd.2)
    simpa using this

/-- C1: a node that is already in the queue is rejected: the call returns -1 and the state
(head pointer, every `next` link, every other field) is the one before the call. -/
theorem set_next_coord_rejects_queued (s : Sys) (l : List Nat) (coord fuel : Nat)
    (hchain : chain s.mem s.data.path l) (hmem : coord ∈ l) (hfuel : l.length ≤ fuel) :
    set_next_coord fuel s (some coord) = .ok (-1, s) := by
  cases l with
  | nil => simp at hmem
  | cons a l =>
    simp only [chain] at hchain
    by_cases hac : a = coord
    · subst hac
      simp [set_next_coord, hchain.1]
    · have hcl : coord ∈ l := by
        rcases List.mem_cons.mp hmem with h1 | h1
        · exact absurd h1.symm hac
        · exact h1
      have hft := find_tail_of_mem s.mem coord l a fuel hchain.2 hcl
        (by simp at hfuel; omega)
      simp [set_next_coord, hchain.1, hac, hft]

/-- C2: enqueueing into an empty queue succeeds, makes the node the head with a `NULL`
successor, submits the work item exactly when the motor is stopped, and changes nothing
else of the driver data. -/
theorem set_next_coord_empty (s : Sys) (coord fuel : Nat) (hempty : s.data.path = none) :
    ∃ s', set_next_coord fuel s (some coord) = .ok (0, s') ∧
      s'.data = { s.data with path := some coord } ∧
      (s'.mem coord).next = none ∧ (s'.mem coord).p = (s.mem coord).p ∧
      (∀ a, a ≠ coord → s'.mem a = s.mem a) ∧
      s'.submitted = (if s.data.current_interval = 0 then s.submitted + 1 else s.submitted) := by
  by_cases hi : s.data.current_interval = 0
  · refine ⟨_, by simp [set_next_coord, hempty, hi]; rfl, ?_⟩
    simp [hi]
    intro a ha
    exact Function.update_noteq ha _ _
  · refine ⟨_, by simp [set_next_coord, hempty, hi]; rfl, ?_⟩
    simp [hi]
    intro a ha
    exact Function.update_noteq ha _ _

/-- C3: enqueueing a node that is not in a non-empty queue succeeds and appends it: the
queue is the old one followed by the node, the node's successor is `NULL`, no work item is
submitted and the driver data is untouched. -/
theorem set_next_coord_appends (s : Sys) (l : List Nat) (coord fuel : Nat)
    (hchain : chain s.mem s.data.path l) (hne : l ≠ []) (hnot : coord ∉ l)
    (hfuel : l.length ≤ fuel) :
    ∃ s', set_next_coord fuel s (some coord) = .ok (0, s') ∧
      chain s'.mem s'.data.path (l ++ [coord]) ∧ (l ++ [coord]).Nodup ∧
      (s'.mem coord).next = none ∧ (∀ a, (s'.mem a).p = (s.mem a).p) ∧
      s'.data = s.data ∧ s'.submitted = s.submitted := by
  cases l with
  | nil => exact absurd rfl hne
  | cons a l =>
    have hnd := chain_nodup s.mem _ _ hchain
    have hchain' := hchain
    simp only [chain] at hchain
    have hac : a ≠ coord := fun hac => hnot (by simp [hac])
    have hcl : coord ∉ l := fun h => hnot (List.mem_cons_of_mem _ h)
    have hft := find_tail_of_not_mem s.mem coord l a fuel hchain.2 hcl
      (by simp at hfuel; omega)
    set t := (a :: l).getLast (List.cons_ne_nil a l) with ht
    have hsplit : (a :: l).dropLast ++ [t] = a :: l := List.dropLast_append_getLast _
    have htc : t ≠ coord := fun h => hnot (by rw [← h]; exact List.getLast_mem _)
    let mem1 := Function.update s.mem coord { s.mem coord with next := none }
    refine ⟨{ s with mem := Function.update mem1 t { mem1 t with next := some coord } },
      ?_, ?_, ?_, ?_, ?_, rfl, rfl⟩
    · simp [set_next_coord, hchain.1, hac, hft, mem1]
    · have := chain_append_node s.mem coord t { s.mem coord with next := none }
        { mem1 t with next := some coord } rfl rfl (a :: l).dropLast s.data.path
        (by rw [hsplit]; exact hchain') (by rw [hsplit]; exact hnot) (by rw [hsplit]; exact hnd)
      rw [hsplit] at this
      exact this
    · rw [List.nodup_append]
      refine ⟨hnd, List.nodup_singleton _, ?_⟩
      intro x hx hx'
      simp at hx'
      subst hx'
      exact hnot hx
    · simp [mem1, Function.update_noteq htc.symm]
    · intro x
      by_cases hxt : x = t
      · subst hxt
        simp [mem1, Function.update_noteq htc]
      · simp only [mem1, Function.update_noteq hxt]
        by_cases hxc : x = coord
        · subst hxc; simp
        · rw [Function.update_noteq hxc]

/-! ## Evaluated facts about the test scenarios -/

/-- Evaluation of the runs to `x = 1000` and to `x = -1000`: their lengths, the loop
condition and the assertions of the test at the intermediate states, the state after 949
calls, the callback invocations, the mirror relation and the final states; and the course
of the deceleration of the run to `x = 1000`, from call 949 on. -/
theorem runs_1000_facts :
    (run_1000.length = 1001 ∧
     (∀ s ∈ run_1000.take 1000, s.data.current_phase ≠ STOP ∧ s.data.position.x < 1000) ∧
     brake_asserts_fwd dev_config 1000 999 (run_1000.take 1000) = true ∧
     ((run_1000.take 1000).map Run.data)[948]? = some (data_at_brake 1 948) ∧
     (run_1000.map Run.calls)[999]? = some [] ∧
     (run_1000.map Run.calls)[1000]? = some [(1, 1000), (1, 1000)] ∧
     (run_1000.map Run.data)[1000]? = some (data_at_rest 1000)) ∧
    (run_neg_1000.length = 1001 ∧
     (∀ pn ∈ (run_1000.take 1000).zip (run_neg_1000.take 1000),
       mirrored pn.1.data pn.2.data) ∧
     (run_neg_1000.map Run.data)[1000]? = some (data_at_rest (-1000))) ∧
    (brake_point_fwd dev_config 1000 (data_at_brake 1 948) = .ok 949 ∧
     brake_rule_fwd dev_config 1000 (data_at_brake 1 948) = false) ∧
    ((∀ s ∈ run_1000.take 948, s.data.current_phase ≠ DECELERATE) ∧
     intervals_increase ((run_1000.drop 948).take 52) = true ∧
     velocity_rises 949 (run_1000.drop 948) = [951, 1000] ∧
     (run_1000.map Run.data)[950]? =
       some (moving MOVE 102062 950 (.fin false 5648142818124508 (-59))) ∧
     (run_1000.map Run.data)[998]? =
       some (moving DECELERATE 1356165 998 (.fin false 8749790345223392 (-67))) ∧
     (run_1000.map Run.data)[999]? =
       some (moving DECELERATE 1356166 999 (.fin false 6801064203685077 (-63))) ∧
     get_speed dev_config 1356166 = .fin false 6801064203685077 (-63) ∧
     Dbl.lt (.fin false 8749790345223392 (-67)) (.fin false 6801064203685077 (-63)) = true ∧
     (run_1000.map Run.data)[948]? = some (data_at_brake 1 948)) := by
  decide!

/-- Evaluation of the run to `[x = 100, x = 200]`: its length, the loop condition and the
assertions of the test at the intermediate states, the state after 149 calls and the final
state. -/
theorem run_100_200_facts :
    (run_100_200.length = 201 ∧
     (∀ s ∈ run_100_200.take 200, s.data.current_phase ≠ STOP ∧ s.data.position.x < 200) ∧
     brake_asserts_fwd dev_config 200 199 (run_100_200.take 200) = true ∧
     (∀ s ∈ run_100_200, s.data.position.x ≤ 100 → s.data.current_phase ≠ DECELERATE) ∧
     (run_100_200.map Run.data)[200]? = some (data_at_rest 200)) ∧
    (((run_100_200.take 200).map Run.data)[148]? = some (data_at_brake 2 148) ∧
     brake_point_fwd dev_config 200 (data_at_brake 2 148) = .ok 149 ∧
     brake_rule_fwd dev_config 200 (data_at_brake 2 148) = false) := by
  decide!

/-- Evaluation of the acceleration run in the test configuration: the comparison of the
test holds for the first 51 steps, and after 50 steps the run has reached a fixed point of
`acc_step` at `max_velocity`. -/
theorem acc_facts :
    acc_all_close dev_config 51 (start_data none) = true ∧
    acc_run dev_config 50 (start_data none) = .ok data_at_max_velocity ∧
    acc_step dev_config data_at_max_velocity = .ok data_at_max_velocity := by
  decide!

/-! ## The acceleration run -/

/-- When `acc_all_close` holds for `n` steps, each of the first `n` states of the run
passes the comparison `acc_step_close`. -/
theorem acc_all_close_spec (config : stepper_config) :
    ∀ (n : Nat) (d : stepper_data), acc_all_close config n d = true →
      ∀ k, k < n → ∃ d', acc_run config k d = .ok d' ∧ acc_step_close config d' = .ok true := by
  intro n
  induction n with
  | zero => intro d _ k hk; exact absurd hk (Nat.not_lt_zero k)
  | succ n ih =>
    intro d h k hk
    unfold acc_all_close at h
    split at h
    · rename_i d1 hc hs
      rw [stepper_data_eval_eq] at h
      cases k with
      | zero => exact ⟨d, rfl, hc⟩
      | succ k =>
        obtain ⟨d', hrun, hclose⟩ := ih d1 h k (Nat.lt_of_succ_lt_succ hk)
        exact ⟨d', by simp [acc_run, hs, hrun], hclose⟩
    · exact absurd h (by simp)

theorem acc_run_add (config : stepper_config) :
    ∀ (m k : Nat) (d d' : stepper_data), acc_run config m d = .ok d' →
      acc_run config (m + k) d = acc_run config k d' := by
  intro m
  induction m with
  | zero =>
    intro k d d' h
    simp only [acc_run, Res.ok.injEq] at h
    simp [h]
  | succ m ih =>
    intro k d d' h
    rw [Nat.succ_add]
    cases hs : acc_step config d with
    | ok d1 =>
      simp only [acc_run, hs] at h ⊢
      exact ih k d1 d' h
    | undefined => simp [acc_run, hs] at h
    | timeout => simp [acc_run, hs] at h

theorem acc_run_fixed (config : stepper_config) (d : stepper_data)
    (h : acc_step config d = .ok d) : ∀ k, acc_run config k d = .ok d := by
  intro k
  induction k with
  | zero => rfl
  | succ k ih => simp [acc_run, h, ih]

/-! ## The claims about the queue, the scenarios and the acceleration run -/

/-- C1 (witness): the queue `[1, 2]`; enqueueing node 2 again is rejected. -/
theorem set_next_coord_rejects_queued_witness :
    chain (start_sys (two_nodes 100 (some 2) 200)).mem
      (start_sys (two_nodes 100 (some 2) 200)).data.path [1, 2] ∧
    set_next_coord 2 (start_sys (two_nodes 100 (some 2) 200)) (some 2) =
      .ok (-1, start_sys (two_nodes 100 (some 2) 200)) :=
  ⟨⟨rfl, rfl, rfl⟩,
    set_next_coord_rejects_queued (start_sys (two_nodes 100 (some 2) 200)) [1, 2] 2 2
      ⟨rfl, rfl, rfl⟩ (by decide) (by decide)⟩

/-- C2 (witness): a stopped motor with an empty queue; enqueueing node 1 makes it the head
and submits the work item. -/
theorem set_next_coord_empty_witness :
    (start_data none).path = none ∧
    ∃ s', set_next_coord 0
        { data := start_data none, mem := two_nodes 100 (some 2) 200, submitted := 0 }
        (some 1) = .ok (0, s') ∧
      s'.data = { start_data none with path := some 1 } ∧
      (s'.mem 1).next = none ∧ s'.submitted = 1 := by
  obtain ⟨s', h, hd, hn, _, _, hs⟩ := set_next_coord_empty
    { data := start_data none, mem := two_nodes 100 (some 2) 200, submitted := 0 } 1 0 rfl
  exact ⟨rfl, s', h, hd, hn, hs⟩

/-- C3 (witness): the queue `[1, 2]`; enqueueing node 3 gives the queue `[1, 2, 3]`. -/
theorem set_next_coord_appends_witness :
    chain (start_sys (two_nodes 100 (some 2) 200)).mem
      (start_sys (two_nodes 100 (some 2) 200)).data.path [1, 2] ∧
    ∃ s', set_next_coord 2 (start_sys (two_nodes 100 (some 2) 200)) (some 3) = .ok (0, s') ∧
      chain s'.mem s'.data.path [1, 2, 3] ∧ (s'.mem 3).next = none ∧ s'.submitted = 0 := by
  obtain ⟨s', h, hc, _, hn, _, _, hs⟩ := set_next_coord_appends
    (start_sys (two_nodes 100 (some 2) 200)) [1, 2] 3 2 ⟨rfl, rfl, rfl⟩ (by decide)
    (by decide) (by decide)
  exact ⟨⟨rfl, rfl, rfl⟩, s', h, hc, hn, hs⟩

/-- C4 (failing input): in the run to the single waypoint `x = 1000`, whose callback is
the function 1, no callback has been invoked after 1000 calls, and the 1001st call, which
arrives at position 1000, invokes the callback twice with the argument 1000. -/
theorem callback_invoked_twice :
    (run_1000.map Run.calls)[999]? = some [] ∧
    (run_1000.map Run.calls)[1000]? = some [(1, 1000), (1, 1000)] ∧
    (run_1000.map Run.data)[1000]? = some (data_at_rest 1000) :=
  ⟨runs_1000_facts.1.2.2.2.2.1, runs_1000_facts.1.2.2.2.2.2.1, runs_1000_facts.1.2.2.2.2.2.2⟩

/-- C5 (counterexample): after 949 calls of the run to `x = 1000` the phase is `DECELERATE`
at position 948, while the brake point of the current velocity,
`1000 - distance_per_step - get_brake_distance`, is 949: the position is before it. -/
theorem single_waypoint_decelerates_before_brake_point :
    ∃ s ∈ run_1000.take 1000, s.data.current_phase = DECELERATE ∧ s.data.position.x = 948 ∧
      brake_point_fwd dev_config 1000 s.data = .ok 949 ∧
      brake_rule_fwd dev_config 1000 s.data = false := by
  obtain ⟨s, hs, hd⟩ := exists_mem_of_map_getElem? Run.data _ 948 _ runs_1000_facts.1.2.2.2.1
  refine ⟨s, hs, ?_, ?_, ?_, ?_⟩
  · rw [hd]; rfl
  · rw [hd]; rfl
  · rw [hd]; exact runs_1000_facts.2.2.1.1
  · rw [hd]; exact runs_1000_facts.2.2.1.2

/-- C5 (amended): the run to the single waypoint `x = 1000` from a stopped motor at 0 makes
1001 calls; after each of the first 1000 the phase is not `STOP` and the position is below
1000; the assertions of `test_stepper_brakes` hold at each of them, with the brake point
`1000 - distance_per_step - get_brake_distance` taken from the velocity of the latest state
whose phase is not `DECELERATE`: the phase is not `DECELERATE` before it and not
`ACCELERATE` at or after it; the last call leaves the motor stopped (phase `STOP`, interval
0, velocity 0) at position 1000 with `path == NULL`. -/
theorem single_waypoint_run :
    run_1000.length = 1001 ∧
    (∀ s ∈ run_1000.take 1000, s.data.current_phase ≠ STOP ∧ s.data.position.x < 1000) ∧
    brake_asserts_fwd dev_config 1000 999 (run_1000.take 1000) = true ∧
    (run_1000.map Run.data)[1000]? = some (data_at_rest 1000) :=
  ⟨runs_1000_facts.1.1, runs_1000_facts.1.2.1, runs_1000_facts.1.2.2.1,
    runs_1000_facts.1.2.2.2.2.2.2⟩

/-- C6 (counterexample): after 149 calls of the run to `[x = 100, x = 200]` the phase is
`DECELERATE` at position 148, while the brake point computed for `x = 200` from the
current velocity is 149: the position is before it. -/
theorem two_waypoints_decelerates_before_brake_point :
    ∃ s ∈ run_100_200.take 200, s.data.current_phase = DECELERATE ∧
      s.data.position.x = 148 ∧ brake_point_fwd dev_config 200 s.data = .ok 149 ∧
      brake_rule_fwd dev_config 200 s.data = false := by
  obtain ⟨s, hs, hd⟩ := exists_mem_of_map_getElem? Run.data _ 148 _ run_100_200_facts.2.1
  refine ⟨s, hs, ?_, ?_, ?_, ?_⟩
  · rw [hd]; rfl
  · rw [hd]; rfl
  · rw [hd]; exact run_100_200_facts.2.2.1
  · rw [hd]; exact run_100_200_facts.2.2.2

/-- C6 (amended): the run to `[x = 100, x = 200]` from a stopped motor at 0 makes 201 calls;
after each of the first 200 the phase is not `STOP` and the position is below 200; the
assertions of `test_stepper_brakes_2points` hold at each of them, with the brake point for
`x = 200` taken from the velocity of the latest state whose phase is not `DECELERATE`; the
phase is never `DECELERATE` at a position up to 100; the last call leaves the motor
stopped at position 200 with `path == NULL`. -/
theorem two_waypoints_run :
    run_100_200.length = 201 ∧
    (∀ s ∈ run_100_200.take 200, s.data.current_phase ≠ STOP ∧ s.data.position.x < 200) ∧
    brake_asserts_fwd dev_config 200 199 (run_100_200.take 200) = true ∧
    (∀ s ∈ run_100_200, s.data.position.x ≤ 100 → s.data.current_phase ≠ DECELERATE) ∧
    (run_100_200.map Run.data)[200]? = some (data_at_rest 200) :=
  run_100_200_facts.1

/-- C8 (counterexample): after the 1001st call both the run to `x = 1000` and the run to
`x = -1000` have `forward == false`: the final states are not mirrored. -/
theorem final_states_not_mirrored :
    ∃ p ∈ run_1000[1000]?, ∃ n ∈ run_neg_1000[1000]?,
      p.data.forward = false ∧ n.data.forward = false ∧ ¬ mirrored p.data n.data := by
  have hp := runs_1000_facts.1.2.2.2.2.2.2
  have hn := runs_1000_facts.2.1.2.2
  rw [List.getElem?_map] at hp hn
  cases hp' : run_1000[1000]? with
  | none => simp [hp'] at hp
  | some p =>
    cases hn' : run_neg_1000[1000]? with
    | none => simp [hn'] at hn
    | some n =>
      simp only [hp', hn', Option.map_some', Option.some.injEq] at hp hn
      refine ⟨p, rfl, n, rfl, ?_, ?_, ?_⟩
      · rw [hp]; rfl
      · rw [hn]; rfl
      · intro hm
        have := hm.2.2.2.2.1
        rw [hp] at this
        exact absurd this (by decide)

/-- C8 (amended): the runs to `x = 1000` and to `x = -1000` both make 1001 calls; after
each of the first 1000 calls the phase, interval and velocity are equal, the position is
the negation, and `forward` is true in the positive run and false in the negative run;
after the last call both are stopped with interval 0, velocity 0, `path == NULL` and
`forward == false`, at 1000 and at -1000. -/
theorem negative_run_mirrors :
    run_1000.length = 1001 ∧ run_neg_1000.length = 1001 ∧
    (∀ pn ∈ (run_1000.take 1000).zip (run_neg_1000.take 1000),
      mirrored pn.1.data pn.2.data) ∧
    (run_1000.map Run.data)[1000]? = some (data_at_rest 1000) ∧
    (run_neg_1000.map Run.data)[1000]? = some (data_at_rest (-1000)) :=
  ⟨runs_1000_facts.1.1, runs_1000_facts.2.1.1, runs_1000_facts.2.1.2.1,
    runs_1000_facts.1.2.2.2.2.2.2, runs_1000_facts.2.1.2.2⟩

/-- In the test configuration (`distance_per_step = 1`,
`max_acceleration = 0.001`, `max_velocity = 0.01`) every step of the run of `get_next_interval_acc` from
velocity 0 passes the comparison of `test_stepper_acc`: a realised acceleration above
`max_acceleration` is strictly closer to it than the one realised with the interval plus
one, and one not above it, when the step does not end at `max_velocity`, is strictly
closer than the one realised with the interval minus one. -/
theorem acceleration_steps_close (n : Nat) :
    ∃ d, acc_run dev_config n (start_data none) = .ok d ∧
      acc_step_close dev_config d = .ok true := by
  by_cases hn : n < 51
  · exact acc_all_close_spec dev_config 51 _ acc_facts.1 n hn
  · obtain ⟨k, rfl⟩ : ∃ k, n = 50 + k := ⟨n - 50, by omega⟩
    obtain ⟨d, hrun, hclose⟩ := acc_all_close_spec dev_config 51 _ acc_facts.1 50 (by omega)
    rw [acc_facts.2.1] at hrun
    cases hrun
    refine ⟨data_at_max_velocity, ?_, hclose⟩
    rw [acc_run_add dev_config 50 k _ _ acc_facts.2.1]
    exact acc_run_fixed dev_config _ acc_facts.2.2 k

/-- C7: the run to `[x = 100, x = 50]` from a stopped motor at 0 makes 151 calls. After each
of the first 100 the motor is below 100, moving forward, with the node `x = 100` at the
head and a phase other than `STOP`. The 101st call brings the position to exactly 100,
advances the head to the node `x = 50` and turns the direction backward. From there on
`forward` is false and each call lowers the position by one, down to exactly 50; at each
state on the way back the phase is not `STOP`, and with the brake point
`50 + distance_per_step + get_brake_distance` of the current velocity it is not
`DECELERATE` before the brake point and not `ACCELERATE` at or after it. The last call
leaves the motor stopped (interval 0) at 50 with `path == NULL`. -/
theorem reversal_run :
    run_100_50.length = 151 ∧
    (∀ s ∈ run_100_50.take 100, s.data.current_phase ≠ STOP ∧ s.data.position.x < 100 ∧
      s.data.forward = true ∧ s.data.path = some 1) ∧
    (run_100_50.map Run.data)[100]? = some
      { current_phase := ACCELERATE, current_interval := 600529, path := some 2,
        position := { x := 100, cb := none }, forward := false, half_step := false,
        current_velocity := .fin false 4532052817595002 (-61) } ∧
    (∀ s ∈ run_100_50.drop 100, s.data.forward = false) ∧
    (run_100_50.drop 100).map (fun s => s.data.position.x) =
      (List.range 51).map (fun k => (100 : Int) - k) ∧
    (∀ s ∈ (run_100_50.drop 100).take 50, s.data.current_phase ≠ STOP ∧
      s.data.position.x > 50 ∧ brake_rule_bwd dev_config 50 s.data = true) ∧
    (run_100_50.map Run.data)[150]? = some (data_at_rest 50) := by
  decide!

/-- C9 (failing input): with `distance_per_step = 1`, `max_acceleration = 0.05` and
`max_velocity = 0.003` the first application of `get_next_interval_acc` from velocity 0
takes the clamp, returns the interval 333333 and stores a velocity above `max_velocity`. -/
theorem clamped_velocity_exceeds_max :
    get_next_interval_acc slow_config (start_data none) =
      .ok (333333, some (.fin false 6917535945177027 (-61))) ∧
    slow_config.max_velocity = .fin false 6917529027641082 (-61) ∧
    Dbl.gt (.fin false 6917535945177027 (-61)) slow_config.max_velocity = true := by
  decide!

/-- C10 (failing input): with `distance_per_step = 1`, `max_acceleration = 0.144` and
`max_velocity = 0.2` the 19th application of `get_next_interval_acc` from velocity 0 returns
the interval 13700 and a velocity below `max_velocity`; the realised acceleration exceeds
`max_acceleration` and is not closer to it than the acceleration realised with the
interval 13701, so that the comparison of `test_stepper_acc` fails at this step. -/
theorem acceleration_step_not_closest :
    acc_run brisk_config 18 (start_data none) =
      .ok (acc_data 14087 (.fin false 5188406241360628 (-56))) ∧
    acc_step brisk_config (acc_data 14087 (.fin false 5188406241360628 (-56))) =
      .ok (acc_data 13700 (.fin false 5330950552497464 (-56))) ∧
    Dbl.lt (.fin false 5330950552497464 (-56)) brisk_config.max_velocity = true ∧
    realized_acc 13700 (.fin false 5188406241360628 (-56))
      (.fin false 5330950552497464 (-56)) = .fin false 5202347121782336 (-55) ∧
    realized_acc 13701 (.fin false 5188406241360628 (-56))
      (get_acc_speed brisk_config (INTERVAL_TO_S 13701) (.fin false 5188406241360628 (-56))) =
      .fin false 5173948285412160 (-55) ∧
    brisk_config.max_acceleration = .fin false 5188146770730811 (-55) ∧
    Dbl.gt (.fin false 5202347121782336 (-55)) brisk_config.max_acceleration = true ∧
    Dbl.lt (absd (.fin false 5202347121782336 (-55)) brisk_config.max_acceleration)
      (absd brisk_config.max_acceleration (.fin false 5173948285412160 (-55))) = false ∧
    acc_step_close brisk_config (acc_data 14087 (.fin false 5188406241360628 (-56))) =
      .ok false := by
  decide!

/-! ## The sequencer as a pass followed by the recursive call -/

theorem res_bind_eq {α β : Type} (x : Res α) (f : α → Res β) : x >>= f = x.bind f := rfl

theorem res_pure_eq {α : Type} (a : α) : (pure a : Res α) = .ok a := rfl

theorem res_bind_ok {α β : Type} (a : α) (f : α → Res β) : (Res.ok a).bind f = f a := rfl

theorem res_bind_assoc {α β γ : Type} (x : Res α) (f : α → Res β) (g : β → Res γ) :
    (x.bind f).bind g = x.bind fun a => (f a).bind g := by
  cases x <;> rfl

/-- The body of `stepper_update_state` written with the blocks `update_coordinates`,
`waypoint_reached`, `arrival_head`, `arrival_calls`, `navigate`, `select_interval` and
`update_finish`; the phase selection is spelled out as in the definition. -/
theorem stepper_update_state_blocks (config : stepper_config) (mem : Nat → stepper_path_t)
    (fuel : Nat) (s : Run) :
    stepper_update_state config mem (fuel + 1) s =
      match (update_coordinates config s.data).path with
      | none =>
        if (update_coordinates config s.data).current_phase ≠ STOP then
          .ok { s with data := { update_coordinates config s.data with
            current_phase := STOP, current_interval := 0, current_velocity := Dbl.zero } }
        else .ok { s with data := update_coordinates config s.data }
      | some head =>
        let wpt := waypoint_reached mem head (update_coordinates config s.data)
        let path := arrival_head mem head wpt
        let calls := arrival_calls mem head wpt s.calls
        let data := navigate mem path { update_coordinates config s.data with path := some path }
        let rest : stepper_data → Res Run := fun data =>
          (get_next_interval config data data.current_phase).bind fun probe =>
            if probe.1 ≠ 0 ∨ wpt = true then
              (get_next_interval config data data.current_phase).bind fun r =>
                update_finish config mem fuel path calls { data with
                  current_interval := r.1
                  current_velocity := r.2.getD data.current_velocity }
            else if data.forward = true ∧ (mem path).p.x > data.position.x then
              update_finish config mem fuel path calls { data with
                current_interval := (data.current_interval + 1) % 2 ^ 32
                current_velocity := get_speed config ((data.current_interval + 1) % 2 ^ 32) }
            else if data.forward = false ∧ (mem path).p.x < data.position.x then
              update_finish config mem fuel path calls { data with
                current_interval := (data.current_interval + 1) % 2 ^ 32
                current_velocity := get_speed config ((data.current_interval + 1) % 2 ^ 32) }
            else
              update_finish config mem fuel path calls
                { data with current_interval := 0, current_velocity := get_speed config 0 }
        (get_next_phase config data (mem path).p).bind fun phase =>
        match (mem path).next with
        | some next =>
          if data.forward then
            if (mem path).p.x < (mem next).p.x then
              (get_next_phase config { data with current_phase := phase } (mem next).p).bind
                fun phase => rest { data with current_phase := phase }
            else rest { data with current_phase := phase }
          else
            if (mem path).p.x > (mem next).p.x then
              (get_next_phase config { data with current_phase := phase } (mem next).p).bind
                fun phase => rest { data with current_phase := phase }
            else rest { data with current_phase := phase }
        | none => rest { data with current_phase := phase } := by
  rfl

/-- The interval selection followed by the end of the body, with the continuation inside
the branches as in the definition of `stepper_update_state`. -/
theorem select_interval_finish (config : stepper_config) (mem : Nat → stepper_path_t)
    (fuel : Nat) (path : Nat) (wpt : Bool) (calls : List (Nat × Int)) (data : stepper_data) :
    ((get_next_interval config data data.current_phase).bind fun probe =>
      if probe.1 ≠ 0 ∨ wpt = true then
        (get_next_interval config data data.current_phase).bind fun r =>
          update_finish config mem fuel path calls { data with
            current_interval := r.1
            current_velocity := r.2.getD data.current_velocity }
      else if data.forward = true ∧ (mem path).p.x > data.position.x then
        update_finish config mem fuel path calls { data with
          current_interval := (data.current_interval + 1) % 2 ^ 32
          current_velocity := get_speed config ((data.current_interval + 1) % 2 ^ 32) }
      else if data.forward = false ∧ (mem path).p.x < data.position.x then
        update_finish config mem fuel path calls { data with
          current_interval := (data.current_interval + 1) % 2 ^ 32
          current_velocity := get_speed config ((data.current_interval + 1) % 2 ^ 32) }
      else
        update_finish config mem fuel path calls
          { data with current_interval := 0, current_velocity := get_speed config 0 }) =
    (select_interval config mem path wpt data).bind (update_finish config mem fuel path calls) := by
  unfold select_interval accept_interval
  simp only [res_bind_eq, res_pure_eq, res_bind_assoc]
  congr 1
  funext probe
  split
  · rw [res_bind_assoc]
    rfl
  · split
    · rfl
    · split <;> rfl

/-- The function `stepper_update_state` is a pass through its body followed, when the pass
reached the end of the body with `current_interval == 0`, by the recursive call. -/
theorem stepper_update_state_succ (config : stepper_config) (mem : Nat → stepper_path_t)
    (fuel : Nat) (s : Run) :
    stepper_update_state config mem (fuel + 1) s =
      (update_pass config mem s).bind fun r =>
        if r.2 = true ∧ r.1.data.current_interval = 0 then
          stepper_update_state config mem fuel r.1
        else .ok r.1 := by
  rw [stepper_update_state_blocks]
  unfold update_pass
  generalize update_coordinates config s.data = d
  cases hp : d.path with
  | none =>
    simp only [hp, res_pure_eq, res_bind_ok, empty_path_stop]
    split <;> simp
  | some head =>
    simp only [hp, res_bind_eq, res_pure_eq, pass_data, pass_head]
    generalize waypoint_reached mem head d = wpt
    generalize arrival_head mem head wpt = path
    generalize arrival_calls mem head wpt s.calls = calls
    generalize navigate mem path _ = d1
    unfold select_phase
    simp only [res_bind_eq, res_pure_eq, res_bind_assoc, res_bind_ok, true_and]
    congr 1
    funext phase
    cases (mem path).next with
    | none => exact select_interval_finish config mem fuel path wpt calls _
    | some next =>
      simp only []
      split
      · split
        · congr 1
          funext phase
          exact select_interval_finish config mem fuel path wpt calls _
        · exact select_interval_finish config mem fuel path wpt calls _
      · split
        · congr 1
          funext phase
          exact select_interval_finish config mem fuel path wpt calls _
        · exact select_interval_finish config mem fuel path wpt calls _

/-! ## Properties of the passes -/

theorem update_coordinates_fields (config : stepper_config) (d : stepper_data) :
    (update_coordinates config d).current_phase = d.current_phase ∧
    (update_coordinates config d).current_interval = d.current_interval ∧
    (update_coordinates config d).path = d.path ∧
    (update_coordinates config d).forward = d.forward ∧
    (update_coordinates config d).half_step = d.half_step ∧
    (update_coordinates config d).current_velocity = d.current_velocity ∧
    (update_coordinates config d).position.cb = d.position.cb := by
  unfold update_coordinates
  split
  · split <;> simp
  · simp

theorem update_coordinates_of_stopped (config : stepper_config) (d : stepper_data)
    (h : d.current_interval = 0) : update_coordinates config d = d := by
  simp [update_coordinates, h]

theorem accept_interval_fields (config : stepper_config) (mem : Nat → stepper_path_t)
    (path : Nat) (wpt : Bool) (d d' : stepper_data) (probe : Nat × Option Dbl)
    (h : accept_interval config mem path wpt d probe = .ok d') :
    d'.current_phase = d.current_phase ∧ d'.position = d.position ∧ d'.path = d.path ∧
    d'.forward = d.forward ∧ d'.half_step = d.half_step := by
  unfold accept_interval at h
  simp only [res_bind_eq, res_pure_eq] at h
  split at h
  · cases hr : get_next_interval config d d.current_phase with
    | ok r =>
      rw [hr, res_bind_ok] at h
      cases h
      simp
    | undefined => rw [hr] at h; cases h
    | timeout => rw [hr] at h; cases h
  · split at h
    · cases h; simp
    · split at h <;> (cases h; simp)

theorem select_interval_fields (config : stepper_config) (mem : Nat → stepper_path_t)
    (path : Nat) (wpt : Bool) (d d' : stepper_data)
    (h : select_interval config mem path wpt d = .ok d') :
    d'.current_phase = d.current_phase ∧ d'.position = d.position ∧ d'.path = d.path ∧
    d'.forward = d.forward ∧ d'.half_step = d.half_step := by
  unfold select_interval at h
  simp only [res_bind_eq] at h
  cases hp : get_next_interval config d d.current_phase with
  | ok probe =>
    rw [hp, res_bind_ok] at h
    exact accept_interval_fields config mem path wpt d d' probe h
  | undefined => rw [hp] at h; cases h
  | timeout => rw [hp] at h; cases h

theorem navigate_fields (mem : Nat → stepper_path_t) (path : Nat) (d : stepper_data) :
    (navigate mem path d).current_phase = d.current_phase ∧
    (navigate mem path d).current_interval = d.current_interval ∧
    (navigate mem path d).position = d.position ∧ (navigate mem path d).path = d.path ∧
    (navigate mem path d).half_step = d.half_step ∧
    (navigate mem path d).current_velocity = d.current_velocity := by
  unfold navigate
  split <;> simp

theorem stop_pop_fields (mem : Nat → stepper_path_t) (path : Nat) (d : stepper_data) :
    (stop_pop mem path d).current_phase = d.current_phase ∧
    (stop_pop mem path d).position = d.position ∧
    (stop_pop mem path d).forward = d.forward ∧
    (stop_pop mem path d).half_step = d.half_step ∧
    (d.current_phase = STOP → (stop_pop mem path d).current_interval = 0) := by
  unfold stop_pop
  split <;> simp_all

/-- The result of a pass that left through the `return` of the empty-path block. -/
theorem update_pass_empty (config : stepper_config) (mem : Nat → stepper_path_t) (s s1 : Run)
    (h : update_pass config mem s = .ok (s1, false)) :
    (update_coordinates config s.data).path = none ∧
    s1 = { s with data := empty_path_stop (update_coordinates config s.data) } := by
  unfold update_pass at h
  cases hp : (update_coordinates config s.data).path with
  | none =>
    simp only [hp, res_pure_eq, Res.ok.injEq, Prod.mk.injEq, and_true] at h
    exact ⟨rfl, h.symm⟩
  | some head =>
    simp only [hp, res_bind_eq, res_pure_eq] at h
    generalize select_phase config mem _ _ = r1 at h
    cases r1 with
    | ok phase =>
      rw [res_bind_ok] at h
      generalize select_interval config mem _ _ _ = r2 at h
      cases r2 <;> simp [Res.bind] at h
    | undefined => cases h
    | timeout => cases h

/-- The result of a pass that reached the end of the body: the queue was not empty, and
the new driver data come from the phase selection, the interval selection and the stop
block, in this order. -/
theorem update_pass_full (config : stepper_config) (mem : Nat → stepper_path_t) (s s1 : Run)
    (d0 : stepper_data) (hd0 : update_coordinates config s.data = d0)
    (h : update_pass config mem s = .ok (s1, true)) :
    ∃ head phase d,
      d0.path = some head ∧
      select_phase config mem (pass_head mem head d0) (pass_data mem head d0) = .ok phase ∧
      select_interval config mem (pass_head mem head d0) (waypoint_reached mem head d0)
        { pass_data mem head d0 with current_phase := phase } = .ok d ∧
      s1 = { data := stop_pop mem (pass_head mem head d0) d,
             calls := arrival_calls mem head (waypoint_reached mem head d0) s.calls } := by
  unfold update_pass at h
  rw [hd0] at h
  cases hp : d0.path with
  | none => simp [hp, res_pure_eq] at h
  | some head =>
    simp only [hp, res_bind_eq, res_pure_eq] at h
    cases h1 : select_phase config mem (pass_head mem head d0) (pass_data mem head d0) with
    | ok phase =>
      rw [h1, res_bind_ok] at h
      cases h2 : select_interval config mem (pass_head mem head d0) (waypoint_reached mem head d0)
        { pass_data mem head d0 with current_phase := phase } with
      | ok d =>
        rw [h2, res_bind_ok] at h
        simp only [Res.ok.injEq, Prod.mk.injEq, and_true] at h
        exact ⟨head, phase, d, rfl, h1, h2, h.symm⟩
      | undefined => rw [h2] at h; cases h
      | timeout => rw [h2] at h; cases h
    | undefined => rw [h1] at h; cases h
    | timeout => rw [h1] at h; cases h

/-- A pass keeps the position it finds after the update of the coordinates, and leaves no
stopped phase with a non-zero interval unless it left through the empty-path `return`
without changing phase and interval. -/
theorem update_pass_position (config : stepper_config) (mem : Nat → stepper_path_t)
    (s s1 : Run) (b : Bool) (h : update_pass config mem s = .ok (s1, b)) :
    s1.data.position = (update_coordinates config s.data).position := by
  cases b with
  | false =>
    obtain ⟨_, h1⟩ := update_pass_empty config mem s s1 h
    rw [h1]
    simp only [empty_path_stop]
    split <;> rfl
  | true =>
    obtain ⟨head, phase, d, _, _, h2, h3⟩ := update_pass_full config mem s s1 _ rfl h
    rw [h3]
    have a := (stop_pop_fields mem (pass_head mem head (update_coordinates config s.data)) d).2.1
    have b := (select_interval_fields config mem _ _ _ _ h2).2.1
    have c := (navigate_fields mem (pass_head mem head (update_coordinates config s.data))
      { update_coordinates config s.data with
        path := some (pass_head mem head (update_coordinates config s.data)) }).2.2.1
    simp only [a, b]
    exact c

/-- A call of `stepper_update_state` on a stopped motor leaves the position as it is. -/
theorem stepper_update_state_position_of_stopped (config : stepper_config)
    (mem : Nat → stepper_path_t) :
    ∀ (fuel : Nat) (s s' : Run), s.data.current_interval = 0 →
      stepper_update_state config mem fuel s = .ok s' → s'.data.position = s.data.position := by
  intro fuel
  induction fuel with
  | zero => intro s s' _ h; simp [stepper_update_state] at h
  | succ fuel ih =>
    intro s s' hi h
    rw [stepper_update_state_succ] at h
    cases hp : update_pass config mem s with
    | ok r =>
      obtain ⟨s1, b⟩ := r
      rw [hp, res_bind_ok] at h
      have hpos := update_pass_position config mem s s1 b hp
      rw [update_coordinates_of_stopped config s.data hi] at hpos
      split at h
      · rename_i hc
        rw [ih s1 s' hc.2 h, hpos]
      · cases h
        exact hpos
    | undefined => rw [hp] at h; cases h
    | timeout => rw [hp] at h; cases h

/-- A call of `stepper_update_state` ends at the position found after the update of the
coordinates at its start. -/
theorem stepper_update_state_position (config : stepper_config) (mem : Nat → stepper_path_t)
    (fuel : Nat) (s s' : Run) (h : stepper_update_state config mem fuel s = .ok s') :
    s'.data.position = (update_coordinates config s.data).position := by
  cases fuel with
  | zero => simp [stepper_update_state] at h
  | succ fuel =>
    rw [stepper_update_state_succ] at h
    cases hp : update_pass config mem s with
    | ok r =>
      obtain ⟨s1, b⟩ := r
      rw [hp, res_bind_ok] at h
      have hpos := update_pass_position config mem s s1 b hp
      split at h
      · rename_i hc
        rw [stepper_update_state_position_of_stopped config mem fuel s1 s' hc.2 h, hpos]
      · cases h
        exact hpos
    | undefined => rw [hp] at h; cases h
    | timeout => rw [hp] at h; cases h

/-- After a pass that reached the end of the body, a phase `STOP` comes with the interval
0; after a pass that left through the empty-path `return`, the phase is `STOP`, and the
interval is 0 or the one the pass was entered with in phase `STOP`. -/
theorem update_pass_stop (config : stepper_config) (mem : Nat → stepper_path_t)
    (s s1 : Run) (b : Bool) (h : update_pass config mem s = .ok (s1, b)) :
    (b = true → s1.data.current_phase = STOP → s1.data.current_interval = 0) ∧
    (b = false → s1.data.current_phase = STOP ∧
      (s1.data.current_interval = 0 ∨
        (s.data.current_phase = STOP ∧ s1.data.current_interval = s.data.current_interval))) := by
  cases b with
  | false =>
    obtain ⟨_, h1⟩ := update_pass_empty config mem s s1 h
    refine ⟨fun hb => absurd hb (by simp), fun _ => ?_⟩
    rw [h1]
    simp only [empty_path_stop]
    obtain ⟨f1, f2, _⟩ := update_coordinates_fields config s.data
    split
    · exact ⟨rfl, Or.inl rfl⟩
    · rename_i hc
      rw [f1] at hc
      rw [f1, f2]
      have : s.data.current_phase = STOP := by
        by_contra hne
        exact hc hne
      exact ⟨this, Or.inr ⟨this, rfl⟩⟩
  | true =>
    obtain ⟨head, phase, d, _, _, _, h3⟩ := update_pass_full config mem s s1 _ rfl h
    refine ⟨fun _ => ?_, fun hb => absurd hb (by simp)⟩
    rw [h3]
    intro hstop
    have a := stop_pop_fields mem (pass_head mem head (update_coordinates config s.data)) d
    exact a.2.2.2.2 (by rw [← a.1]; exact hstop)

/-- A completed call of `stepper_update_state` that was entered with the interval 0
whenever the phase was `STOP` returns with `current_interval == 0` exactly when the phase
is `STOP`. -/
theorem stepper_update_state_stop_iff (config : stepper_config) (mem : Nat → stepper_path_t) :
    ∀ (fuel : Nat) (s s' : Run),
      (s.data.current_phase = STOP → s.data.current_interval = 0) →
      stepper_update_state config mem fuel s = .ok s' →
      (s'.data.current_interval = 0 ↔ s'.data.current_phase = STOP) := by
  intro fuel
  induction fuel with
  | zero => intro s s' _ h; simp [stepper_update_state] at h
  | succ fuel ih =>
    intro s s' hpre h
    rw [stepper_update_state_succ] at h
    cases hp : update_pass config mem s with
    | ok r =>
      obtain ⟨s1, b⟩ := r
      rw [hp, res_bind_ok] at h
      obtain ⟨ht, hf⟩ := update_pass_stop config mem s s1 b hp
      split at h
      · rename_i hc
        exact ih s1 s' (fun _ => hc.2) h
      · rename_i hc
        cases h
        cases b with
        | true =>
          have hne : s1.data.current_interval ≠ 0 := fun h0 => hc ⟨rfl, h0⟩
          exact ⟨fun h0 => absurd h0 hne, fun hs => absurd (ht rfl hs) hne⟩
        | false =>
          obtain ⟨hs, hi⟩ := hf rfl
          refine ⟨fun _ => hs, fun _ => ?_⟩
          rcases hi with hi | ⟨hs0, hi⟩
          · exact hi
          · rw [hi]; exact hpre hs0
    | undefined => rw [hp] at h; cases h
    | timeout => rw [hp] at h; cases h

/-! ## The claims about the phase, the position and the interval -/

/-- The function `get_next_phase` does not read the field `current_phase`. -/
theorem get_next_phase_phase (config : stepper_config) (data : stepper_data)
    (phase : move_phase) (next_pos : stepper_point_t) :
    get_next_phase config { data with current_phase := phase } next_pos =
      get_next_phase config data next_pos := by
  rfl

/-- C14: in every state that can occur (the initial state with phase `STOP` and interval 0,
and the state after every completed call of `stepper_update_state`, whatever the other
entry points did to the queue, the position or `half_step` in between),
`current_interval == 0` holds exactly when `current_phase == STOP`. -/
theorem interval_zero_iff_stop (config : stepper_config) (d : stepper_data)
    (h : Reachable config d) : d.current_interval = 0 ↔ d.current_phase = STOP := by
  induction h with
  | init d hphase hinterval => exact ⟨fun _ => hphase, fun _ => hinterval⟩
  | update mem fuel s s' _ hcall ih =>
    exact stepper_update_state_stop_iff config mem fuel s s' ih.2 hcall
  | other d d' _ hphase hinterval ih => rw [hphase, hinterval]; exact ih

/-- C14 (witness): the data after the first call of the run to `x = 1000` can occur; its
interval is 1414214 and its phase is `ACCELERATE`. -/
theorem interval_zero_iff_stop_witness :
    Reachable dev_config
      { current_phase := ACCELERATE, current_interval := 1414214, path := some 1,
        position := { x := 0, cb := none }, forward := true, half_step := false,
        current_velocity := .fin false 6521906894469137 (-62) } ∧
    ((1414214 : Nat) = 0 ↔ ACCELERATE = STOP) :=
  ⟨Reachable.update (two_nodes 1000 none 0) 4 start_run
      { data :=
          { current_phase := ACCELERATE, current_interval := 1414214, path := some 1,
            position := { x := 0, cb := none }, forward := true, half_step := false,
            current_velocity := .fin false 6521906894469137 (-62) },
        calls := [] }
      (Reachable.init _ rfl rfl) (by decide!),
    interval_zero_iff_stop dev_config _
      (Reachable.update (two_nodes 1000 none 0) 4 start_run
        { data :=
            { current_phase := ACCELERATE, current_interval := 1414214, path := some 1,
              position := { x := 0, cb := none }, forward := true, half_step := false,
              current_velocity := .fin false 6521906894469137 (-62) },
          calls := [] }
        (Reachable.init _ rfl rfl) (by decide!))⟩

/-- C16: a completed top-level call of `stepper_update_state`, with all its recursive
re-runs, entered in a state in which the update of the coordinates stays in the range of
`int32_t`, leaves the position where it was when it was entered with
`current_interval == 0`, and moves it by exactly `distance_per_step`, up when `forward` is
true and down when it is false, when it was entered with `current_interval != 0`; the new
position is a value of `int32_t` and the callback of the position is not touched. -/
theorem update_moves_one_step (config : stepper_config) (mem : Nat → stepper_path_t)
    (fuel : Nat) (s s' : Run) (hrange : position_in_range config s.data)
    (h : stepper_update_state config mem fuel s = .ok s') :
    s'.data.position.x =
      (if s.data.current_interval = 0 then s.data.position.x
       else if s.data.forward = true then s.data.position.x + config.distance_per_step
       else s.data.position.x - config.distance_per_step) ∧
    s'.data.position.cb = s.data.position.cb ∧ is_int32 s'.data.position.x := by
  have key : s'.data.position.x =
      (if s.data.current_interval = 0 then s.data.position.x
       else if s.data.forward = true then s.data.position.x + config.distance_per_step
       else s.data.position.x - config.distance_per_step) ∧
      s'.data.position.cb = s.data.position.cb := by
    rw [stepper_update_state_position config mem fuel s s' h]
    unfold update_coordinates
    by_cases hi : s.data.current_interval = 0
    · simp [hi]
    · cases hf : s.data.forward <;> simp [hi, hf]
  refine ⟨key.1, key.2, ?_⟩
  rw [key.1]
  by_cases hi : s.data.current_interval = 0
  · rw [if_pos hi]
    exact hrange.2.1
  · rw [if_neg hi]
    exact hrange.2.2 hi

/-- C16 (witness): the second call of the run to `x = 1000` is entered with the interval
1414214 and `forward == true` at position 0 and returns at position 1. -/
theorem update_moves_one_step_witness :
    position_in_range dev_config
      { current_phase := ACCELERATE, current_interval := 1414214, path := some 1,
        position := { x := 0, cb := none }, forward := true, half_step := false,
        current_velocity := .fin false 6521906894469137 (-62) } ∧
    stepper_update_state dev_config (two_nodes 1000 none 0) 4
      { data :=
          { current_phase := ACCELERATE, current_interval := 1414214, path := some 1,
            position := { x := 0, cb := none }, forward := true, half_step := false,
            current_velocity := .fin false 6521906894469137 (-62) },
        calls := [] } =
      .ok
        { data :=
            { current_phase := ACCELERATE, current_interval := 585787, path := some 1,
              position := { x := 1, cb := none }, forward := true, half_step := false,
              current_velocity := .fin false 4611679469554962 (-61) },
          calls := [] } ∧
    (1 : Int) = 0 + dev_config.distance_per_step ∧ (none : point_cb_t) = none ∧
    is_int32 1 := by
  have h : stepper_update_state dev_config (two_nodes 1000 none 0) 4
      { data :=
          { current_phase := ACCELERATE, current_interval := 1414214, path := some 1,
            position := { x := 0, cb := none }, forward := true, half_step := false,
            current_velocity := .fin false 6521906894469137 (-62) },
        calls := [] } =
      .ok
        { data :=
            { current_phase := ACCELERATE, current_interval := 585787, path := some 1,
              position := { x := 1, cb := none }, forward := true, half_step := false,
              current_velocity := .fin false 4611679469554962 (-61) },
          calls := [] } := by decide!
  have hr : position_in_range dev_config
      { current_phase := ACCELERATE, current_interval := 1414214, path := some 1,
        position := { x := 0, cb := none }, forward := true, half_step := false,
        current_velocity := .fin false 6521906894469137 (-62) } := by decide
  have := update_moves_one_step dev_config (two_nodes 1000 none 0) 4 _ _ hr h
  exact ⟨hr, h, by simpa using this.1, this.2.1, this.2.2⟩

/-- C17: `set_position` with a non-null argument returns 0, sets `position.x` to the given
`x`, clears the callback of the position and leaves every other field of the driver data,
the path nodes and the submitted work untouched; with a null argument it returns -1 and
changes nothing. -/
theorem set_position_spec (s : Sys) :
    (∀ p : stepper_point_t,
      (set_position s (some p)).1 = 0 ∧
      (set_position s (some p)).2.data.position = stepper_point_t.mk p.x none ∧
      (set_position s (some p)).2.data.current_phase = s.data.current_phase ∧
      (set_position s (some p)).2.data.current_interval = s.data.current_interval ∧
      (set_position s (some p)).2.data.current_velocity = s.data.current_velocity ∧
      (set_position s (some p)).2.data.forward = s.data.forward ∧
      (set_position s (some p)).2.data.half_step = s.data.half_step ∧
      (set_position s (some p)).2.data.path = s.data.path ∧
      (set_position s (some p)).2.mem = s.mem ∧
      (set_position s (some p)).2.submitted = s.submitted) ∧
    set_position s none = (-1, s) :=
  ⟨fun _ => ⟨rfl, rfl, rfl, rfl, rfl, rfl, rfl, rfl, rfl, rfl⟩, rfl⟩

/-- The case analysis of `get_next_phase` in terms of the distance `ahead` from the
position to the brake point in the direction of travel. -/
theorem get_next_phase_cases (config : stepper_config) (data : stepper_data)
    (next_pos : stepper_point_t) (bd ahead : Int)
    (hbd : get_brake_distance config data = .ok bd)
    (hahead : ahead =
      if data.forward = true then
        (next_pos.x - config.distance_per_step - bd) - data.position.x
      else data.position.x - (next_pos.x + config.distance_per_step + bd)) :
    ∃ phase, get_next_phase config data next_pos = .ok phase ∧
      (phase = ACCELERATE ↔ 0 < ahead ∧ config.distance_per_step < ahead) ∧
      (phase = MOVE ↔ 0 < ahead ∧ ahead ≤ config.distance_per_step) ∧
      (phase = DECELERATE ↔ ahead ≤ 0 ∧ 0 < data.current_interval) ∧
      (phase = STOP ↔ ahead ≤ 0 ∧ data.current_interval = 0) := by
  unfold get_next_phase
  simp only [hbd, res_bind_eq, res_pure_eq, res_bind_ok]
  cases hf : data.forward with
  | true =>
    simp only [hf, if_true] at hahead
    simp only [if_true, true_and, Bool.true_eq_false, false_and, if_false]
    by_cases h1 : data.position.x < next_pos.x - config.distance_per_step - bd
    · by_cases h2 : data.position.x <
          next_pos.x - config.distance_per_step - bd - config.distance_per_step
      · refine ⟨ACCELERATE, by simp [h1, h2], ?_⟩
        simp
        omega
      · refine ⟨MOVE, by simp [h1, h2], ?_⟩
        simp
        omega
    · by_cases h3 : 0 < data.current_interval
      · refine ⟨DECELERATE, by simp [h1, h3], ?_⟩
        simp
        omega
      · refine ⟨STOP, by simp [h1, h3], ?_⟩
        simp
        omega
  | false =>
    simp only [hf, Bool.false_eq_true, if_false] at hahead
    simp only [Bool.false_eq_true, if_false, false_and, true_and]
    by_cases h1 : data.position.x > next_pos.x + config.distance_per_step + bd
    · by_cases h2 : data.position.x >
          next_pos.x + config.distance_per_step + bd + config.distance_per_step
      · refine ⟨ACCELERATE, by simp [h1, h2], ?_⟩
        simp
        omega
      · refine ⟨MOVE, by simp [h1, h2], ?_⟩
        simp
        omega
    · by_cases h3 : 0 < data.current_interval
      · refine ⟨DECELERATE, by simp [h1, h3], ?_⟩
        simp
        omega
      · refine ⟨STOP, by simp [h1, h3], ?_⟩
        simp
        omega

/-- C19: when the `int32_t` arithmetic of `get_next_phase` stays in range, with the brake
point `bp = x - distance_per_step - get_brake_distance` for a forward move and
`bp = x + distance_per_step + get_brake_distance` for a backward move, and `ahead` the
distance from the position to the brake point in the direction of travel, the brake point
is a value of `int32_t` and `get_next_phase` returns `ACCELERATE` exactly when the position
is before the brake point by more than `distance_per_step`, `MOVE` exactly when it is
before it by at most `distance_per_step`, and, with the brake point reached or crossed,
`DECELERATE` exactly when `current_interval > 0` and `STOP` exactly when
`current_interval == 0`. -/
theorem get_next_phase_spec (config : stepper_config) (data : stepper_data)
    (next_pos : stepper_point_t) (bd ahead : Int)
    (hbd : get_brake_distance config data = .ok bd)
    (hrange : brake_point_in_range config data next_pos bd)
    (hahead : ahead =
      if data.forward = true then
        (next_pos.x - config.distance_per_step - bd) - data.position.x
      else data.position.x - (next_pos.x + config.distance_per_step + bd)) :
    is_int32
      (if data.forward = true then next_pos.x - config.distance_per_step - bd
       else next_pos.x + config.distance_per_step + bd) ∧
    ∃ phase, get_next_phase config data next_pos = .ok phase ∧
      (phase = ACCELERATE ↔ 0 < ahead ∧ config.distance_per_step < ahead) ∧
      (phase = MOVE ↔ 0 < ahead ∧ ahead ≤ config.distance_per_step) ∧
      (phase = DECELERATE ↔ ahead ≤ 0 ∧ 0 < data.current_interval) ∧
      (phase = STOP ↔ ahead ≤ 0 ∧ data.current_interval = 0) := by
  refine ⟨?_, get_next_phase_cases config data next_pos bd ahead hbd hahead⟩
  have hr := hrange.2.2.2.2
  by_cases hf : data.forward = true
  · rw [if_pos hf] at hr ⊢
    exact hr.2.1
  · rw [if_neg hf] at hr ⊢
    exact hr.2.1

/-- C19 (witness): in the test configuration at velocity 0.01 the brake distance is 51;
moving forward at position 940 towards 1000 the brake point is 948, the position is 8
before it, and the phase is `ACCELERATE`. -/
theorem get_next_phase_spec_witness :
    get_brake_distance dev_config
      { data_at_max_velocity with forward := true, position := { x := 940, cb := none } } =
      .ok 51 ∧
    brake_point_in_range dev_config
      { data_at_max_velocity with forward := true, position := { x := 940, cb := none } }
      { x := 1000, cb := none } 51 ∧
    is_int32 948 ∧
    ∃ phase, get_next_phase dev_config
        { data_at_max_velocity with forward := true, position := { x := 940, cb := none } }
        { x := 1000, cb := none } = .ok phase ∧
      (phase = ACCELERATE ↔ (0 : Int) < 8 ∧ dev_config.distance_per_step < 8) ∧
      (phase = MOVE ↔ (0 : Int) < 8 ∧ 8 ≤ dev_config.distance_per_step) ∧
      (phase = DECELERATE ↔ (8 : Int) ≤ 0 ∧ 0 < 100000) ∧
      (phase = STOP ↔ (8 : Int) ≤ 0 ∧ 100000 = 0) :=
  ⟨by decide!, by decide,
    get_next_phase_spec dev_config
      { data_at_max_velocity with forward := true, position := { x := 940, cb := none } }
      { x := 1000, cb := none } 51 8 (by decide!) (by decide) (by decide!)⟩

theorem toInt32_ne_timeout (x : Dbl) : Dbl.toInt32 x ≠ .timeout := by
  unfold Dbl.toInt32
  split
  · simp
  · cases (Dbl.ile (-2147483648) _ && Dbl.ilt _ 2147483648)
    · simp
    · simp [Res_int_eq]

theorem get_brake_distance_ne_timeout (config : stepper_config) (data : stepper_data) :
    get_brake_distance config data ≠ .timeout := by
  unfold get_brake_distance M_TO_DISTANCE
  simp only [res_bind_eq, res_pure_eq]
  intro h
  generalize hx : Dbl.toInt32 _ = r at h
  cases r with
  | ok a => simp [Res.bind] at h
  | undefined => simp [Res.bind] at h
  | timeout => exact toInt32_ne_timeout _ hx

/-- Whether `get_next_phase` is defined does not depend on the waypoint: it returns a phase
for every waypoint, or it is undefined for every waypoint. -/
theorem get_next_phase_defined (config : stepper_config) (data : stepper_data) :
    (∀ p, ∃ phase, get_next_phase config data p = .ok phase) ∨
    (∀ p, get_next_phase config data p = .undefined) := by
  cases hbd : get_brake_distance config data with
  | ok bd =>
    left
    intro p
    obtain ⟨phase, h, _⟩ := get_next_phase_cases config data p bd _ hbd rfl
    exact ⟨phase, h⟩
  | undefined =>
    right
    intro p
    unfold get_next_phase
    rw [hbd]
    rfl
  | timeout => exact absurd hbd (get_brake_distance_ne_timeout config data)

/-- The phase selection of `stepper_update_state` is `get_next_phase` on the waypoint of the
look-ahead rule. -/
theorem select_phase_eq (config : stepper_config) (mem : Nat → stepper_path_t) (path : Nat)
    (data : stepper_data) :
    select_phase config mem path data =
      get_next_phase config data (lookahead_target mem path data.forward) := by
  unfold select_phase lookahead_target
  simp only [res_bind_eq, res_pure_eq]
  rcases get_next_phase_defined config data with hall | hnone
  · obtain ⟨phase, h1⟩ := hall (mem path).p
    rw [h1, res_bind_ok]
    cases (mem path).next with
    | none => simp only [h1]
    | some next =>
      simp only []
      by_cases hf : data.forward = true
      · by_cases hc : (mem path).p.x < (mem next).p.x
        · simp only [hf, hc, if_true, true_and, Bool.true_eq_false, false_and, or_false]
          have h2 := get_next_phase_phase config data phase (mem next).p
          simp only [hf] at h2
          exact h2
        · simp only [hf, hc, if_false, if_true, true_and, Bool.true_eq_false, false_and,
            or_false]
          exact h1.symm
      · have hf' : data.forward = false := by simpa using hf
        by_cases hc : (mem path).p.x > (mem next).p.x
        · simp only [hf', hc, if_true, true_and, Bool.false_eq_true, false_and, false_or,
            if_false]
          have h2 := get_next_phase_phase config data phase (mem next).p
          simp only [hf'] at h2
          exact h2
        · simp only [hf', hc, if_false, true_and, Bool.false_eq_true, false_and, false_or]
          exact h1.symm
  · rw [hnone, hnone]
    rfl

/-- C20: in a pass of `stepper_update_state` that reaches the phase selection (the queue is
not empty), with `head` the queue head and `data` the driver data at that point (after the
pop on arrival and the choice of the direction), the phase chosen is the result of
`get_next_phase` on the successor of the head when there is one and it lies further along
the direction of travel, and on the head in every other case. -/
theorem lookahead_phase (config : stepper_config) (mem : Nat → stepper_path_t) (s s1 : Run)
    (h : update_pass config mem s = .ok (s1, true)) :
    ∃ head, (update_coordinates config s.data).path = some head ∧
      get_next_phase config (pass_data mem head (update_coordinates config s.data))
        (lookahead_target mem (pass_head mem head (update_coordinates config s.data))
          (pass_data mem head (update_coordinates config s.data)).forward) =
        .ok s1.data.current_phase := by
  obtain ⟨head, phase, d, hp, h1, h2, h3⟩ := update_pass_full config mem s s1 _ rfl h
  refine ⟨head, hp, ?_⟩
  rw [← select_phase_eq, h1, h3]
  have a := (stop_pop_fields mem (pass_head mem head (update_coordinates config s.data)) d).1
  have b := (select_interval_fields config mem _ _ _ _ h2).1
  simp only [a, b]

/-- C20 (witness): with the queue `[x = 100, x = 200]`, moving forward at velocity 0.01, a
pass entered at position 59 chooses the phase at position 60 from the successor `x = 200`
and gets `ACCELERATE`, while `get_next_phase` on the head `x = 100` is `DECELERATE`. -/
theorem lookahead_phase_witness :
    update_pass dev_config (two_nodes 100 (some 2) 200) (cruising 59) = .ok (cruising 60, true) ∧
    get_next_phase dev_config (cruising 60).data { x := 100, cb := some 1 } = .ok DECELERATE ∧
    ∃ head,
      (update_coordinates dev_config (cruising 59).data).path = some head ∧
      get_next_phase dev_config
        (pass_data (two_nodes 100 (some 2) 200) head
          (update_coordinates dev_config (cruising 59).data))
        (lookahead_target (two_nodes 100 (some 2) 200)
          (pass_head (two_nodes 100 (some 2) 200) head
            (update_coordinates dev_config (cruising 59).data))
          (pass_data (two_nodes 100 (some 2) 200) head
            (update_coordinates dev_config (cruising 59).data)).forward) =
        .ok (cruising 60).data.current_phase :=
  ⟨by decide!, by decide!,
    lookahead_phase dev_config (two_nodes 100 (some 2) 200) (cruising 59) (cruising 60)
      (by decide!)⟩

/-! ## The claims about the hardware -/

/-- The loop of `stepper_init` ends with a non-zero code when it meets a port that is not
ready. -/
theorem init_gpios_not_ready (dv : Devices) :
    ∀ (n i : Nat) (hw : Hw) (j : Nat), i ≤ j → j < i + n → dv.port_ready j = false →
      (init_gpios dv n i 0 hw).1 ≠ 0 := by
  intro n
  induction n with
  | zero => intro i hw j h1 h2; omega
  | succ n ih =>
    intro i hw j h1 h2 hj
    unfold init_gpios
    simp only [ne_eq, not_true_eq_false, if_false]
    by_cases hij : i = j
    · subst hij
      simp [hj, ENODEV]
    · by_cases hr : dv.port_ready i = true
      · simp only [hr, if_true]
        by_cases hc : dv.configure i = 0
        · simp only [hc, not_true_eq_false, if_false, if_true]
          exact ih (i + 1) _ j (by omega) (by omega) hj
        · simp only [hc, not_false_eq_true, if_true, if_false]
      · simp [hr, ENODEV]

/-- The part of C18 that holds: `stepper_init` returns a non-zero code when one of the five
GPIO ports is not ready. -/
theorem stepper_init_port_not_ready (dv : Devices) (hw : Hw) (j : Nat) (hj : j < 5)
    (hport : dv.port_ready j = false) : (stepper_init dv hw).1 ≠ 0 := by
  unfold stepper_init
  exact init_gpios_not_ready dv 5 0 hw j (Nat.zero_le j) (by omega) hport

/-- C18 (failing input): with the five GPIO ports ready, every pin configured
successfully and the timer device not ready, `stepper_init` returns 0 and has called
`counter_start`; the answer of `device_is_ready(timer_device)` changes nothing: the result
is the same as with the timer ready. -/
theorem stepper_init_ignores_timer :
    stepper_init { port_ready := fun _ => true, configure := fun _ => 0, timer_ready := false }
        idle_hw =
      (0, { idle_hw with dir := true, step := true, counter_starts := 1 }) ∧
    ∀ (dv : Devices) (hw : Hw),
      stepper_init { dv with timer_ready := false } hw =
        stepper_init { dv with timer_ready := true } hw :=
  ⟨by decide, fun _ _ => rfl⟩

/-- C15: when `stepper_timer_handler` returns, the standby output is asserted exactly when
the resulting `current_interval` is not 0; with a positive interval exactly one alarm has
been armed, for `counter_us_to_ticks(timer_device, current_interval)` ticks; with the
interval 0 no alarm has been armed. -/
theorem timer_handler_standby (config : stepper_config) (mem : Nat → stepper_path_t)
    (counter_us_to_ticks : Nat → Nat) (fuel : Nat) (s s' : Run) (hw hw' : Hw)
    (h : stepper_timer_handler config mem counter_us_to_ticks fuel s hw = .ok (s', hw')) :
    hw'.nstby = decide (s'.data.current_interval ≠ 0) ∧
    (0 < s'.data.current_interval →
      hw'.alarms = hw.alarms ++ [counter_us_to_ticks s'.data.current_interval] ∧
      hw'.alarm_ticks = counter_us_to_ticks s'.data.current_interval) ∧
    (s'.data.current_interval = 0 → hw'.alarms = hw.alarms) := by
  have key : ∀ (d : stepper_data) (hw0 : Hw),
      (stepper_timer_start counter_us_to_ticks d hw0).nstby = decide (d.current_interval ≠ 0) ∧
      (0 < d.current_interval →
        (stepper_timer_start counter_us_to_ticks d hw0).alarms =
          hw0.alarms ++ [counter_us_to_ticks d.current_interval] ∧
        (stepper_timer_start counter_us_to_ticks d hw0).alarm_ticks =
          counter_us_to_ticks d.current_interval) ∧
      (d.current_interval = 0 →
        (stepper_timer_start counter_us_to_ticks d hw0).alarms = hw0.alarms) := by
    intro d hw0
    unfold stepper_timer_start
    by_cases hi : d.current_interval > 0
    · have hne : d.current_interval ≠ 0 := by omega
      simp [hi, hne]
    · have h0 : d.current_interval = 0 := by omega
      simp [h0]
  have fin : ∀ s1 : Run,
      Res.ok ((toggle_step s1 hw).1,
        stepper_timer_start counter_us_to_ticks (toggle_step s1 hw).1.data
          (write_direction (toggle_step s1 hw).1.data (toggle_step s1 hw).2)) =
        Res.ok (s', hw') →
      hw'.nstby = decide (s'.data.current_interval ≠ 0) ∧
      (0 < s'.data.current_interval →
        hw'.alarms = hw.alarms ++ [counter_us_to_ticks s'.data.current_interval] ∧
        hw'.alarm_ticks = counter_us_to_ticks s'.data.current_interval) ∧
      (s'.data.current_interval = 0 → hw'.alarms = hw.alarms) := by
    intro s1 h
    simp only [Res.ok.injEq, Prod.mk.injEq] at h
    obtain ⟨h1, h2⟩ := h
    rw [← h1, ← h2]
    have halarms : (write_direction (toggle_step s1 hw).1.data (toggle_step s1 hw).2).alarms =
        hw.alarms := by
      unfold write_direction toggle_step
      split <;> split <;> rfl
    rw [← halarms]
    exact key _ _
  unfold stepper_timer_handler at h
  simp only [res_bind_eq, res_pure_eq] at h
  split at h
  · cases hu : stepper_update_state config mem fuel s with
    | ok s1 =>
      rw [hu, res_bind_ok] at h
      cases h
      exact key _ _
    | undefined => rw [hu] at h; cases h
    | timeout => rw [hu] at h; cases h
  · split at h
    · cases hu : stepper_update_state config mem fuel s with
      | ok s1 =>
        rw [hu, res_bind_ok] at h
        exact fin s1 h
      | undefined => rw [hu] at h; cases h
      | timeout => rw [hu] at h; cases h
    · rw [res_bind_ok] at h
      exact fin s h

/-- C15 (witness): the handler run on the stopped motor with the queue `[x = 1000]` (the
kick after `set_next_coord`), with a counter of one tick per microsecond, starts the motion
with the interval 1414214, asserts the standby pin and arms one alarm of 1414214 ticks. -/
theorem timer_handler_standby_witness :
    stepper_timer_handler dev_config (two_nodes 1000 none 0) (fun us => us) 4 start_run idle_hw =
      .ok ({ data :=
              { current_phase := ACCELERATE, current_interval := 1414214, path := some 1,
                position := { x := 0, cb := none }, forward := true, half_step := false,
                current_velocity := .fin false 6521906894469137 (-62) },
             calls := [] },
           { idle_hw with nstby := true, alarm_ticks := 1414214, alarms := [1414214] }) ∧
    (true = decide ((1414214 : Nat) ≠ 0) ∧
     ((0 : Nat) < 1414214 → [1414214] = ([] : List Nat) ++ [1414214] ∧ (1414214 : Nat) = 1414214) ∧
     ((1414214 : Nat) = 0 → [1414214] = ([] : List Nat))) :=
  ⟨by decide!,
    timer_handler_standby dev_config (two_nodes 1000 none 0) (fun us => us) 4 start_run
      { data :=
          { current_phase := ACCELERATE, current_interval := 1414214, path := some 1,
            position := { x := 0, cb := none }, forward := true, half_step := false,
            current_velocity := .fin false 6521906894469137 (-62) },
        calls := [] }
      idle_hw { idle_hw with nstby := true, alarm_ticks := 1414214, alarms := [1414214] }
      (by decide!)⟩

/-! ## The claim about the deceleration step -/

/-- C11: when the discriminant is not negative and the solved interval
`n = S_TO_INTERVAL(t)` is defined, `get_next_interval_dec` returns an interval different
from the previous interval `current_interval`. When `n` equals the previous interval the
result is that interval plus one (the `uint32_t` increment: `current_interval + 1`, and 0
in the one case `current_interval = 4294967295` where it wraps) and the velocity stored is
`get_speed` of the result; otherwise the result is `n` and the velocity stored is
`get_acc_speed` for `n`. -/
theorem get_next_interval_dec_breaks_tie (config : stepper_config) (data : stepper_data)
    (n : Nat) (hdelta : Dbl.lt (dec_discriminant config data) Dbl.zero = false)
    (hn : S_TO_INTERVAL (dec_solution config data) = .ok n) :
    ∃ r v, get_next_interval_dec config data = .ok (r, some v) ∧
      r ≠ data.current_interval ∧
      (n = data.current_interval →
        r = (data.current_interval + 1) % 2 ^ 32 ∧
        (data.current_interval + 1 < 2 ^ 32 → r = data.current_interval + 1) ∧
        v = get_speed config r) ∧
      (n ≠ data.current_interval →
        r = n ∧ v = get_acc_speed config (INTERVAL_TO_S n) data.current_velocity) := by
  unfold dec_solution dec_discriminant at hn
  unfold dec_discriminant at hdelta
  unfold get_next_interval_dec
  simp only [hdelta, Bool.false_eq_true, if_false, hn, res_bind_eq, res_pure_eq, res_bind_ok]
  by_cases hc : n = data.current_interval
  · refine ⟨(n + 1) % 2 ^ 32, get_speed config ((n + 1) % 2 ^ 32), by simp [hc], ?_, ?_, ?_⟩
    · subst hc; omega
    · intro _
      subst hc
      refine ⟨rfl, fun hlt => Nat.mod_eq_of_lt hlt, rfl⟩
    · intro hne; exact absurd hc hne
  · refine ⟨n, get_acc_speed config (INTERVAL_TO_S n) data.current_velocity, by simp [hc],
      hc, fun h => absurd h hc, fun _ => ⟨rfl, rfl⟩⟩

/-- C11 (witness): in the test configuration at velocity 0.01 the solved interval is
100505; with the previous interval 100505 the result is 100506 and the velocity stored is
`get_speed` of 100506. -/
theorem get_next_interval_dec_breaks_tie_witness :
    Dbl.lt (dec_discriminant dev_config (acc_data 100505 (Dbl.ofRatio 1 100))) Dbl.zero = false ∧
    S_TO_INTERVAL (dec_solution dev_config (acc_data 100505 (Dbl.ofRatio 1 100))) = .ok 100505 ∧
    get_next_interval_dec dev_config (acc_data 100505 (Dbl.ofRatio 1 100)) =
      .ok (100506, some (get_speed dev_config 100506)) ∧
    ∃ r v, get_next_interval_dec dev_config (acc_data 100505 (Dbl.ofRatio 1 100)) =
        .ok (r, some v) ∧
      r ≠ 100505 ∧
      ((100505 : Nat) = 100505 →
        r = (100505 + 1) % 2 ^ 32 ∧ (100505 + 1 < 2 ^ 32 → r = 100505 + 1) ∧
        v = get_speed dev_config r) ∧
      ((100505 : Nat) ≠ 100505 →
        r = 100505 ∧
        v = get_acc_speed dev_config (INTERVAL_TO_S 100505) (Dbl.ofRatio 1 100)) :=
  ⟨by decide!, by decide!, by decide!,
    get_next_interval_dec_breaks_tie dev_config (acc_data 100505 (Dbl.ofRatio 1 100)) 100505
      (by decide!) (by decide!)⟩

/-! ## The course of the deceleration in the run to `x = 1000` -/

/-- In the run to `x = 1000` the phase is `DECELERATE` after call 949,
after call 999 and after call 1000, and the velocity after call 1000 is above the velocity
after call 999: call 1000 takes the interval-increment fallback (the interval goes from
1356165 to 1356166) and stores `get_speed` of the new interval. -/
theorem velocity_rises_while_decelerating :
    (run_1000.map Run.data)[948]? = some (data_at_brake 1 948) ∧
    ∃ s t, (run_1000.map Run.data)[998]? = some s ∧ (run_1000.map Run.data)[999]? = some t ∧
      s.current_phase = DECELERATE ∧ t.current_phase = DECELERATE ∧
      t.current_interval = s.current_interval + 1 ∧
      t.current_velocity = get_speed dev_config t.current_interval ∧
      Dbl.lt s.current_velocity t.current_velocity = true := by
  obtain ⟨_, _, _, _, _, _, _, h998, h999, hspeed, hlt, h948⟩ := runs_1000_facts
  exact ⟨h948, _, _, h998, h999, rfl, rfl, rfl, hspeed.symm, hlt⟩

/-- In the run to the single waypoint `x = 1000` of the test configuration
the phase becomes `DECELERATE` with call 949 and not before. From there to call 1000
`current_interval` strictly increases with every call. `current_velocity` strictly
decreases with every call after call 949 except call 951, after which the phase is `MOVE`
again, and call 1000, which takes the interval-increment fallback and stores `get_speed` of
the incremented interval; call 1001 ends the run at rest with velocity 0. -/
theorem deceleration_course :
    (∀ s ∈ run_1000.take 948, s.data.current_phase ≠ DECELERATE) ∧
    (run_1000.map Run.data)[948]? = some (data_at_brake 1 948) ∧
    intervals_increase ((run_1000.drop 948).take 52) = true ∧
    velocity_rises 949 (run_1000.drop 948) = [951, 1000] ∧
    (run_1000.map Run.data)[950]? =
      some (moving MOVE 102062 950 (.fin false 5648142818124508 (-59))) ∧
    (run_1000.map Run.data)[998]? =
      some (moving DECELERATE 1356165 998 (.fin false 8749790345223392 (-67))) ∧
    (run_1000.map Run.data)[999]? =
      some (moving DECELERATE 1356166 999 (get_speed dev_config 1356166)) ∧
    (run_1000.map Run.data)[1000]? = some (data_at_rest 1000) := by
  obtain ⟨⟨_, _, _, _, _, _, hrest⟩, _, _, hnot, hinc, hrise, h950, h998, h999, hspeed, _, h948⟩ :=
    runs_1000_facts
  exact ⟨hnot, h948, hinc, hrise, h950, h998, by rw [hspeed]; exact h999, hrest⟩

/-! ## Rounding errors of the binary64 operations -/

namespace Dbl

theorem ile_iff (a b : Int) : ile a b = true ↔ a ≤ b := by
  cases a <;> cases b <;>
    simp only [ile, Nat.ble_eq, Bool.false_eq_true, false_iff, true_iff, Int.ofNat_eq_coe,
      Int.negSucc_eq] <;> omega

theorem ilt_iff (a b : Int) : ilt a b = true ↔ a < b := by
  unfold ilt
  rw [Bool.not_eq_true', ← Bool.not_eq_true, ile_iff]
  omega

theorem ieq_iff (a b : Int) : ieq a b = true ↔ a = b := by
  cases a <;> cases b <;>
    simp only [ieq, Nat.beq_eq, Bool.false_eq_true, false_iff, true_iff, Int.ofNat_eq_coe,
      Int.negSucc_eq] <;> omega

/-- The quotient of the two powers of two made from the positive and the negative part of
an exponent. -/
theorem two_pow_toNat_div (a : Int) :
    ((2 : ℚ) ^ a.toNat) / (2 : ℚ) ^ (-a).toNat = (2 : ℚ) ^ a := by
  rcases le_total 0 a with h | h
  · have e1 : (-a).toNat = 0 := by omega
    rw [e1, pow_zero, div_one, ← zpow_natCast, Int.toNat_of_nonneg h]
  · have e1 : a.toNat = 0 := by omega
    have e2 : ((-a).toNat : Int) = -a := Int.toNat_of_nonneg (by omega)
    rw [e1, pow_zero, one_div, ← zpow_natCast, e2, zpow_neg, inv_inv]

end Dbl

namespace Dbl

/-- Rounding a quotient of natural numbers to the nearest integer, ties to even: the result
is within one half of the quotient. -/
theorem round_quotient (num den q1 : Nat) (hden : 0 < den)
    (hq1 : q1 = (bif Nat.blt den (2 * (num % den)) ||
      (Nat.beq den (2 * (num % den)) && Nat.beq (num / den % 2) 1) then num / den + 1
      else num / den)) :
    2 * num ≤ 2 * q1 * den + den ∧ 2 * q1 * den ≤ 2 * num + den := by
  have hdiv : den * (num / den) + num % den = num := Nat.div_add_mod num den
  have hmod : num % den < den := Nat.mod_lt num hden
  generalize num / den = q at *
  generalize num % den = r at *
  cases hb : (Nat.blt den (2 * r) || (Nat.beq den (2 * r) && Nat.beq (q % 2) 1)) with
  | true =>
    rw [hb] at hq1
    simp only [cond_true] at hq1
    have h2 : den ≤ 2 * r := by
      rcases Bool.or_eq_true _ _ |>.mp hb with h | h
      · exact Nat.le_of_lt (by simpa [Nat.blt_eq] using h)
      · have := (Bool.and_eq_true _ _ |>.mp h).1
        have : den = 2 * r := by simpa using this
        omega
    subst hq1
    constructor <;> nlinarith
  | false =>
    rw [hb] at hq1
    simp only [cond_false] at hq1
    have h2 : 2 * r ≤ den := by
      have h := (Bool.or_eq_false_iff.mp hb).1
      have : ¬ den < 2 * r := by
        intro hlt
        have : Nat.blt den (2 * r) = true := by simpa [Nat.blt_eq] using hlt
        rw [this] at h
        exact Bool.noConfusion h
      omega
    subst hq1
    constructor <;> nlinarith

end Dbl

namespace Dbl

/-- Rounding a positive quotient `n / d` whose logarithm `fl` lies in the range of the
normal binary64 numbers gives a finite positive datum within `2^(fl - 53)`, half a unit in
the last place, of the quotient. -/
theorem roundAt_spec (n d : Nat) (fl : Int) (hd : 0 < d)
    (h1 : pow2Le n d fl = true) (h2 : pow2Le n d (fl + 1) = false)
    (hlo : -1022 ≤ fl) (hhi : fl ≤ 1022) :
    ∃ m e, roundAt false n d fl = fin false m e ∧ 0 < m ∧
      |(m : ℚ) * 2 ^ e - (n : ℚ) / d| ≤ 2 ^ (fl - 53) := by
  have he : (bif ile (fl - 52) (-1074) then (-1074 : Int) else fl - 52) = fl - 52 := by
    cases h : ile (fl - 52) (-1074)
    · rfl
    · rw [ile_iff] at h
      simp only [cond_true]
      omega
  rw [pow2Le_iff] at h1
  have h2' : (n : ℚ) < d * 2 ^ (fl + 1) := by
    by_contra hc
    rw [not_lt, ← pow2Le_iff, h2] at hc
    exact Bool.noConfusion hc
  have two_ne : (2 : ℚ) ≠ 0 := by norm_num
  have hdq : (0 : ℚ) < d := by exact_mod_cast hd
  -- numerator and denominator at the exponent `fl - 52`
  obtain ⟨num, hnum⟩ : ∃ num, num = n * 2 ^ (-(fl - 52)).toNat := ⟨_, rfl⟩
  obtain ⟨den, hden⟩ : ∃ den, den = d * 2 ^ (fl - 52).toNat := ⟨_, rfl⟩
  have hdenpos : 0 < den := by rw [hden]; positivity
  have hdenq : (0 : ℚ) < den := by exact_mod_cast hdenpos
  have hquot : (num : ℚ) / den = (n : ℚ) / d * 2 ^ (-(fl - 52)) := by
    rw [hnum, hden, ← two_pow_toNat_div (-(fl - 52)), neg_neg]
    push_cast
    field_simp
  have hscale : (n : ℚ) / d = (num : ℚ) / den * 2 ^ (fl - 52) := by
    rw [hquot, mul_assoc, ← zpow_add₀ two_ne]
    simp
  have hge : (2 : ℚ) ^ (52 : ℕ) * den ≤ num := by
    rw [← le_div_iff₀ hdenq, hquot]
    have : (2 : ℚ) ^ fl ≤ (n : ℚ) / d := by
      rw [le_div_iff₀ hdq, mul_comm]; exact h1
    calc (2 : ℚ) ^ (52 : ℕ) = 2 ^ fl * 2 ^ (-(fl - 52)) := by
          rw [← zpow_add₀ two_ne, ← zpow_natCast]; congr 1; omega
      _ ≤ (n : ℚ) / d * 2 ^ (-(fl - 52)) :=
          mul_le_mul_of_nonneg_right this (by positivity)
  have hlt : (num : ℚ) < 2 ^ (53 : ℕ) * den := by
    rw [← div_lt_iff₀ hdenq, hquot]
    have : (n : ℚ) / d < 2 ^ (fl + 1) := by
      rw [div_lt_iff₀ hdq, mul_comm]; exact h2'
    calc (n : ℚ) / d * 2 ^ (-(fl - 52)) < 2 ^ (fl + 1) * 2 ^ (-(fl - 52)) :=
          mul_lt_mul_of_pos_right this (by positivity)
      _ = 2 ^ (53 : ℕ) := by
          rw [← zpow_add₀ two_ne, ← zpow_natCast]; congr 1; omega
  have hgeN : 2 ^ 52 * den ≤ num := by exact_mod_cast hge
  have hltN : num < 2 ^ 53 * den := by exact_mod_cast hlt
  have hq_lo : 2 ^ 52 ≤ num / den := (Nat.le_div_iff_mul_le hdenpos).mpr hgeN
  have hq_hi : num / den < 2 ^ 53 := (Nat.div_lt_iff_lt_mul hdenpos).mpr hltN
  -- the rounded quotient
  obtain ⟨q1, hq1⟩ : ∃ q1, q1 = (bif Nat.blt den (2 * (num % den)) ||
      (Nat.beq den (2 * (num % den)) && Nat.beq (num / den % 2) 1) then num / den + 1
      else num / den) := ⟨_, rfl⟩
  obtain ⟨r1, r2⟩ := round_quotient num den q1 hdenpos hq1
  have hq1_lo : 2 ^ 52 ≤ q1 := by
    rw [hq1]
    cases (Nat.blt den (2 * (num % den)) ||
      (Nat.beq den (2 * (num % den)) && Nat.beq (num / den % 2) 1))
    · exact hq_lo
    · exact Nat.le_succ_of_le hq_lo
  have hq1_hi : q1 ≤ 2 ^ 53 := by
    rw [hq1]
    cases (Nat.blt den (2 * (num % den)) ||
      (Nat.beq den (2 * (num % den)) && Nat.beq (num / den % 2) 1))
    · exact Nat.le_of_lt hq_hi
    · exact hq_hi
  have herr : |(q1 : ℚ) * 2 ^ (fl - 52) - (n : ℚ) / d| ≤ 2 ^ (fl - 53) := by
    have hp : (0 : ℚ) < 2 ^ (fl - 52) := by positivity
    have e1 : (q1 : ℚ) * 2 ^ (fl - 52) - (n : ℚ) / d =
        ((q1 : ℚ) * den - num) / den * 2 ^ (fl - 52) := by
      rw [hscale]; field_simp; ring
    have e2 : (2 : ℚ) ^ (fl - 53) = 1 / 2 * 2 ^ (fl - 52) := by
      rw [show fl - 52 = (fl - 53) + 1 by omega, zpow_add₀ two_ne]
      simp
      ring
    rw [e1, e2, abs_mul, abs_of_pos hp]
    refine mul_le_mul_of_nonneg_right ?_ (le_of_lt hp)
    rw [abs_div, abs_of_pos hdenq, div_le_iff₀ hdenq, abs_le]
    have r1q : (2 : ℚ) * num ≤ 2 * q1 * den + den := by exact_mod_cast r1
    have r2q : (2 : ℚ) * q1 * den ≤ 2 * num + den := by exact_mod_cast r2
    constructor <;> linarith
  unfold roundAt
  simp only [he, ← hnum, ← hden, ← hq1]
  by_cases hc : q1 = 2 ^ 53
  · have hb : Nat.beq q1 (2 ^ 53) = true := by rw [hc]; exact Nat.beq_refl _
    have hi : ilt 971 (fl - 52 + 1) = false := by
      rw [← Bool.not_eq_true, ilt_iff]; omega
    simp only [hb, cond_true, hi, cond_false]
    rw [Dbl_mk_eq]
    refine ⟨2 ^ 52, fl - 52 + 1, rfl, by positivity, ?_⟩
    have : ((2 ^ 52 : ℕ) : ℚ) * 2 ^ (fl - 52 + 1) = (q1 : ℚ) * 2 ^ (fl - 52) := by
      rw [hc, zpow_add₀ two_ne]
      push_cast
      ring
    rw [this]
    exact herr
  · have hb : Nat.beq q1 (2 ^ 53) = false := by
      cases h : Nat.beq q1 (2 ^ 53)
      · rfl
      · exact absurd (Nat.eq_of_beq_eq_true h) hc
    have hi : ilt 971 (fl - 52) = false := by
      rw [← Bool.not_eq_true, ilt_iff]; omega
    simp only [hb, cond_false, hi]
    rw [Dbl_mk_eq]
    exact ⟨q1, fl - 52, rfl, Nat.lt_of_lt_of_le (by positivity) hq1_lo, herr⟩

end Dbl

namespace Dbl

theorem Within.pos {k : Nat} {r : ℚ} (h : Within k r) : 0 < r :=
  lt_of_lt_of_le (by positivity) h.1

theorem Within.mono {a b : Nat} {r : ℚ} (hab : a ≤ b) (h : Within a r) : Within b r := by
  constructor
  · exact le_trans (zpow_le_zpow_right₀ (by norm_num) (by omega)) h.1
  · exact le_trans h.2 (zpow_le_zpow_right₀ (by norm_num) (by omega))

theorem Within.div {a b : Nat} {x y : ℚ} (hx : Within a x) (hy : Within b y) :
    Within (a + b) (x / y) := by
  have two_ne : (2 : ℚ) ≠ 0 := by norm_num
  have hy0 := hy.pos
  constructor
  · rw [le_div_iff₀ hy0]
    calc (2 : ℚ) ^ (-((a + b : ℕ) : Int)) * y ≤ 2 ^ (-((a + b : ℕ) : Int)) * 2 ^ (b : Int) :=
          mul_le_mul_of_nonneg_left hy.2 (by positivity)
      _ = 2 ^ (-(a : Int)) := by
          rw [← zpow_add₀ two_ne]; congr 1; push_cast; ring
      _ ≤ x := hx.1
  · rw [div_le_iff₀ hy0]
    calc x ≤ 2 ^ (a : Int) := hx.2
      _ = 2 ^ ((a + b : ℕ) : Int) * 2 ^ (-(b : Int)) := by
          rw [← zpow_add₀ two_ne]; congr 1; push_cast; ring
      _ ≤ 2 ^ ((a + b : ℕ) : Int) * y := mul_le_mul_of_nonneg_left hy.1 (by positivity)

theorem Within.mul {a b : Nat} {x y : ℚ} (hx : Within a x) (hy : Within b y) :
    Within (a + b) (x * y) := by
  have two_ne : (2 : ℚ) ≠ 0 := by norm_num
  have hx0 := hx.pos
  have hy0 := hy.pos
  constructor
  · calc (2 : ℚ) ^ (-((a + b : ℕ) : Int)) = 2 ^ (-(a : Int)) * 2 ^ (-(b : Int)) := by
          rw [← zpow_add₀ two_ne]; congr 1; push_cast; ring
      _ ≤ x * y := mul_le_mul hx.1 hy.1 (by positivity) (le_of_lt hx0)
  · calc x * y ≤ 2 ^ (a : Int) * 2 ^ (b : Int) :=
          mul_le_mul hx.2 hy.2 (le_of_lt hy0) (by positivity)
      _ = 2 ^ ((a + b : ℕ) : Int) := by
          rw [← zpow_add₀ two_ne]; congr 1

theorem Within.add {a b : Nat} {x y : ℚ} (hx : Within a x) (hy : Within b y) :
    Within (a + b + 1) (x + y) := by
  have two_ne : (2 : ℚ) ≠ 0 := by norm_num
  have hy0 := hy.pos
  have hxa := (Within.mono (Nat.le_add_right a b) hx).2
  have hyb := (Within.mono (Nat.le_add_left b a) hy).2
  constructor
  · have := (Within.mono (show a ≤ a + b + 1 by omega) hx).1
    linarith
  · have e : (2 : ℚ) ^ ((a + b + 1 : ℕ) : Int) = 2 ^ ((a + b : ℕ) : Int) * 2 := by
      rw [show ((a + b + 1 : ℕ) : Int) = ((a + b : ℕ) : Int) + 1 by push_cast; ring,
        zpow_add₀ two_ne, zpow_one]
    rw [e]
    linarith

theorem Near.within {k : Nat} {x r : ℚ} (hn : Near x r) (hr : Within k r) :
    Within (k + 1) x := by
  have two_ne : (2 : ℚ) ≠ 0 := by norm_num
  have hr0 := hr.pos
  have hu : (2 : ℚ) ^ (-53 : Int) ≤ 1 / 2 := by
    rw [show (1 : ℚ) / 2 = 2 ^ (-1 : Int) by norm_num]
    exact zpow_le_zpow_right₀ (by norm_num) (by norm_num)
  have hu0 : (0 : ℚ) < 2 ^ (-53 : Int) := by positivity
  obtain ⟨hn1, hn2⟩ := hn
  obtain ⟨hr1, hr2⟩ := hr
  have e1 : (2 : ℚ) ^ (-((k + 1 : ℕ) : Int)) = 2 ^ (-(k : Int)) * (1 / 2) := by
    rw [show (-((k + 1 : ℕ) : Int)) = -(k : Int) + (-1) by push_cast; ring,
      zpow_add₀ two_ne]
    norm_num
  have e2 : (2 : ℚ) ^ ((k + 1 : ℕ) : Int) = 2 ^ (k : Int) * 2 := by
    rw [show ((k + 1 : ℕ) : Int) = (k : Int) + 1 by push_cast; ring, zpow_add₀ two_ne,
      zpow_one]
  unfold Within
  rw [e1, e2]
  generalize (2 : ℚ) ^ (-53 : Int) = u at *
  generalize (2 : ℚ) ^ (-(k : Int)) = lo at *
  generalize (2 : ℚ) ^ (k : Int) = hi at *
  have h3 : r * u ≤ r * (1 / 2) := mul_le_mul_of_nonneg_left hu (le_of_lt hr0)
  constructor <;> nlinarith

/-- Rounding a positive quotient `n / d` between `2^-1022` and `2^1022` gives a finite
positive datum whose value is the quotient up to the relative error `2^-53`. -/
theorem round_spec (n d k : Nat) (hd : 0 < d) (hk : k ≤ 1022)
    (hx : Within k ((n : ℚ) / d)) :
    ∃ r, (round false n d).IsPos r ∧ Near r ((n : ℚ) / d) := by
  have two_ne : (2 : ℚ) ≠ 0 := by norm_num
  have hdq : (0 : ℚ) < d := by exact_mod_cast hd
  have hx0 := hx.pos
  have hn : 0 < n := by
    rcases Nat.eq_zero_or_pos n with h | h
    · rw [h] at hx0; simp at hx0
    · exact h
  obtain ⟨h1, h2⟩ := floorLog2_spec n d hn hd
  have h1' := (pow2Le_iff n d _).mp h1
  have h2' : (n : ℚ) < d * 2 ^ (floorLog2 n d + 1) := by
    by_contra hc
    rw [not_lt, ← pow2Le_iff, h2] at hc
    exact Bool.noConfusion hc
  have hfl_le : (2 : ℚ) ^ (floorLog2 n d) ≤ (n : ℚ) / d := by
    rw [le_div_iff₀ hdq, mul_comm]; exact h1'
  have hfl_lt : (n : ℚ) / d < 2 ^ (floorLog2 n d + 1) := by
    rw [div_lt_iff₀ hdq, mul_comm]; exact h2'
  have hlo : -1022 ≤ floorLog2 n d := by
    have : (2 : ℚ) ^ (-(k : Int)) < 2 ^ (floorLog2 n d + 1) := lt_of_le_of_lt hx.1 hfl_lt
    have := (zpow_lt_zpow_iff_right₀ (by norm_num : (1 : ℚ) < 2)).mp this
    omega
  have hhi : floorLog2 n d ≤ 1022 := by
    have : (2 : ℚ) ^ (floorLog2 n d) ≤ 2 ^ (k : Int) := le_trans hfl_le hx.2
    have := (zpow_le_zpow_iff_right₀ (by norm_num : (1 : ℚ) < 2)).mp this
    omega
  obtain ⟨m, e, hr, hm, herr⟩ := roundAt_spec n d _ hd h1 h2 hlo hhi
  have hne : Nat.beq n 0 = false := by
    cases h : Nat.beq n 0
    · rfl
    · have := Nat.eq_of_beq_eq_true h; omega
  refine ⟨(m : ℚ) * 2 ^ e, ⟨m, e, ?_, hm, rfl⟩, ?_⟩
  · unfold round
    rw [hne]
    exact hr
  · have hb : (2 : ℚ) ^ (floorLog2 n d - 53) ≤ (n : ℚ) / d * 2 ^ (-53 : Int) := by
      rw [show floorLog2 n d - 53 = floorLog2 n d + (-53) by ring, zpow_add₀ two_ne]
      exact mul_le_mul_of_nonneg_right hfl_le (by positivity)
    obtain ⟨e1, e2⟩ := abs_le.mp (le_trans herr hb)
    unfold Near
    generalize (2 : ℚ) ^ (-53 : Int) = u at *
    constructor <;> linarith

end Dbl

namespace Dbl

/-- Division of two positive data whose quotient is a normal number: the result is the
quotient of the values up to one rounding. -/
theorem div_spec (x y : Dbl) (rx ry : ℚ) (a b : Nat) (hx : x.IsPos rx) (hy : y.IsPos ry)
    (hax : Within a rx) (hby : Within b ry) (hab : a + b ≤ 1022) :
    ∃ r, (div x y).IsPos r ∧ Near r (rx / ry) ∧ Within (a + b + 1) r := by
  obtain ⟨m, e, rfl, hm, rfl⟩ := hx
  obtain ⟨k, f, rfl, hk, rfl⟩ := hy
  have hkb : Nat.beq k 0 = false := by
    cases h : Nat.beq k 0
    · rfl
    · have := Nat.eq_of_beq_eq_true h; omega
  have hd : 0 < k * 2 ^ (f - e).toNat := by positivity
  have hval : ((m * 2 ^ (e - f).toNat : ℕ) : ℚ) / ((k * 2 ^ (f - e).toNat : ℕ) : ℚ) =
      (m : ℚ) * 2 ^ e / ((k : ℚ) * 2 ^ f) := by
    have two_ne : (2 : ℚ) ≠ 0 := by norm_num
    have h := two_pow_toNat_div (e - f)
    rw [show -(e - f) = f - e by ring] at h
    have hk0 : (k : ℚ) ≠ 0 := by exact_mod_cast (Nat.pos_iff_ne_zero.mp hk)
    push_cast
    rw [mul_div_mul_comm, h, zpow_sub₀ two_ne, mul_div_mul_comm]
  have hw := Within.div hax hby
  rw [← hval] at hw
  obtain ⟨r, hr, hn⟩ := round_spec _ _ (a + b) hd hab hw
  refine ⟨r, ?_, ?_, ?_⟩
  · have : div (fin false m e) (fin false k f) =
        round false (m * 2 ^ (e - f).toNat) (k * 2 ^ (f - e).toNat) := by
      show (bif Nat.beq k 0 then _ else roundNear (xor false false) _ _ _) = _
      rw [hkb]
      exact roundNear_eq _ _ _ _ hd
    rw [this]
    exact hr
  · rw [← hval]; exact hn
  · exact hn.within hw

/-- Multiplication of two positive data whose product is a normal number: the result is
the product of the values up to one rounding. -/
theorem mul_spec (x y : Dbl) (rx ry : ℚ) (a b : Nat) (hx : x.IsPos rx) (hy : y.IsPos ry)
    (hax : Within a rx) (hby : Within b ry) (hab : a + b ≤ 1022) :
    ∃ r, (mul x y).IsPos r ∧ Near r (rx * ry) ∧ Within (a + b + 1) r := by
  obtain ⟨m, e, rfl, hm, rfl⟩ := hx
  obtain ⟨k, f, rfl, hk, rfl⟩ := hy
  have hd : 0 < 2 ^ (-(e + f)).toNat := by positivity
  have hval : ((m * k * 2 ^ (e + f).toNat : ℕ) : ℚ) / ((2 ^ (-(e + f)).toNat : ℕ) : ℚ) =
      (m : ℚ) * 2 ^ e * ((k : ℚ) * 2 ^ f) := by
    have two_ne : (2 : ℚ) ≠ 0 := by norm_num
    have h := two_pow_toNat_div (e + f)
    push_cast
    rw [mul_div_assoc, h, zpow_add₀ two_ne]
    ring
  have hw := Within.mul hax hby
  rw [← hval] at hw
  obtain ⟨r, hr, hn⟩ := round_spec _ _ (a + b) hd hab hw
  refine ⟨r, ?_, ?_, ?_⟩
  · have : mul (fin false m e) (fin false k f) =
        round false (m * k * 2 ^ (e + f).toNat) (2 ^ (-(e + f)).toNat) := by
      show ofExact (xor false false) (m * k) (e + f) 105 = _
      exact ofExact_eq _ _ _ _
    rw [this]
    exact hr
  · rw [← hval]; exact hn
  · exact hn.within hw

/-- Addition of two positive data whose sum is a normal number: the result is the sum of
the values up to one rounding. -/
theorem add_spec (x y : Dbl) (rx ry : ℚ) (a b : Nat) (hx : x.IsPos rx) (hy : y.IsPos ry)
    (hax : Within a rx) (hby : Within b ry) (hab : a + b + 1 ≤ 1022) :
    ∃ r, (add x y).IsPos r ∧ Near r (rx + ry) ∧ Within (a + b + 2) r := by
  obtain ⟨m, e, rfl, hm, rfl⟩ := hx
  obtain ⟨k, f, rfl, hk, rfl⟩ := hy
  obtain ⟨g, hg⟩ : ∃ g, g = (bif ile e f then e else f) := ⟨_, rfl⟩
  have hge : g ≤ e := by
    rw [hg]
    cases h : ile e f
    · have : ¬ e ≤ f := by rw [← ile_iff, h]; simp
      simp only [cond_false]; omega
    · simp only [cond_true]; omega
  have hgf : g ≤ f := by
    rw [hg]
    cases h : ile e f
    · simp only [cond_false]; omega
    · have : e ≤ f := by rw [← ile_iff, h]
      simp only [cond_true]; omega
  have hd : 0 < 2 ^ (-g).toNat := by positivity
  have hval : (((m * 2 ^ (e - g).toNat + k * 2 ^ (f - g).toNat) * 2 ^ g.toNat : ℕ) : ℚ) /
      ((2 ^ (-g).toNat : ℕ) : ℚ) = (m : ℚ) * 2 ^ e + (k : ℚ) * 2 ^ f := by
    have two_ne : (2 : ℚ) ≠ 0 := by norm_num
    have h := two_pow_toNat_div g
    have he : ((2 : ℚ) ^ (e - g).toNat) = 2 ^ (e - g) := by
      rw [← zpow_natCast, Int.toNat_of_nonneg (by omega)]
    have hf : ((2 : ℚ) ^ (f - g).toNat) = 2 ^ (f - g) := by
      rw [← zpow_natCast, Int.toNat_of_nonneg (by omega)]
    push_cast
    rw [mul_div_assoc, h, he, hf, add_mul, mul_assoc, mul_assoc, ← zpow_add₀ two_ne,
      ← zpow_add₀ two_ne]
    simp
  have hw := Within.add hax hby
  rw [← hval] at hw
  obtain ⟨r, hr, hn⟩ := round_spec _ _ (a + b + 1) hd hab hw
  refine ⟨r, ?_, ?_, ?_⟩
  · have : add (fin false m e) (fin false k f) =
        round false ((m * 2 ^ (e - g).toNat + k * 2 ^ (f - g).toNat) * 2 ^ g.toNat)
          (2 ^ (-g).toNat) := by
      have h0 : add (fin false m e) (fin false k f) =
          ofExact false (m * 2 ^ (e - g).toNat + k * 2 ^ (f - g).toNat) g
            ((bif ile e f then f else e) - g + 52) := by
        rw [hg]; rfl
      rw [h0]
      exact ofExact_eq _ _ _ _
    rw [this]
    exact hr
  · rw [← hval]; exact hn
  · exact hn.within hw

/-- The conversion of a positive integer below `2^1022` to binary64: the result is the
integer up to one rounding. -/
theorem ofInt_spec (z : Int) (k : Nat) (hk : k ≤ 1022) (hz : Within k (z : ℚ)) :
    ∃ r, (ofInt z).IsPos r ∧ Near r (z : ℚ) ∧ Within (k + 1) r := by
  have hz0 : (0 : ℚ) < z := hz.pos
  have hzpos : 0 < z := by exact_mod_cast hz0
  obtain ⟨n, rfl⟩ := Int.eq_ofNat_of_zero_le (le_of_lt hzpos)
  have hn : 0 < n := by exact_mod_cast hzpos
  have hw : Within k ((n : ℚ) / (1 : ℕ)) := by simpa using hz
  have h0 : ieq (n : Int) 0 = false := by
    cases h : ieq (n : Int) 0
    · rfl
    · rw [ieq_iff] at h; omega
  have hl : ilt (n : Int) 0 = false := by
    cases h : ilt (n : Int) 0
    · rfl
    · rw [ilt_iff] at h; omega
  -- the logarithm is the one `round` computes
  obtain ⟨s1, s2⟩ := floorLog2_spec n 1 hn Nat.one_pos
  obtain ⟨l1, l2⟩ := ilog2_spec n hn
  have p1 : pow2Le n 1 (ilog2 n : Int) = true := by
    rw [pow2Le_iff, zpow_natCast]
    have h' : ((2 ^ ilog2 n : ℕ) : ℚ) ≤ (n : ℚ) := by exact_mod_cast l1
    push_cast at h'
    simpa using h'
  have p2 : pow2Le n 1 ((ilog2 n : Int) + 1) = false := by
    cases h : pow2Le n 1 ((ilog2 n : Int) + 1)
    · rfl
    · rw [pow2Le_iff, show ((ilog2 n : Int) + 1) = ((ilog2 n + 1 : ℕ) : Int) by push_cast; ring,
        zpow_natCast] at h
      have h' : ((2 ^ (ilog2 n + 1) : ℕ) : ℚ) ≤ (n : ℚ) := by
        push_cast
        simpa using h
      have : 2 ^ (ilog2 n + 1) ≤ n := by exact_mod_cast h'
      omega
  have hfl : floorLog2 n 1 = (ilog2 n : Int) := pow2Le_unique n 1 _ _ s1 s2 p1 p2
  obtain ⟨r, hr, hnear⟩ := round_spec n 1 k Nat.one_pos hk hw
  refine ⟨r, ?_, by simpa using hnear, ?_⟩
  · have hne : Nat.beq n 0 = false := by
      cases h : Nat.beq n 0
      · rfl
      · have := Nat.eq_of_beq_eq_true h; omega
    have : ofInt (n : Int) = round false n 1 := by
      unfold ofInt round
      rw [h0, hl, hne, hfl]
      simp
    rw [this]
    exact hr
  · exact hnear.within hw

end Dbl

namespace Dbl

theorem ofInt_thousand : (ofInt 1000).IsPos 1000 :=
  ⟨8796093022208000, -43, by decide!, by norm_num, by norm_num⟩

theorem ofInt_million : (ofInt 1000000).IsPos 1000000 :=
  ⟨8589934592000000, -33, by decide!, by norm_num, by norm_num⟩

theorem ofRatio_half : (ofRatio 1 2).IsPos (1 / 2) :=
  ⟨4503599627370496, -53, by decide!, by norm_num, by norm_num⟩

/-- The conversion to `uint32_t` of a positive datum whose value lies between the integer
`i` and `i + 1` is `i`. -/
theorem toUInt32_spec (x : Dbl) (r : ℚ) (i : Nat) (hx : x.IsPos r) (h1 : (i : ℚ) ≤ r)
    (h2 : r < (i : ℚ) + 1) (hi : i < 2 ^ 32) : toUInt32 x = .ok i := by
  obtain ⟨m, e, rfl, hm, rfl⟩ := hx
  have two_ne : (2 : ℚ) ≠ 0 := by norm_num
  have hmag : (bif ile 0 e then m * 2 ^ e.toNat else m / 2 ^ (-e).toNat) = i := by
    cases h : ile 0 e
    · have he : e < 0 := by
        have : ¬ (0 ≤ e) := by rw [← ile_iff, h]; simp
        omega
      simp only [cond_false]
      have hp : (0 : ℚ) < 2 ^ (-e).toNat := by positivity
      have hv : (m : ℚ) * 2 ^ e = (m : ℚ) / 2 ^ (-e).toNat := by
        rw [← zpow_natCast, Int.toNat_of_nonneg (by omega), zpow_neg, div_eq_mul_inv, inv_inv]
      rw [hv] at h1 h2
      rw [le_div_iff₀ hp] at h1
      rw [div_lt_iff₀ hp] at h2
      have a1 : i * 2 ^ (-e).toNat ≤ m := by exact_mod_cast h1
      have a2 : m < (i + 1) * 2 ^ (-e).toNat := by exact_mod_cast h2
      apply Nat.div_eq_of_lt_le
      · exact a1
      · exact a2
    · have he : 0 ≤ e := by rw [← ile_iff, h]
      simp only [cond_true]
      have hv : (m : ℚ) * 2 ^ e = ((m * 2 ^ e.toNat : ℕ) : ℚ) := by
        push_cast
        rw [← zpow_natCast, Int.toNat_of_nonneg he]
      rw [hv] at h1 h2
      have a1 : i ≤ m * 2 ^ e.toNat := by exact_mod_cast h1
      have a2 : m * 2 ^ e.toNat < i + 1 := by exact_mod_cast h2
      omega
  have htr : trunc (fin false m e) = some ((i : ℕ) : Int) := by
    show some (bif false then _ else _) = _
    simp only [cond_false]
    rw [hmag]
  unfold toUInt32
  rw [htr]
  have c1 : ile 0 ((i : ℕ) : Int) = true := by rw [ile_iff]; omega
  have c2 : ilt ((i : ℕ) : Int) 4294967296 = true := by rw [ilt_iff]; omega
  simp only [c1, c2, Bool.and_self, cond_true, Int.toNat_ofNat, Res_nat_eq]

end Dbl

namespace Dbl

/-- The arithmetic of `get_next_interval_lin` at the velocity `get_speed(i)`: with every
operation exact up to one rounding, the value converted to `uint32_t` lies between `i` and
`i + 1`. Here `t` is the exact quotient of the distance and the velocity. -/
theorem linear_interval_bounds (i ri rIS t rQ rY rZ : ℚ) (h2 : i ≤ 2 ^ 32)
    (hri : Near ri i) (hIS : Near rIS (ri / 1000000))
    (ht1 : t * (1 - 2 ^ (-53 : Int)) ≤ rIS) (ht2 : rIS ≤ t * (1 + 2 ^ (-53 : Int)))
    (hQ : Near rQ t) (hY : Near rY (rQ * 1000000)) (hZ : Near rZ (rY + 1 / 2)) :
    i ≤ rZ ∧ rZ < i + 1 := by
  obtain ⟨a1, a2⟩ := hri
  obtain ⟨b1, b2⟩ := hIS
  obtain ⟨c1, c2⟩ := hQ
  obtain ⟨d1, d2⟩ := hY
  obtain ⟨e1, e2⟩ := hZ
  have hu : (2 : ℚ) ^ (-53 : Int) = 1 / 9007199254740992 := by norm_num
  rw [hu] at a1 a2 b1 b2 c1 c2 d1 d2 e1 e2 ht1 ht2
  have h2' : i ≤ 4294967296 := by norm_num at h2; exact h2
  constructor <;> linarith

end Dbl

/-! ## The claim about the linear phase -/

/-- The function `get_next_interval_lin` at the velocity `get_speed(i)` returns `i`, for a
positive `distance_per_step` and a non-zero interval `i` of 32 bits. -/
theorem get_next_interval_lin_get_speed (config : stepper_config) (data : stepper_data)
    (i : Nat) (hd : 0 < config.distance_per_step) (hd' : config.distance_per_step < 2 ^ 31)
    (hi : 0 < i) (hi' : i < 2 ^ 32) (hv : data.current_velocity = get_speed config i) :
    get_next_interval_lin config data = .ok (i, some (get_speed config i)) := by
  have hi0 : i ≠ 0 := Nat.pos_iff_ne_zero.mp hi
  have hspeed : get_speed config i =
      Dbl.div (Dbl.div (Dbl.ofInt config.distance_per_step) (Dbl.ofInt 1000))
        (Dbl.div (Dbl.ofInt (i : Int)) (Dbl.ofInt 1000000)) := by
    simp [get_speed, hi0, DISTANCE_TO_M, INTERVAL_TO_S]
  -- the values of the operands
  have wd : Dbl.Within 31 ((config.distance_per_step : Int) : ℚ) := by
    constructor
    · have h1 : (1 : ℚ) ≤ (config.distance_per_step : ℚ) := by exact_mod_cast hd
      have h2 : (2 : ℚ) ^ (-((31 : ℕ) : Int)) ≤ 1 := by norm_num
      linarith
    · have h1 : (config.distance_per_step : ℚ) ≤ 2 ^ 31 := by exact_mod_cast le_of_lt hd'
      norm_num at h1 ⊢
      exact h1
  have wi : Dbl.Within 32 (((i : ℕ) : Int) : ℚ) := by
    constructor
    · have h1 : (1 : ℚ) ≤ (((i : ℕ) : Int) : ℚ) := by exact_mod_cast hi
      have h2 : (2 : ℚ) ^ (-((32 : ℕ) : Int)) ≤ 1 := by norm_num
      linarith
    · have h1 : (((i : ℕ) : Int) : ℚ) ≤ 2 ^ 32 := by exact_mod_cast le_of_lt hi'
      norm_num at h1 ⊢
      exact h1
  have wk : Dbl.Within 10 (1000 : ℚ) := by constructor <;> norm_num
  have wm : Dbl.Within 20 (1000000 : ℚ) := by constructor <;> norm_num
  have wh : Dbl.Within 1 ((1 : ℚ) / 2) := by constructor <;> norm_num
  obtain ⟨rd, pD0, -, wD0⟩ := Dbl.ofInt_spec config.distance_per_step 31 (by norm_num) wd
  obtain ⟨rDM, pDM, -, wDM⟩ :=
    Dbl.div_spec _ _ rd 1000 _ _ pD0 Dbl.ofInt_thousand wD0 wk (by norm_num)
  obtain ⟨ri, pI0, nI0, wI0⟩ := Dbl.ofInt_spec (i : Int) 32 (by norm_num) wi
  obtain ⟨rIS, pIS, nIS, wIS⟩ :=
    Dbl.div_spec _ _ ri 1000000 _ _ pI0 Dbl.ofInt_million wI0 wm (by norm_num)
  obtain ⟨rV, pV, nV, wV⟩ := Dbl.div_spec _ _ rDM rIS _ _ pDM pIS wDM wIS (by norm_num)
  obtain ⟨rQ, pQ, nQ, wQ⟩ := Dbl.div_spec _ _ rDM rV _ _ pDM pV wDM wV (by norm_num)
  obtain ⟨rY, pY, nY, wY⟩ :=
    Dbl.mul_spec _ _ rQ 1000000 _ _ pQ Dbl.ofInt_million wQ wm (by norm_num)
  obtain ⟨rZ, pZ, nZ, -⟩ :=
    Dbl.add_spec _ _ rY (1 / 2) _ _ pY Dbl.ofRatio_half wY wh (by norm_num)
  -- the exact quotient of the distance and the velocity is the interval in seconds
  have hDM0 := wDM.pos
  have hIS0 := wIS.pos
  have hV0 := wV.pos
  have ht1 : rDM / rV * (1 - 2 ^ (-53 : Int)) ≤ rIS := by
    have h := nV.1
    rw [div_mul_eq_mul_div, div_le_iff₀ hV0]
    rw [div_mul_eq_mul_div, div_le_iff₀ hIS0] at h
    linarith
  have ht2 : rIS ≤ rDM / rV * (1 + 2 ^ (-53 : Int)) := by
    have h := nV.2
    rw [div_mul_eq_mul_div, le_div_iff₀ hV0]
    rw [div_mul_eq_mul_div, le_div_iff₀ hIS0] at h
    linarith
  have hi2 : (i : ℚ) ≤ 2 ^ 32 := by exact_mod_cast le_of_lt hi'
  have nI0' : Dbl.Near ri (i : ℚ) := by simpa using nI0
  obtain ⟨z1, z2⟩ := Dbl.linear_interval_bounds (i : ℚ) ri rIS (rDM / rV) rQ rY rZ hi2 nI0' nIS
    ht1 ht2 nQ nY nZ
  have hres := Dbl.toUInt32_spec _ rZ i pZ z1 z2 hi'
  unfold get_next_interval_lin S_TO_INTERVAL
  rw [hv, hspeed]
  simp only [DISTANCE_TO_M, res_bind_eq, res_pure_eq]
  rw [hres]
  show Res.ok (i, some (get_speed config i)) = _
  rw [hspeed]

/-- With `distance_per_step = 0` the velocity `get_speed(i)` is 0 and the quotient taken by
`get_next_interval_lin` is `0 / 0`, whose conversion to `uint32_t` is undefined. -/
theorem get_next_interval_lin_zero_distance :
    get_next_interval_lin { dev_config with distance_per_step := 0 }
        (moving MOVE 100000 0 (get_speed { dev_config with distance_per_step := 0 } 100000)) =
      .undefined := by
  decide!

/-- C13: for a positive `distance_per_step` and every interval `i > 0` (of 32 bits),
`get_next_interval_lin` at the velocity `get_speed(i)` returns exactly `i` and reports the
velocity `get_speed(i)`; applied again to the velocity it reported it returns the same
interval and velocity. -/
theorem linear_interval_preserved (config : stepper_config) (data : stepper_data) (i : Nat)
    (hd : 0 < config.distance_per_step) (hd' : config.distance_per_step < 2 ^ 31)
    (hi : 0 < i) (hi' : i < 2 ^ 32) (hv : data.current_velocity = get_speed config i) :
    get_next_interval_lin config data = .ok (i, some (get_speed config i)) ∧
    get_next_interval_lin config { data with current_velocity := get_speed config i } =
      .ok (i, some (get_speed config i)) :=
  ⟨get_next_interval_lin_get_speed config data i hd hd' hi hi' hv,
    get_next_interval_lin_get_speed config _ i hd hd' hi hi' rfl⟩

/-- C13 (witness): in the test configuration at the velocity `get_speed(100000)` the linear
phase returns the interval 100000 and reports that velocity, also when applied again. -/
theorem linear_interval_preserved_witness :
    (0 < dev_config.distance_per_step ∧ dev_config.distance_per_step < 2 ^ 31) ∧
    get_next_interval_lin dev_config (moving MOVE 100000 0 (get_speed dev_config 100000)) =
      .ok (100000, some (get_speed dev_config 100000)) ∧
    get_next_interval_lin dev_config
        { moving MOVE 100000 0 (get_speed dev_config 100000) with
          current_velocity := get_speed dev_config 100000 } =
      .ok (100000, some (get_speed dev_config 100000)) :=
  ⟨⟨by decide, by decide⟩,
    linear_interval_preserved dev_config (moving MOVE 100000 0 (get_speed dev_config 100000))
      100000 (by decide) (by decide) (by decide) (by decide) rfl⟩

/-! ## More properties of the passes -/

theorem empty_path_stop_fields (d : stepper_data) :
    (empty_path_stop d).path = d.path ∧ (empty_path_stop d).position = d.position ∧
    (empty_path_stop d).forward = d.forward ∧ (empty_path_stop d).half_step = d.half_step := by
  unfold empty_path_stop
  split <;> simp

/-- A pass on an empty queue leaves through the `return` of the empty-path block. -/
theorem update_pass_of_empty (config : stepper_config) (mem : Nat → stepper_path_t) (s : Run)
    (h : s.data.path = none) :
    update_pass config mem s =
      .ok ({ s with data := empty_path_stop (update_coordinates config s.data) }, false) := by
  unfold update_pass
  have hp : (update_coordinates config s.data).path = none := by
    rw [(update_coordinates_fields config s.data).2.2.1, h]
  simp only [hp, res_pure_eq]

/-- A pass on a non-empty queue whose phase selection and interval selection are defined
reaches the end of the body. -/
theorem update_pass_of_selected (config : stepper_config) (mem : Nat → stepper_path_t)
    (s : Run) (head : Nat) (phase : move_phase) (d : stepper_data)
    (hpath : (update_coordinates config s.data).path = some head)
    (hphase : select_phase config mem (pass_head mem head (update_coordinates config s.data))
      (pass_data mem head (update_coordinates config s.data)) = .ok phase)
    (hsel : select_interval config mem (pass_head mem head (update_coordinates config s.data))
      (waypoint_reached mem head (update_coordinates config s.data))
      { pass_data mem head (update_coordinates config s.data) with current_phase := phase } =
        .ok d) :
    update_pass config mem s =
      .ok ({ data := stop_pop mem (pass_head mem head (update_coordinates config s.data)) d,
             calls := arrival_calls mem head
               (waypoint_reached mem head (update_coordinates config s.data)) s.calls },
           true) := by
  unfold update_pass
  simp only [hpath, res_bind_eq, res_pure_eq, hphase, res_bind_ok, hsel]

/-- The queue head and the data at the phase selection of a pass in which no waypoint has
been reached. -/
theorem pass_head_of_not_reached (mem : Nat → stepper_path_t) (head : Nat) (d : stepper_data)
    (h : waypoint_reached mem head d = false) :
    pass_head mem head d = head ∧
    arrival_calls mem head (waypoint_reached mem head d) = fun calls => calls := by
  unfold pass_head arrival_head arrival_calls
  rw [h]
  simp

theorem pass_data_fields (mem : Nat → stepper_path_t) (head : Nat) (d : stepper_data) :
    (pass_data mem head d).current_interval = d.current_interval ∧
    (pass_data mem head d).position = d.position ∧
    (pass_data mem head d).path = some (pass_head mem head d) ∧
    (pass_data mem head d).half_step = d.half_step ∧
    (pass_data mem head d).current_velocity = d.current_velocity ∧
    (pass_data mem head d).current_phase = d.current_phase ∧
    (d.current_interval ≠ 0 → (pass_data mem head d).forward = d.forward) ∧
    (d.current_interval = 0 → (pass_data mem head d).forward =
      decide ((mem (pass_head mem head d)).p.x > d.position.x)) := by
  unfold pass_data navigate
  split
  · rename_i h
    simp only [] at h
    refine ⟨rfl, rfl, rfl, rfl, rfl, rfl, fun hne => absurd h hne, fun _ => rfl⟩
  · rename_i h
    simp only [] at h
    refine ⟨rfl, rfl, rfl, rfl, rfl, rfl, fun _ => rfl, fun h0 => absurd h0 h⟩

/-! ## The claims about the empty queue and the state at rest -/

/-- C21: entered with `path == NULL`, `stepper_update_state` applies the position delta
and returns from its first pass, without a recursive call (the fuel of one pass is enough)
and without a callback invocation: when `current_phase != STOP` the phase becomes `STOP`,
the interval 0 and the velocity 0; when `current_phase == STOP` nothing else changes. -/
theorem empty_queue_handling (config : stepper_config) (mem : Nat → stepper_path_t)
    (fuel : Nat) (s : Run) (h : s.data.path = none) :
    stepper_update_state config mem 1 s = stepper_update_state config mem (fuel + 1) s ∧
    stepper_update_state config mem (fuel + 1) s =
      .ok { data :=
              if s.data.current_phase ≠ STOP then
                { update_coordinates config s.data with
                  current_phase := STOP, current_interval := 0, current_velocity := Dbl.zero }
              else update_coordinates config s.data,
            calls := s.calls } := by
  have key : ∀ n, stepper_update_state config mem (n + 1) s =
      .ok { data :=
              if s.data.current_phase ≠ STOP then
                { update_coordinates config s.data with
                  current_phase := STOP, current_interval := 0, current_velocity := Dbl.zero }
              else update_coordinates config s.data,
            calls := s.calls } := by
    intro n
    rw [stepper_update_state_succ, update_pass_of_empty config mem s h, res_bind_ok]
    simp only [Bool.false_eq_true, false_and, if_false, empty_path_stop,
      (update_coordinates_fields config s.data).1]
  exact ⟨(key 0).trans (key fuel).symm, key fuel⟩

/-- C21 (witness): the emergency stop of a motor moving backward at `max_velocity` from
position 0 whose queue is empty: the position delta is applied, the phase becomes `STOP`,
the interval and the velocity 0. -/
theorem empty_queue_handling_witness :
    starved.data.path = none ∧
    stepper_update_state dev_config (two_nodes 4 none 0) 1 starved =
      stepper_update_state dev_config (two_nodes 4 none 0) 4 starved ∧
    stepper_update_state dev_config (two_nodes 4 none 0) 4 starved =
      .ok { data := data_at_rest (-1), calls := [] } :=
  ⟨rfl, (empty_queue_handling dev_config (two_nodes 4 none 0) 3 starved rfl).1,
    (empty_queue_handling dev_config (two_nodes 4 none 0) 3 starved rfl).2.trans (by decide!)⟩

/-- C28: whenever a top-level call of `stepper_update_state` returns with
`current_interval == 0`, the queue is empty (`path == NULL`): the call returns either from
the empty-path block or at the end of a pass whose interval is not 0. This holds for every
pre-state, in particular for those in which the phase `STOP` comes with the interval 0. -/
theorem rest_implies_empty_queue (config : stepper_config) (mem : Nat → stepper_path_t)
    (fuel : Nat) (s s' : Run) (h : stepper_update_state config mem fuel s = .ok s')
    (h0 : s'.data.current_interval = 0) : s'.data.path = none := by
  induction fuel generalizing s with
  | zero => simp [stepper_update_state] at h
  | succ fuel ih =>
    rw [stepper_update_state_succ] at h
    cases hp : update_pass config mem s with
    | ok r =>
      obtain ⟨s1, b⟩ := r
      rw [hp, res_bind_ok] at h
      split at h
      · exact ih s1 h
      · rename_i hc
        cases h
        cases b with
        | true => exact absurd ⟨rfl, h0⟩ hc
        | false =>
          obtain ⟨h1, h2⟩ := update_pass_empty config mem s s1 hp
          rw [h2]
          simp only [(empty_path_stop_fields _).1, h1]
    | undefined => rw [hp] at h; cases h
    | timeout => rw [hp] at h; cases h

/-- C28 (witness): the last call of the run to the single waypoint `x = 4` returns at rest
with the queue empty. -/
theorem rest_implies_empty_queue_witness :
    stepper_update_state dev_config (two_nodes 4 none 0) 3
        { data := heading true DECELERATE 707109 3 (.fin false 6521888447788655 (-62)),
          calls := [] } =
      .ok { data := data_at_rest 4, calls := [(1, 4), (1, 4)] } ∧
    (data_at_rest 4).path = none :=
  ⟨by decide!,
    rest_implies_empty_queue dev_config (two_nodes 4 none 0) 3
      { data := heading true DECELERATE 707109 3 (.fin false 6521888447788655 (-62)),
        calls := [] }
      { data := data_at_rest 4, calls := [(1, 4), (1, 4)] } (by decide!) rfl⟩

/-! ## The claim about the direction -/

/-- C24: a completed pass of `stepper_update_state` entered with `current_interval != 0`
leaves `forward` as it was, and so does a pass on an empty queue; a pass entered with
`current_interval == 0` and the queue head `head` sets `forward` to
`path->p.x > position.x` for the queue head `path` after the pop on arrival. -/
theorem direction_set_at_full_stop (config : stepper_config) (mem : Nat → stepper_path_t)
    (s s1 : Run) (b : Bool) (h : update_pass config mem s = .ok (s1, b)) :
    (s.data.current_interval ≠ 0 → s1.data.forward = s.data.forward) ∧
    (s.data.path = none → s1.data.forward = s.data.forward) ∧
    (∀ head, s.data.current_interval = 0 → s.data.path = some head →
      s1.data.forward =
        decide ((mem (arrival_head mem head (waypoint_reached mem head s.data))).p.x >
          s.data.position.x)) := by
  obtain ⟨f1, f2, f3, f4, _⟩ := update_coordinates_fields config s.data
  cases b with
  | false =>
    obtain ⟨h1, h2⟩ := update_pass_empty config mem s s1 h
    have hf : s1.data.forward = s.data.forward := by
      rw [h2]
      simp only [(empty_path_stop_fields _).2.2.1, f4]
    refine ⟨fun _ => hf, fun _ => hf, fun head _ hp => ?_⟩
    rw [f3, hp] at h1
    cases h1
  | true =>
    obtain ⟨head, phase, d, hp, _, h2, h3⟩ := update_pass_full config mem s s1 _ rfl h
    have a := (stop_pop_fields mem (pass_head mem head (update_coordinates config s.data)) d).2.2.1
    have c := (select_interval_fields config mem _ _ _ _ h2).2.2.2.1
    have e := pass_data_fields mem head (update_coordinates config s.data)
    have hf : s1.data.forward = (pass_data mem head (update_coordinates config s.data)).forward := by
      rw [h3]
      simp only [a, c]
    refine ⟨fun hne => ?_, fun hnone => ?_, fun head' h0 hp' => ?_⟩
    · rw [hf, e.2.2.2.2.2.2.1 (by rw [f2]; exact hne), f4]
    · rw [f3, hnone] at hp
      cases hp
    · rw [f3, hp'] at hp
      cases hp
      rw [hf, e.2.2.2.2.2.2.2 (by rw [f2]; exact h0)]
      rw [update_coordinates_of_stopped config s.data h0]
      rfl

/-- C24 (witness): at rest at position 100 after the arrival at the head `x = 100` of the
queue `[x = 100, x = 50]`, a pass pops the head and sets `forward` to `50 > 100`, which is
false. -/
theorem direction_set_at_full_stop_witness :
    update_pass dev_config (two_nodes 100 (some 2) 50)
        { data := heading true DECELERATE 0 100 Dbl.zero, calls := [] } =
      .ok ({ data := { heading false ACCELERATE 1414214 100 (.fin false 6521906894469137 (-62))
                       with path := some 2 },
             calls := [(1, 100)] }, true) ∧
    arrival_head (two_nodes 100 (some 2) 50) 1
        (waypoint_reached (two_nodes 100 (some 2) 50) 1
          (heading true DECELERATE 0 100 Dbl.zero)) = 2 ∧
    decide ((two_nodes 100 (some 2) 50 2).p.x > (100 : Int)) = false :=
  ⟨by decide!, by decide!,
    ((direction_set_at_full_stop dev_config (two_nodes 100 (some 2) 50)
      { data := heading true DECELERATE 0 100 Dbl.zero, calls := [] }
      { data := { heading false ACCELERATE 1414214 100 (.fin false 6521906894469137 (-62))
                  with path := some 2 },
        calls := [(1, 100)] } true (by decide!)).2.2 1 rfl rfl).symm.trans rfl⟩

/-! ## The claims about a zero interval without a waypoint reached -/

/-- The phase `STOP` is only chosen by a pass entered with `current_interval == 0`. -/
theorem select_phase_stop (config : stepper_config) (mem : Nat → stepper_path_t) (path : Nat)
    (data : stepper_data) (h : select_phase config mem path data = .ok STOP) :
    data.current_interval = 0 := by
  rw [select_phase_eq] at h
  cases hbd : get_brake_distance config data with
  | ok bd =>
    obtain ⟨phase, h1, _, _, _, h5⟩ := get_next_phase_cases config data
      (lookahead_target mem path data.forward) bd _ hbd rfl
    rw [h1] at h
    cases h
    exact (h5.mp rfl).2
  | undefined =>
    unfold get_next_phase at h
    rw [hbd] at h
    cases h
  | timeout => exact absurd hbd (get_brake_distance_ne_timeout config data)

/-- In a pass entered at rest in which no waypoint has been reached, the head lies ahead
in the direction the pass has chosen. -/
theorem head_ahead_of_stopped (mem : Nat → stepper_path_t) (head : Nat) (d0 : stepper_data)
    (hwpt : waypoint_reached mem head d0 = false) (h0 : d0.current_interval = 0) :
    ((pass_data mem head d0).forward = true ∧
      (mem head).p.x > (pass_data mem head d0).position.x) ∨
    ((pass_data mem head d0).forward = false ∧
      (mem head).p.x < (pass_data mem head d0).position.x) := by
  have e := pass_data_fields mem head d0
  have hh := (pass_head_of_not_reached mem head d0 hwpt).1
  have hf := e.2.2.2.2.2.2.2 h0
  rw [hh] at hf
  rw [e.2.1, hf]
  unfold waypoint_reached at hwpt
  have hne : (mem head).p.x ≠ d0.position.x := by simpa using hwpt
  by_cases hgt : (mem head).p.x > d0.position.x
  · left
    exact ⟨by simpa using hgt, hgt⟩
  · right
    refine ⟨by simpa using hgt, ?_⟩
    omega

/-- C22 (counterexample): at rest at position 0 in the test configuration with the single
waypoint `x = 2`. In the first pass the chosen phase is `STOP`, the interval computed for
it is 0, no waypoint is reached and the head lies ahead in the current direction; the
`if` / `else if` chain increments the interval to 1, and the stop block then zeroes the
interval and the velocity and pops the head: the pass ends with `current_interval` 0 and
`current_velocity` 0, not with the interval 1 and the velocity `get_speed(1)`. -/
theorem stretched_interval_zeroed_at_stop :
    select_phase dev_config (two_nodes 2 none 0) 1
        (pass_data (two_nodes 2 none 0) 1 start_run.data) = .ok STOP ∧
    get_next_interval dev_config
        { pass_data (two_nodes 2 none 0) 1 start_run.data with current_phase := STOP } STOP =
      .ok (0, none) ∧
    waypoint_reached (two_nodes 2 none 0) 1 start_run.data = false ∧
    (pass_data (two_nodes 2 none 0) 1 start_run.data).forward = true ∧
    (two_nodes 2 none 0 1).p.x > (pass_data (two_nodes 2 none 0) 1 start_run.data).position.x ∧
    update_pass dev_config (two_nodes 2 none 0) start_run =
      .ok ({ data := { start_data none with forward := true }, calls := [] }, true) ∧
    ({ start_data none with forward := true } : stepper_data).current_interval = 0 ∧
    start_run.data.current_interval + 1 = 1 ∧
    Dbl.lt Dbl.zero (get_speed dev_config 1) = true := by
  refine ⟨by decide!, by decide!, by decide!, by decide!, by decide!, by decide!, rfl, rfl,
    by decide!⟩

/-- C22 (amended): in a pass of `stepper_update_state` in which no waypoint is reached, the
interval computed for the chosen phase is 0, the head lies ahead in the current direction
and the chosen phase is not `STOP`, the pass reaches the end of the body with
`current_interval` the previous `current_interval + 1` (a `uint32_t` increment) and
`current_velocity` `get_speed` of the new interval; the phase is the chosen one and the
other data are those of the phase selection. -/
theorem interval_stretching (config : stepper_config) (mem : Nat → stepper_path_t) (s : Run)
    (head : Nat) (d0 dp : stepper_data) (phase : move_phase) (probe : Nat × Option Dbl)
    (hd0 : update_coordinates config s.data = d0) (hpath : d0.path = some head)
    (hwpt : waypoint_reached mem head d0 = false) (hdp : pass_data mem head d0 = dp)
    (hphase : select_phase config mem head dp = .ok phase) (hstop : phase ≠ STOP)
    (hprobe : get_next_interval config { dp with current_phase := phase } phase = .ok probe)
    (hzero : probe.1 = 0)
    (hahead : (dp.forward = true ∧ (mem head).p.x > dp.position.x) ∨
      (dp.forward = false ∧ (mem head).p.x < dp.position.x)) :
    update_pass config mem s =
      .ok ({ data := { dp with
               current_phase := phase
               current_interval := (s.data.current_interval + 1) % 2 ^ 32
               current_velocity := get_speed config ((s.data.current_interval + 1) % 2 ^ 32) },
             calls := s.calls }, true) ∧
    (s.data.current_interval + 1 < 2 ^ 32 →
      (s.data.current_interval + 1) % 2 ^ 32 = s.data.current_interval + 1) := by
  have hh := pass_head_of_not_reached mem head d0 hwpt
  have hci : dp.current_interval = s.data.current_interval := by
    rw [← hdp, (pass_data_fields mem head d0).1, ← hd0,
      (update_coordinates_fields config s.data).2.1]
  have hsel : select_interval config mem head false { dp with current_phase := phase } =
      .ok { dp with
        current_phase := phase
        current_interval := (s.data.current_interval + 1) % 2 ^ 32
        current_velocity := get_speed config ((s.data.current_interval + 1) % 2 ^ 32) } := by
    unfold select_interval
    simp only [res_bind_eq, hprobe, res_bind_ok]
    unfold accept_interval
    simp only [hzero, ne_eq, not_true_eq_false, Bool.false_eq_true, or_self, if_false,
      res_pure_eq, hci]
    rcases hahead with ha | ha
    · rw [if_pos ha]
    · have hn : ¬(dp.forward = true ∧ (mem head).p.x > dp.position.x) := by
        rw [ha.1]
        simp
      rw [if_neg hn, if_pos ha]
  refine ⟨?_, fun hlt => Nat.mod_eq_of_lt hlt⟩
  have := update_pass_of_selected config mem s head phase _ (by rw [hd0]; exact hpath)
    (by rw [hd0, hh.1, hdp]; exact hphase) (by rw [hd0, hh.1, hdp, hwpt]; exact hsel)
  rw [this, hd0, hh.1, hh.2]
  unfold stop_pop
  simp only [hstop, if_false]

/-- C22 (witness): call 1000 of the run to `x = 1000`. At position 999 the phase is
`DECELERATE`, `get_next_interval_dec` returns 0, the head `x = 1000` lies ahead: the pass
ends with the interval 1356166, one more than 1356165, and the velocity `get_speed` of
1356166. -/
theorem interval_stretching_witness :
    get_next_interval dev_config
        (moving DECELERATE 1356165 999 (.fin false 8749790345223392 (-67))) DECELERATE =
      .ok (0, none) ∧
    update_pass dev_config (two_nodes 1000 none 0)
        { data := moving DECELERATE 1356165 998 (.fin false 8749790345223392 (-67)),
          calls := [] } =
      .ok ({ data :=
               { moving DECELERATE 1356165 999 (.fin false 8749790345223392 (-67)) with
                 current_phase := DECELERATE
                 current_interval := (1356165 + 1) % 2 ^ 32
                 current_velocity := get_speed dev_config ((1356165 + 1) % 2 ^ 32) },
             calls := [] }, true) ∧
    (1356165 + 1 < 2 ^ 32 → (1356165 + 1) % 2 ^ 32 = 1356165 + 1) :=
  ⟨by decide!,
    interval_stretching dev_config (two_nodes 1000 none 0)
      { data := moving DECELERATE 1356165 998 (.fin false 8749790345223392 (-67)),
        calls := [] }
      1 (moving DECELERATE 1356165 999 (.fin false 8749790345223392 (-67)))
      (moving DECELERATE 1356165 999 (.fin false 8749790345223392 (-67))) DECELERATE (0, none)
      (by decide!) rfl (by decide!) (by decide!) (by decide!) (by decide) (by decide!) rfl
      (Or.inl ⟨rfl, by decide⟩)⟩

/-- C23 (counterexample): the queue `[x = 7, x = 30]` with `distance_per_step = 2`, from rest
at position 0. After 14 calls the motor decelerates forward at position 26 with the head
still `x = 7`, which it has passed without reaching it. In the pass of call 15, at
position 28, the interval computed for `DECELERATE` is 0, no waypoint is reached and the
head does not lie ahead: the pass ends with the interval 0 and the velocity 0, but in
phase `DECELERATE` and with the head still queued, and the call returns accelerating
backward towards the same head. -/
theorem passed_head_pursued_again :
    ((trace wide_config (two_nodes 7 (some 2) 30) 4 15 start_run).map Run.data)[13]? =
      some (heading true DECELERATE 1041119 26 (.fin false 6458440721966554 (-62))) ∧
    select_phase wide_config (two_nodes 7 (some 2) 30) 1
        (heading true DECELERATE 1041119 28 (.fin false 6458440721966554 (-62))) =
      .ok DECELERATE ∧
    get_next_interval wide_config
        (heading true DECELERATE 1041119 28 (.fin false 6458440721966554 (-62))) DECELERATE =
      .ok (0, none) ∧
    waypoint_reached (two_nodes 7 (some 2) 30) 1
        (heading true DECELERATE 1041119 28 (.fin false 6458440721966554 (-62))) = false ∧
    (two_nodes 7 (some 2) 30 1).p.x < 28 ∧
    update_pass wide_config (two_nodes 7 (some 2) 30)
        { data := heading true DECELERATE 1041119 26 (.fin false 6458440721966554 (-62)),
          calls := [] } =
      .ok ({ data := heading true DECELERATE 0 28 Dbl.zero, calls := [] }, true) ∧
    stepper_update_state wide_config (two_nodes 7 (some 2) 30) 4
        { data := heading true DECELERATE 1041119 26 (.fin false 6458440721966554 (-62)),
          calls := [] } =
      .ok { data := heading false ACCELERATE 2000000 28 (.fin false 4611686018427388 (-61)),
            calls := [] } := by
  refine ⟨by decide!, by decide!, by decide!, by decide!, by decide, by decide!, by decide!⟩

/-- C23 (amended): in a pass of `stepper_update_state` in which no waypoint is reached, the
interval computed for the chosen phase is 0 and the head does not lie ahead in the current
direction, the pass was entered with `current_interval != 0`, the chosen phase is not
`STOP`, and the pass reaches the end of the body with `current_interval` 0 and
`current_velocity` 0, the chosen phase and the queue head unchanged; the function then
re-runs on these data. -/
theorem zero_interval_keeps_head (config : stepper_config) (mem : Nat → stepper_path_t)
    (s : Run) (head : Nat) (d0 dp : stepper_data) (phase : move_phase)
    (probe : Nat × Option Dbl)
    (hd0 : update_coordinates config s.data = d0) (hpath : d0.path = some head)
    (hwpt : waypoint_reached mem head d0 = false) (hdp : pass_data mem head d0 = dp)
    (hphase : select_phase config mem head dp = .ok phase)
    (hprobe : get_next_interval config { dp with current_phase := phase } phase = .ok probe)
    (hzero : probe.1 = 0)
    (hbehind : ¬((dp.forward = true ∧ (mem head).p.x > dp.position.x) ∨
      (dp.forward = false ∧ (mem head).p.x < dp.position.x))) :
    s.data.current_interval ≠ 0 ∧ phase ≠ STOP ∧
    update_pass config mem s =
      .ok ({ data := { dp with
               current_phase := phase, current_interval := 0, current_velocity := Dbl.zero },
             calls := s.calls }, true) ∧
    dp.path = some head ∧
    ∀ fuel, stepper_update_state config mem (fuel + 1) s =
      stepper_update_state config mem fuel
        { data := { dp with
            current_phase := phase, current_interval := 0, current_velocity := Dbl.zero },
          calls := s.calls } := by
  have hh := pass_head_of_not_reached mem head d0 hwpt
  have hci : dp.current_interval = s.data.current_interval := by
    rw [← hdp, (pass_data_fields mem head d0).1, ← hd0,
      (update_coordinates_fields config s.data).2.1]
  have hne : s.data.current_interval ≠ 0 := by
    intro h0
    apply hbehind
    rw [← hdp]
    exact head_ahead_of_stopped mem head d0 hwpt (by
      rw [← hd0, (update_coordinates_fields config s.data).2.1]; exact h0)
  have hstop : phase ≠ STOP := by
    intro hs
    rw [hs] at hphase
    exact hne (hci ▸ select_phase_stop config mem head dp hphase)
  have hsel : select_interval config mem head false { dp with current_phase := phase } =
      .ok { dp with
        current_phase := phase, current_interval := 0, current_velocity := Dbl.zero } := by
    unfold select_interval
    simp only [res_bind_eq, hprobe, res_bind_ok]
    unfold accept_interval
    have h1 : ¬(dp.forward = true ∧ (mem head).p.x > dp.position.x) :=
      fun h => hbehind (Or.inl h)
    have h2 : ¬(dp.forward = false ∧ (mem head).p.x < dp.position.x) :=
      fun h => hbehind (Or.inr h)
    simp only [hzero, ne_eq, not_true_eq_false, Bool.false_eq_true, or_self, if_false,
      res_pure_eq]
    rw [if_neg h1, if_neg h2]
    simp [get_speed]
  have hpass : update_pass config mem s =
      .ok ({ data := { dp with
               current_phase := phase, current_interval := 0, current_velocity := Dbl.zero },
             calls := s.calls }, true) := by
    have := update_pass_of_selected config mem s head phase _ (by rw [hd0]; exact hpath)
      (by rw [hd0, hh.1, hdp]; exact hphase) (by rw [hd0, hh.1, hdp, hwpt]; exact hsel)
    rw [this, hd0, hh.1, hh.2]
    unfold stop_pop
    simp only [hstop, if_false]
  refine ⟨hne, hstop, hpass, ?_, fun fuel => ?_⟩
  · rw [← hdp, (pass_data_fields mem head d0).2.2.1, hh.1]
  · rw [stepper_update_state_succ, hpass, res_bind_ok]
    simp

/-- C23 (witness): the pass of call 15 of the run to `[x = 7, x = 30]` with
`distance_per_step = 2`. -/
theorem zero_interval_keeps_head_witness :
    (1041119 : Nat) ≠ 0 ∧ DECELERATE ≠ STOP ∧
    update_pass wide_config (two_nodes 7 (some 2) 30)
        { data := heading true DECELERATE 1041119 26 (.fin false 6458440721966554 (-62)),
          calls := [] } =
      .ok ({ data :=
               { heading true DECELERATE 1041119 28 (.fin false 6458440721966554 (-62)) with
                 current_phase := DECELERATE, current_interval := 0,
                 current_velocity := Dbl.zero },
             calls := [] }, true) ∧
    (heading true DECELERATE 1041119 28 (.fin false 6458440721966554 (-62))).path = some 1 ∧
    ∀ fuel, stepper_update_state wide_config (two_nodes 7 (some 2) 30) (fuel + 1)
        { data := heading true DECELERATE 1041119 26 (.fin false 6458440721966554 (-62)),
          calls := [] } =
      stepper_update_state wide_config (two_nodes 7 (some 2) 30) fuel
        { data :=
            { heading true DECELERATE 1041119 28 (.fin false 6458440721966554 (-62)) with
              current_phase := DECELERATE, current_interval := 0,
              current_velocity := Dbl.zero },
          calls := [] } :=
  zero_interval_keeps_head wide_config (two_nodes 7 (some 2) 30)
    { data := heading true DECELERATE 1041119 26 (.fin false 6458440721966554 (-62)),
      calls := [] }
    1 (heading true DECELERATE 1041119 28 (.fin false 6458440721966554 (-62)))
    (heading true DECELERATE 1041119 28 (.fin false 6458440721966554 (-62))) DECELERATE
    (0, none) (by decide!) rfl (by decide!) (by decide!) (by decide!) (by decide!) rfl
    (by decide)

/-! ## The brake distance at rest -/

namespace Dbl

theorem ofInt_two : (ofInt 2).IsPos 2 :=
  ⟨4503599627370496, -51, by decide!, by norm_num, by norm_num⟩

/-- A datum that compares equal to `0.0` is a zero of either sign. -/
theorem eq_zero_cases (x : Dbl) (h : eq x zero = true) : ∃ s e, x = .fin s 0 e := by
  cases x with
  | nan => simp [eq] at h
  | inf s => simp [eq, zero] at h
  | fin s m e =>
    refine ⟨s, e, ?_⟩
    simp only [eq, zero, ieq_iff, sval] at h
    have hm : m = 0 := by
      by_contra hne
      have hpos : 0 < m * 2 ^ (e - bif ile e (-1074) then e else -1074).toNat :=
        Nat.mul_pos (Nat.pos_of_ne_zero hne) (Nat.pos_of_ne_zero (by positivity))
      cases s <;> simp at h <;> omega
    rw [hm]

/-- The square of a zero is `+0`. -/
theorem mul_self_zero (s : Bool) (e : Int) : mul (.fin s 0 e) (.fin s 0 e) = zero := by
  simp [mul, ofExact, roundNear, zero]

/-- A zero divided by a finite number other than zero is a zero. -/
theorem zero_div (t : Bool) (k : Nat) (f : Int) (hk : 0 < k) :
    div zero (.fin t k f) = .fin t 0 (-1074) := by
  have hk' : Nat.beq k 0 = false := by
    cases k with
    | zero => omega
    | succ n => rfl
  simp [div, zero, hk', roundNear]

theorem zero_mul_thousand (t : Bool) : mul (.fin t 0 (-1074)) (ofInt 1000) = .fin t 0 (-1074) := by
  cases t <;> decide!

theorem toInt32_zero (t : Bool) : toInt32 (.fin t 0 (-1074)) = .ok 0 := by
  cases t <;> decide!

end Dbl

/-- At rest (`current_velocity == 0`) the brake distance is `distance_per_step`, for a
positive normal `max_acceleration`. -/
theorem get_brake_distance_at_rest (config : stepper_config) (data : stepper_data) (r : ℚ)
    (ha : config.max_acceleration.IsPos r) (hr : Dbl.Within 1021 r)
    (hv : Dbl.eq data.current_velocity Dbl.zero = true) :
    get_brake_distance config data = .ok config.distance_per_step := by
  obtain ⟨s, e, hv'⟩ := Dbl.eq_zero_cases _ hv
  have w2 : Dbl.Within 1 (2 : ℚ) := by constructor <;> norm_num
  obtain ⟨r2, ⟨m, f, hm, hm0, _⟩, _, _⟩ :=
    Dbl.mul_spec _ _ 2 r 1 1021 Dbl.ofInt_two ha w2 hr (by norm_num)
  unfold get_brake_distance M_TO_DISTANCE
  rw [hv', Dbl.mul_self_zero, hm, Dbl.zero_div false m f hm0, Dbl.zero_mul_thousand,
    Dbl.toInt32_zero]
  simp [res_bind_eq, res_pure_eq, Res.bind]

/-! ## The claim about a waypoint within two steps of a motor at rest -/

/-- A call of `stepper_update_state` on an empty queue returns after its first pass. -/
theorem stepper_update_state_of_empty (config : stepper_config) (mem : Nat → stepper_path_t)
    (fuel : Nat) (s : Run) (h : s.data.path = none) :
    stepper_update_state config mem (fuel + 1) s =
      .ok { s with data := empty_path_stop (update_coordinates config s.data) } := by
  rw [stepper_update_state_succ, update_pass_of_empty config mem s h, res_bind_ok]
  simp

/-- C29: from a standstill (`current_interval == 0`, `current_velocity == 0`) with a single
queued waypoint whose distance from the position is not 0 and at most
`2 * distance_per_step`, a positive normal `max_acceleration` and the `int32_t` arithmetic
of `get_next_phase` in range, `stepper_update_state` returns (one recursive re-run is
enough) with the position unchanged, phase `STOP`, interval 0, velocity 0 and
`path == NULL`, without a callback invocation; `forward` has been set towards the waypoint.
The brake point of the pass, two steps before the waypoint, is a value of `int32_t`. -/
theorem short_waypoint_dropped (config : stepper_config) (mem : Nat → stepper_path_t)
    (fuel : Nat) (s : Run) (head : Nat) (r : ℚ)
    (ha : config.max_acceleration.IsPos r) (hr : Dbl.Within 1021 r)
    (hi : s.data.current_interval = 0)
    (hv : Dbl.eq s.data.current_velocity Dbl.zero = true)
    (hpath : s.data.path = some head) (hnext : (mem head).next = none)
    (hne : (mem head).p.x ≠ s.data.position.x)
    (hnear : |(mem head).p.x - s.data.position.x| ≤ 2 * config.distance_per_step)
    (hrange : brake_point_in_range config
      { s.data with forward := decide ((mem head).p.x > s.data.position.x) } (mem head).p
      config.distance_per_step) :
    stepper_update_state config mem (fuel + 2) s =
      .ok { data := { s.data with
              current_phase := STOP, current_interval := 0, current_velocity := Dbl.zero,
              path := none, forward := decide ((mem head).p.x > s.data.position.x) },
            calls := s.calls } ∧
    is_int32
      (if (mem head).p.x > s.data.position.x then
        (mem head).p.x - config.distance_per_step - config.distance_per_step
       else (mem head).p.x + config.distance_per_step + config.distance_per_step) := by
  refine ⟨?_, ?_⟩
  swap
  · have hr := hrange.2.2.2.2
    by_cases hgt : (mem head).p.x > s.data.position.x
    · simp only [hgt, decide_True, if_true] at hr ⊢
      exact hr.2.1
    · simp only [hgt, decide_False, Bool.false_eq_true, if_false] at hr ⊢
      exact hr.2.1
  have hd0 := update_coordinates_of_stopped config s.data hi
  have hwpt : waypoint_reached mem head s.data = false := by
    unfold waypoint_reached
    simpa using hne
  have hh := pass_head_of_not_reached mem head s.data hwpt
  have e := pass_data_fields mem head s.data
  have hf := e.2.2.2.2.2.2.2 hi
  rw [hh.1] at hf
  have hbd : get_brake_distance config (pass_data mem head s.data) =
      .ok config.distance_per_step :=
    get_brake_distance_at_rest config _ r ha hr (by rw [e.2.2.2.2.1]; exact hv)
  obtain ⟨phase, hph, _, _, _, h5⟩ := get_next_phase_cases config (pass_data mem head s.data)
    (mem head).p config.distance_per_step _ hbd rfl
  have hstop : phase = STOP := by
    apply h5.mpr
    refine ⟨?_, by rw [e.1]; exact hi⟩
    rw [hf, e.2.1]
    have habs := abs_le.mp hnear
    by_cases hgt : (mem head).p.x > s.data.position.x
    · simp only [hgt, decide_True, if_true]
      omega
    · simp only [hgt, decide_False, Bool.false_eq_true, if_false]
      omega
  rw [hstop] at hph
  have hphase : select_phase config mem head (pass_data mem head s.data) = .ok STOP := by
    rw [select_phase_eq]
    unfold lookahead_target
    rw [hnext]
    exact hph
  have hahead := head_ahead_of_stopped mem head s.data hwpt hi
  have hsel : select_interval config mem head false
      { pass_data mem head s.data with current_phase := STOP } =
      .ok { pass_data mem head s.data with
        current_phase := STOP
        current_interval := ((pass_data mem head s.data).current_interval + 1) % 2 ^ 32
        current_velocity :=
          get_speed config (((pass_data mem head s.data).current_interval + 1) % 2 ^ 32) } := by
    unfold select_interval get_next_interval
    simp only [res_bind_eq, res_pure_eq, res_bind_ok]
    unfold accept_interval
    simp only [ne_eq, not_true_eq_false, Bool.false_eq_true, or_self, if_false, res_pure_eq]
    rcases hahead with hc | hc
    · rw [if_pos hc]
    · have hn : ¬((pass_data mem head s.data).forward = true ∧
          (mem head).p.x > (pass_data mem head s.data).position.x) := by
        rw [hc.1]
        simp
      rw [if_neg hn, if_pos hc]
  have hpass := update_pass_of_selected config mem s head STOP _ (by rw [hd0]; exact hpath)
    (by rw [hd0, hh.1]; exact hphase) (by rw [hd0, hh.1, hwpt]; exact hsel)
  rw [hd0, hh.1, hh.2] at hpass
  rw [stepper_update_state_succ, hpass, res_bind_ok]
  have h0 : (stop_pop mem head
      { pass_data mem head s.data with
        current_phase := STOP
        current_interval := ((pass_data mem head s.data).current_interval + 1) % 2 ^ 32
        current_velocity :=
          get_speed config (((pass_data mem head s.data).current_interval + 1) % 2 ^ 32) }) =
      { s.data with
        current_phase := STOP, current_interval := 0, current_velocity := Dbl.zero,
        path := none, forward := decide ((mem head).p.x > s.data.position.x) } := by
    unfold stop_pop
    simp only [if_true, hnext, hf, e.2.1, e.2.2.2.1]
    rfl
  rw [h0]
  simp only [and_self, if_true]
  rw [stepper_update_state_of_empty config mem fuel _ rfl]
  simp [update_coordinates, empty_path_stop]

/-- C29 (witness): in the test configuration at rest at position 0, the single waypoint
`x = 2` is dropped. -/
theorem short_waypoint_dropped_witness :
    dev_config.max_acceleration.IsPos ((4611686018427388 : ℚ) * 2 ^ (-62 : Int)) ∧
    |(two_nodes 2 none 0 1).p.x - start_run.data.position.x| ≤ 2 * dev_config.distance_per_step ∧
    brake_point_in_range dev_config
      { start_run.data with
        forward := decide ((two_nodes 2 none 0 1).p.x > start_run.data.position.x) }
      (two_nodes 2 none 0 1).p dev_config.distance_per_step ∧
    stepper_update_state dev_config (two_nodes 2 none 0) 2 start_run =
      .ok { data := { start_run.data with
              current_phase := STOP, current_interval := 0, current_velocity := Dbl.zero,
              path := none, forward := decide ((two_nodes 2 none 0 1).p.x > start_run.data.position.x) },
            calls := start_run.calls } ∧
    is_int32
      (if (two_nodes 2 none 0 1).p.x > start_run.data.position.x then
        (two_nodes 2 none 0 1).p.x - dev_config.distance_per_step - dev_config.distance_per_step
       else (two_nodes 2 none 0 1).p.x + dev_config.distance_per_step +
        dev_config.distance_per_step) :=
  ⟨⟨4611686018427388, -62, by decide!, by norm_num, rfl⟩, by decide, by decide,
    short_waypoint_dropped dev_config (two_nodes 2 none 0) 0 start_run 1
      ((4611686018427388 : ℚ) * 2 ^ (-62 : Int))
      ⟨4611686018427388, -62, by decide!, by norm_num, rfl⟩
      (by constructor <;> norm_num) rfl (by decide!) rfl rfl (by decide) (by decide)
      (by decide)⟩

/-! ## The claim about the phase `MOVE` at rest -/

/-- C30: in the test configuration at rest at position 0 (interval 0, velocity 0) with the
single waypoint `x = 3`, three times `distance_per_step` away, the first pass of
`stepper_update_state` selects the phase `MOVE` with `current_velocity` still 0;
`get_next_interval_lin` divides `DISTANCE_TO_M(distance_per_step)` by 0, which is `+inf`,
and the conversion of `+inf` to `uint32_t` is undefined: the call has no defined result,
whatever the fuel. -/
theorem move_selected_at_rest (fuel : Nat) :
    start_run.data.current_interval = 0 ∧ start_run.data.current_velocity = Dbl.zero ∧
    select_phase dev_config (two_nodes 3 none 0) 1
        (pass_data (two_nodes 3 none 0) 1 start_run.data) = .ok MOVE ∧
    (pass_data (two_nodes 3 none 0) 1 start_run.data).current_velocity = Dbl.zero ∧
    Dbl.div (DISTANCE_TO_M dev_config.distance_per_step) Dbl.zero = .inf false ∧
    get_next_interval_lin dev_config (pass_data (two_nodes 3 none 0) 1 start_run.data) =
      .undefined ∧
    stepper_update_state dev_config (two_nodes 3 none 0) (fuel + 1) start_run =
      .undefined := by
  refine ⟨rfl, rfl, by decide!, by decide!, by decide!, by decide!, ?_⟩
  rw [stepper_update_state_succ]
  have h : update_pass dev_config (two_nodes 3 none 0) start_run = .undefined := by decide!
  rw [h]
  rfl

/-! ## The claim about the conversion of the acceleration interval -/

/-- The function `get_next_interval_acc` in terms of the solution `acc_solution` and the
condition `acc_clamped`, when the conversion of the solution is defined and the clamp does
not apply. -/
theorem get_next_interval_acc_unclamped (config : stepper_config) (data : stepper_data)
    (i : Nat) (hi : S_TO_INTERVAL (acc_solution config data) = .ok i)
    (hc : ¬acc_clamped config data i) :
    get_next_interval_acc config data =
      .ok (i, some (get_acc_speed config (INTERVAL_TO_S i) data.current_velocity)) := by
  unfold acc_clamped at hc
  unfold acc_solution at hi
  unfold get_next_interval_acc
  simp only [res_bind_eq, res_pure_eq, hi, res_bind_ok]
  rw [if_neg hc]

/-- C26 (counterexample): the first step from rest in the test configuration. The product
`t * 1000000.0` is `1414213.56...`, whose truncation is 1414213; the clamp does not apply;
`get_next_interval_acc` returns 1414214, the integer above the solution. -/
theorem acc_interval_not_truncated :
    Dbl.mul (acc_solution dev_config (start_data (some 1))) (Dbl.ofInt 1000000) =
      .fin false 6074000999952099 (-32) ∧
    Dbl.toUInt32 (Dbl.mul (acc_solution dev_config (start_data (some 1)))
      (Dbl.ofInt 1000000)) = .ok 1414213 ∧
    ¬acc_clamped dev_config (start_data (some 1)) 1414214 ∧
    get_next_interval_acc dev_config (start_data (some 1)) =
      .ok (1414214, some (get_acc_speed dev_config (INTERVAL_TO_S 1414214) Dbl.zero)) := by
  refine ⟨by decide!, by decide!, by decide!, by decide!⟩

/-- C26 (amended): when the product `t * 1000000.0` of the solution `t` is a positive
normal number `p` and the clamp does not apply, `get_next_interval_acc` returns the integer
part `i` of the binary64 sum of `p` and `0.5`, a value `r` that is `p + 1/2` up to one
rounding: `p` rounded to the nearest integer, upwards from one half, not truncated. -/
theorem acc_interval_rounded (config : stepper_config) (data : stepper_data) (p : ℚ)
    (k : Nat) (hk : k ≤ 1019)
    (hp : (Dbl.mul (acc_solution config data) (Dbl.ofInt 1000000)).IsPos p)
    (hw : Dbl.Within k p) :
    ∃ r, Dbl.Near r (p + 1 / 2) ∧
      ∀ i : Nat, (i : ℚ) ≤ r → r < i + 1 → i < 2 ^ 32 → ¬acc_clamped config data i →
        get_next_interval_acc config data =
          .ok (i, some (get_acc_speed config (INTERVAL_TO_S i) data.current_velocity)) := by
  have wh : Dbl.Within 1 ((1 : ℚ) / 2) := by constructor <;> norm_num
  obtain ⟨r, pr, nr, _⟩ :=
    Dbl.add_spec _ _ p (1 / 2) k 1 hp Dbl.ofRatio_half hw wh (by omega)
  refine ⟨r, nr, fun i h1 h2 h3 hc => ?_⟩
  exact get_next_interval_acc_unclamped config data i
    (Dbl.toUInt32_spec _ r i pr h1 h2 h3) hc

/-- C26 (witness): the first step from rest in the test configuration, where
`p = 6074000999952099 * 2^-32 = 1414213.56...`. -/
theorem acc_interval_rounded_witness :
    (Dbl.mul (acc_solution dev_config (start_data (some 1))) (Dbl.ofInt 1000000)).IsPos
      ((6074000999952099 : ℚ) * 2 ^ (-32 : Int)) ∧
    ∃ r, Dbl.Near r ((6074000999952099 : ℚ) * 2 ^ (-32 : Int) + 1 / 2) ∧
      ∀ i : Nat, (i : ℚ) ≤ r → r < i + 1 → i < 2 ^ 32 →
        ¬acc_clamped dev_config (start_data (some 1)) i →
        get_next_interval_acc dev_config (start_data (some 1)) =
          .ok (i, some (get_acc_speed dev_config (INTERVAL_TO_S i)
            (start_data (some 1)).current_velocity)) :=
  ⟨⟨6074000999952099, -32, by decide!, by norm_num, rfl⟩,
    acc_interval_rounded dev_config (start_data (some 1))
      ((6074000999952099 : ℚ) * 2 ^ (-32 : Int)) 21 (by norm_num)
      ⟨6074000999952099, -32, by decide!, by norm_num, rfl⟩
      (by constructor <;> norm_num)⟩

/-! ## The claim about the step pin at rest -/

/-- A pass of `stepper_update_state` leaves `half_step` as it is. -/
theorem update_pass_half_step (config : stepper_config) (mem : Nat → stepper_path_t)
    (s s1 : Run) (b : Bool) (h : update_pass config mem s = .ok (s1, b)) :
    s1.data.half_step = s.data.half_step := by
  have f := (update_coordinates_fields config s.data).2.2.2.2.1
  cases b with
  | false =>
    obtain ⟨_, h2⟩ := update_pass_empty config mem s s1 h
    rw [h2]
    simp only [(empty_path_stop_fields _).2.2.2, f]
  | true =>
    obtain ⟨head, phase, d, _, _, h2, h3⟩ := update_pass_full config mem s s1 _ rfl h
    have a := (stop_pop_fields mem (pass_head mem head (update_coordinates config s.data))
      d).2.2.2.1
    have c := (select_interval_fields config mem _ _ _ _ h2).2.2.2.2
    have e := (pass_data_fields mem head (update_coordinates config s.data)).2.2.2.1
    rw [h3]
    simp only [a, c, e, f]

/-- A call of `stepper_update_state` leaves `half_step` as it is. -/
theorem stepper_update_state_half_step (config : stepper_config) (mem : Nat → stepper_path_t)
    (fuel : Nat) (s s' : Run) (h : stepper_update_state config mem fuel s = .ok s') :
    s'.data.half_step = s.data.half_step := by
  induction fuel generalizing s with
  | zero => simp [stepper_update_state] at h
  | succ fuel ih =>
    rw [stepper_update_state_succ] at h
    cases hp : update_pass config mem s with
    | ok r =>
      obtain ⟨s1, b⟩ := r
      rw [hp, res_bind_ok] at h
      have h1 := update_pass_half_step config mem s s1 b hp
      split at h
      · rw [ih s1 h, h1]
      · cases h
        exact h1
    | undefined => rw [hp] at h; cases h
    | timeout => rw [hp] at h; cases h

/-- The three ways through `stepper_timer_handler`: entered at rest it calls
`stepper_update_state` and leaves the step pin alone; entered in motion it toggles the step
pin, after a call of `stepper_update_state` when `half_step` is false. -/
theorem stepper_timer_handler_cases (config : stepper_config) (mem : Nat → stepper_path_t)
    (counter_us_to_ticks : Nat → Nat) (fuel : Nat) (s s' : Run) (hw hw' : Hw)
    (h : stepper_timer_handler config mem counter_us_to_ticks fuel s hw = .ok (s', hw')) :
    (s.data.current_interval = 0 ∧ stepper_update_state config mem fuel s = .ok s' ∧
      hw' = stepper_timer_start counter_us_to_ticks s'.data hw) ∨
    (s.data.current_interval ≠ 0 ∧
      ∃ s1, (if s.data.half_step = false then stepper_update_state config mem fuel s
          else .ok s) = .ok s1 ∧
        s' = (toggle_step s1 hw).1 ∧
        hw' = stepper_timer_start counter_us_to_ticks (toggle_step s1 hw).1.data
          (write_direction (toggle_step s1 hw).1.data (toggle_step s1 hw).2)) := by
  unfold stepper_timer_handler at h
  simp only [res_bind_eq, res_pure_eq] at h
  split at h
  · rename_i h0
    left
    cases hu : stepper_update_state config mem fuel s with
    | ok s1 =>
      rw [hu, res_bind_ok] at h
      simp only [Res.ok.injEq, Prod.mk.injEq] at h
      rw [← h.1, ← h.2]
      exact ⟨h0, rfl, rfl⟩
    | undefined => rw [hu] at h; cases h
    | timeout => rw [hu] at h; cases h
  · rename_i h0
    right
    refine ⟨h0, ?_⟩
    split at h
    · rename_i hh
      cases hu : stepper_update_state config mem fuel s with
      | ok s1 =>
        rw [hu, res_bind_ok] at h
        simp only [Res.ok.injEq, Prod.mk.injEq] at h
        exact ⟨s1, by rw [if_pos hh], h.1.symm, h.2.symm⟩
      | undefined => rw [hu] at h; cases h
      | timeout => rw [hu] at h; cases h
    · rename_i hh
      rw [res_bind_ok] at h
      simp only [Res.ok.injEq, Prod.mk.injEq] at h
      exact ⟨s, by rw [if_neg hh], h.1.symm, h.2.symm⟩

theorem stepper_timer_start_step (counter_us_to_ticks : Nat → Nat) (d : stepper_data)
    (hw : Hw) : (stepper_timer_start counter_us_to_ticks d hw).step = hw.step := by
  unfold stepper_timer_start
  split <;> rfl

theorem write_direction_step (d : stepper_data) (hw : Hw) :
    (write_direction d hw).step = hw.step := by
  unfold write_direction
  split <;> rfl

/-- C27 (counterexample): the run of the timer handler for the single waypoint `x = 4` in
the test configuration, from the initial data of a device with the step pin inactive. The
eighth call of the handler makes the call of `stepper_update_state` that arrives at
`x = 4` and stops the motor, and then writes 1 to the step pin: the handler returns with
`current_interval == 0`, the step pin active and `half_step` true. -/
theorem step_pin_active_at_stop :
    device_run.data.half_step = false ∧ idle_hw.step = false ∧
    handler_run dev_config (two_nodes 4 none 0) id 4 8 (device_run, idle_hw) =
      .ok ({ data := { data_at_rest 4 with half_step := true }, calls := [(1, 4), (1, 4)] },
           { idle_hw with
             step := true, alarm_ticks := 707109,
             alarms := [1414214, 707107, 707107, 707108, 707108, 707109, 707109] }) := by
  refine ⟨rfl, rfl, by decide!⟩

/-- A call of `stepper_timer_handler` that finds the value written last to the step pin
equal to `half_step` leaves it so. -/
theorem handler_step_pin_invariant (config : stepper_config) (mem : Nat → stepper_path_t)
    (counter_us_to_ticks : Nat → Nat) (fuel : Nat) (s s' : Run) (hw hw' : Hw)
    (h : stepper_timer_handler config mem counter_us_to_ticks fuel s hw = .ok (s', hw'))
    (he : hw.step = s.data.half_step) : hw'.step = s'.data.half_step := by
  rcases stepper_timer_handler_cases config mem counter_us_to_ticks fuel s s' hw hw' h with
    ⟨_, hu, hhw⟩ | ⟨_, s1, _, hs, hhw⟩
  · rw [hhw, stepper_timer_start_step, stepper_update_state_half_step config mem fuel s s' hu,
      he]
  · rw [hhw, stepper_timer_start_step, write_direction_step, hs]
    unfold toggle_step
    split <;> rfl

/-- In a run of the timer handler that starts with the value written last to the step pin
equal to `half_step`, it is so after every call. -/
theorem handler_run_step_pin (config : stepper_config) (mem : Nat → stepper_path_t)
    (counter_us_to_ticks : Nat → Nat) (fuel : Nat) :
    ∀ (n : Nat) (r r' : Run × Hw),
      handler_run config mem counter_us_to_ticks fuel n r = .ok r' →
      r.2.step = r.1.data.half_step → r'.2.step = r'.1.data.half_step := by
  intro n
  induction n with
  | zero =>
    intro r r' h he
    simp only [handler_run, Res.ok.injEq] at h
    rw [← h]
    exact he
  | succ n ih =>
    intro r r' h he
    unfold handler_run at h
    cases hc : stepper_timer_handler config mem counter_us_to_ticks fuel r.1 r.2 with
    | ok r1 =>
      rw [hc] at h
      simp only [Run_eval_eq] at h
      exact ih r1 r' h (handler_step_pin_invariant config mem counter_us_to_ticks fuel
        r.1 r1.1 r.2 r1.2 hc he)
    | undefined => rw [hc] at h; cases h
    | timeout => rw [hc] at h; cases h

/-- C27 (amended): a call of `stepper_timer_handler` that finds the value written last to
the step pin equal to `half_step` leaves it so. When the handler returns with
`current_interval == 0` after it was entered with `current_interval != 0` (a motion comes
to rest), `half_step` was false at the entry and the step pin is active at the return: the
last value written to it is 1 and `half_step` is true. When it was entered with
`current_interval == 0`, the step pin and `half_step` are as they were at the entry. -/
theorem handler_stop_step_pin (config : stepper_config) (mem : Nat → stepper_path_t)
    (counter_us_to_ticks : Nat → Nat) (fuel : Nat) (s s' : Run) (hw hw' : Hw)
    (h : stepper_timer_handler config mem counter_us_to_ticks fuel s hw = .ok (s', hw')) :
    (hw.step = s.data.half_step → hw'.step = s'.data.half_step) ∧
    (s'.data.current_interval = 0 →
      (s.data.current_interval ≠ 0 →
        s.data.half_step = false ∧ hw'.step = true ∧ s'.data.half_step = true) ∧
      (s.data.current_interval = 0 →
        hw'.step = hw.step ∧ s'.data.half_step = s.data.half_step)) := by
  refine ⟨handler_step_pin_invariant config mem counter_us_to_ticks fuel s s' hw hw' h,
    fun h0 => ?_⟩
  rcases stepper_timer_handler_cases config mem counter_us_to_ticks fuel s s' hw hw' h with
    ⟨hi, hu, hhw⟩ | ⟨hi, s1, hu, hs, hhw⟩
  · have hh := stepper_update_state_half_step config mem fuel s s' hu
    have hstep : hw'.step = hw.step := by rw [hhw, stepper_timer_start_step]
    exact ⟨fun hne => absurd hi hne, fun _ => ⟨hstep, hh⟩⟩
  · have hstep : hw'.step = (toggle_step s1 hw).2.step := by
      rw [hhw, stepper_timer_start_step, write_direction_step]
    by_cases hh : s.data.half_step = false
    · rw [if_pos hh] at hu
      have hh1 : s1.data.half_step = false := by
        rw [stepper_update_state_half_step config mem fuel s s1 hu, hh]
      have ht : (toggle_step s1 hw).2.step = true ∧
          (toggle_step s1 hw).1.data.half_step = true := by
        unfold toggle_step
        simp [hh1]
      rw [← hs] at ht
      exact ⟨fun _ => ⟨hh, by rw [hstep, ht.1], ht.2⟩, fun h2 => absurd h2 hi⟩
    · rw [if_neg hh] at hu
      cases hu
      have hh1 : s.data.half_step = true := by simpa using hh
      have ht : (toggle_step s hw).1.data.current_interval = s.data.current_interval := by
        unfold toggle_step
        simp [hh1]
      rw [← hs, h0] at ht
      exact absurd ht.symm hi

/-- C27 (witness): the eighth call of the handler in the run to `x = 4`, entered with the
interval 707109 and `half_step` false, returns at rest with the step pin active and
`half_step` true. -/
theorem handler_stop_step_pin_witness :
    stepper_timer_handler dev_config (two_nodes 4 none 0) id 4
        { data := heading true DECELERATE 707109 3 (.fin false 6521888447788655 (-62)),
          calls := [] }
        { idle_hw with dir := true, nstby := true } =
      .ok ({ data := { data_at_rest 4 with half_step := true }, calls := [(1, 4), (1, 4)] },
           { idle_hw with step := true }) ∧
    (heading true DECELERATE 707109 3 (.fin false 6521888447788655 (-62))).half_step = false ∧
    ({ idle_hw with step := true } : Hw).step = true ∧
    ({ data_at_rest 4 with half_step := true } : stepper_data).half_step = true :=
  ⟨by decide!,
    ((handler_stop_step_pin dev_config (two_nodes 4 none 0) id 4
      { data := heading true DECELERATE 707109 3 (.fin false 6521888447788655 (-62)),
        calls := [] }
      { data := { data_at_rest 4 with half_step := true }, calls := [(1, 4), (1, 4)] }
      { idle_hw with dir := true, nstby := true }
      { idle_hw with step := true } (by decide!)).2 rfl).1 (by decide)⟩

/-! ## Signs of the binary64 operations -/

namespace Dbl

theorem roundAt_nonneg (n d : Nat) (fl : Int) : (roundAt false n d fl).nonneg = true := by
  unfold roundAt
  simp only []
  generalize ilt 971 _ = b
  cases b
  · rw [cond_false, Dbl_mk_eq]
    rfl
  · rfl

theorem roundNear_nonneg (n d : Nat) (h : Int) : (roundNear false n d h).nonneg = true := by
  unfold roundNear
  cases Nat.beq n 0
  · exact roundAt_nonneg _ _ _
  · rfl

theorem mul_self_nonneg (x : Dbl) : (mul x x).nonneg = true := by
  cases x with
  | nan => rfl
  | inf s => cases s <;> rfl
  | fin s m e =>
    simp only [mul, ofExact, Bool.xor_self]
    exact roundNear_nonneg _ _ _

theorem mul_nonneg (x y : Dbl) (hx : x.nonneg = true) (hy : y.nonneg = true) :
    (mul x y).nonneg = true := by
  cases x with
  | nan => cases y <;> rfl
  | inf s =>
    cases y with
    | nan => rfl
    | inf t =>
      simp only [nonneg, Bool.not_eq_true'] at hx hy
      subst hx hy
      rfl
    | fin t k f =>
      simp only [nonneg, Bool.not_eq_true'] at hx hy
      subst hx hy
      simp only [mul]
      cases Nat.beq k 0 <;> rfl
  | fin s m e =>
    cases y with
    | nan => rfl
    | inf t =>
      simp only [nonneg, Bool.not_eq_true'] at hx hy
      subst hx hy
      simp only [mul]
      cases Nat.beq m 0 <;> rfl
    | fin t k f =>
      simp only [nonneg, Bool.not_eq_true'] at hx hy
      subst hx hy
      simp only [mul, ofExact]
      exact roundNear_nonneg _ _ _

theorem div_nonneg (x y : Dbl) (hx : x.nonneg = true) (hy : y.nonneg = true) :
    (div x y).nonneg = true := by
  cases x with
  | nan => cases y <;> rfl
  | inf s =>
    cases y with
    | nan => rfl
    | inf t => rfl
    | fin t k f =>
      simp only [nonneg, Bool.not_eq_true'] at hx hy
      subst hx hy
      rfl
  | fin s m e =>
    cases y with
    | nan => rfl
    | inf t =>
      simp only [nonneg, Bool.not_eq_true'] at hx hy
      subst hx hy
      rfl
    | fin t k f =>
      simp only [nonneg, Bool.not_eq_true'] at hx hy
      subst hx hy
      simp only [div]
      cases Nat.beq k 0
      · exact roundNear_nonneg _ _ _
      · cases Nat.beq m 0 <;> rfl

/-- The conversion to `int32_t` of a datum that is not negative is not negative. -/
theorem toInt32_nonneg (x : Dbl) (z : Int) (hx : x.nonneg = true) (h : toInt32 x = .ok z) :
    0 ≤ z := by
  cases x with
  | nan => simp [toInt32, trunc] at h
  | inf s => simp [toInt32, trunc] at h
  | fin s m e =>
    simp only [nonneg, Bool.not_eq_true'] at hx
    rw [hx] at h
    simp only [toInt32, trunc, cond_false] at h
    generalize (ile (-2147483648) _ && ilt _ 2147483648) = b at h
    cases b
    · cases h
    · rw [cond_true, Res_int_eq] at h
      cases h
      exact Int.ofNat_nonneg _

theorem toUInt32_ne_timeout (x : Dbl) : toUInt32 x ≠ .timeout := by
  unfold toUInt32
  split
  · simp
  · cases (ile 0 _ && ilt _ 4294967296)
    · simp
    · simp [Res_nat_eq]

end Dbl

/-- With a `max_acceleration` that is not negative, the brake distance is at least
`distance_per_step`. -/
theorem get_brake_distance_ge (config : stepper_config) (data : stepper_data) (bd : Int)
    (ha : config.max_acceleration.nonneg = true)
    (h : get_brake_distance config data = .ok bd) : config.distance_per_step ≤ bd := by
  unfold get_brake_distance M_TO_DISTANCE at h
  simp only [res_bind_eq, res_pure_eq] at h
  cases hz : Dbl.toInt32 (Dbl.mul (Dbl.div (Dbl.mul data.current_velocity data.current_velocity)
      (Dbl.mul (Dbl.ofInt 2) config.max_acceleration)) (Dbl.ofInt 1000)) with
  | ok z =>
    rw [hz, res_bind_ok] at h
    cases h
    have h2 : (Dbl.ofInt 2).nonneg = true := by decide!
    have h3 : (Dbl.ofInt 1000).nonneg = true := by decide!
    have := Dbl.toInt32_nonneg _ z
      (Dbl.mul_nonneg _ _ (Dbl.div_nonneg _ _ (Dbl.mul_self_nonneg _)
        (Dbl.mul_nonneg _ _ h2 ha)) h3) hz
    omega
  | undefined => rw [hz] at h; cases h
  | timeout => rw [hz] at h; cases h

/-- At rest on the waypoint, heading backward, `get_next_phase` returns `STOP`. -/
theorem get_next_phase_on_target (config : stepper_config) (data : stepper_data)
    (next_pos : stepper_point_t) (phase : move_phase)
    (hd : 0 ≤ config.distance_per_step) (ha : config.max_acceleration.nonneg = true)
    (hf : data.forward = false) (hx : next_pos.x = data.position.x)
    (hi : data.current_interval = 0)
    (h : get_next_phase config data next_pos = .ok phase) : phase = STOP := by
  cases hbd : get_brake_distance config data with
  | ok bd =>
    obtain ⟨phase', h1, _, _, _, h5⟩ := get_next_phase_cases config data next_pos bd _ hbd rfl
    rw [h1] at h
    cases h
    apply h5.mpr
    have := get_brake_distance_ge config data bd ha hbd
    refine ⟨?_, hi⟩
    simp only [hf, Bool.false_eq_true, if_false]
    omega
  | undefined =>
    unfold get_next_phase at h
    rw [hbd] at h
    cases h
  | timeout => exact absurd hbd (get_brake_distance_ne_timeout config data)

/-! ## Termination of the sequencer -/

theorem res_bind_ne_timeout {α β : Type} (x : Res α) (f : α → Res β) (hx : x ≠ .timeout)
    (hf : ∀ a, f a ≠ .timeout) : x.bind f ≠ .timeout := by
  cases x with
  | ok a => exact hf a
  | undefined => simp [Res.bind]
  | timeout => exact absurd rfl hx

theorem S_TO_INTERVAL_ne_timeout (x : Dbl) : S_TO_INTERVAL x ≠ .timeout :=
  Dbl.toUInt32_ne_timeout _

theorem get_next_interval_ne_timeout (config : stepper_config) (data : stepper_data)
    (phase : move_phase) : get_next_interval config data phase ≠ .timeout := by
  cases phase with
  | STOP => simp [get_next_interval, res_pure_eq]
  | ACCELERATE =>
    simp only [get_next_interval, get_next_interval_acc, res_bind_eq, res_pure_eq]
    refine res_bind_ne_timeout _ _ (S_TO_INTERVAL_ne_timeout _) fun a => ?_
    split
    · exact res_bind_ne_timeout _ _ (S_TO_INTERVAL_ne_timeout _) fun b => by simp
    · simp
  | MOVE =>
    simp only [get_next_interval, get_next_interval_lin, res_bind_eq, res_pure_eq]
    exact res_bind_ne_timeout _ _ (S_TO_INTERVAL_ne_timeout _) fun b => by simp
  | DECELERATE =>
    simp only [get_next_interval, get_next_interval_dec, res_bind_eq, res_pure_eq]
    split
    · simp
    · refine res_bind_ne_timeout _ _ (S_TO_INTERVAL_ne_timeout _) fun a => ?_
      split <;> simp

theorem select_phase_ne_timeout (config : stepper_config) (mem : Nat → stepper_path_t)
    (path : Nat) (data : stepper_data) : select_phase config mem path data ≠ .timeout := by
  rw [select_phase_eq]
  rcases get_next_phase_defined config data with h | h
  · obtain ⟨phase, hp⟩ := h (lookahead_target mem path data.forward)
    rw [hp]
    simp
  · rw [h]
    simp

theorem select_interval_ne_timeout (config : stepper_config) (mem : Nat → stepper_path_t)
    (path : Nat) (wpt : Bool) (data : stepper_data) :
    select_interval config mem path wpt data ≠ .timeout := by
  unfold select_interval
  simp only [res_bind_eq]
  refine res_bind_ne_timeout _ _ (get_next_interval_ne_timeout _ _ _) fun probe => ?_
  unfold accept_interval
  simp only [res_bind_eq, res_pure_eq]
  split
  · exact res_bind_ne_timeout _ _ (get_next_interval_ne_timeout _ _ _) fun r => by simp
  · split
    · simp
    · split <;> simp

/-- A pass of `stepper_update_state` makes no recursive call: it does not run out of fuel. -/
theorem update_pass_ne_timeout (config : stepper_config) (mem : Nat → stepper_path_t)
    (s : Run) : update_pass config mem s ≠ .timeout := by
  unfold update_pass
  cases hp : (update_coordinates config s.data).path with
  | none => simp [hp, res_pure_eq]
  | some head =>
    simp only [hp, res_bind_eq, res_pure_eq]
    refine res_bind_ne_timeout _ _ (select_phase_ne_timeout _ _ _ _) fun phase => ?_
    exact res_bind_ne_timeout _ _ (select_interval_ne_timeout _ _ _ _ _) fun d => by simp

/-- Entered at rest with the head ahead and no waypoint reached, the interval selection
does not return the interval 0. -/
theorem select_interval_moving (config : stepper_config) (mem : Nat → stepper_path_t)
    (path : Nat) (data d : stepper_data)
    (h : select_interval config mem path false data = .ok d)
    (h0 : data.current_interval = 0)
    (hahead : (data.forward = true ∧ (mem path).p.x > data.position.x) ∨
      (data.forward = false ∧ (mem path).p.x < data.position.x)) :
    d.current_interval ≠ 0 := by
  unfold select_interval at h
  simp only [res_bind_eq] at h
  cases hp : get_next_interval config data data.current_phase with
  | ok probe =>
    rw [hp, res_bind_ok] at h
    unfold accept_interval at h
    simp only [res_bind_eq, res_pure_eq, Bool.false_eq_true, or_false] at h
    by_cases hz : probe.1 ≠ 0
    · rw [if_pos hz, hp, res_bind_ok] at h
      cases h
      exact hz
    · rw [if_neg hz] at h
      rcases hahead with hc | hc
      · rw [if_pos hc] at h
        cases h
        simp [h0]
      · have hn : ¬(data.forward = true ∧ (mem path).p.x > data.position.x) := by
          rw [hc.1]
          simp
        rw [if_neg hn, if_pos hc] at h
        cases h
        simp [h0]
  | undefined => rw [hp] at h; cases h
  | timeout => rw [hp] at h; cases h

/-- A pass of `stepper_update_state` leaves the queue a suffix of what it was; a pass
entered at rest that reaches the end of the body with the interval 0 has shortened it,
for a `distance_per_step` and a `max_acceleration` that are not negative. -/
theorem update_pass_chain (config : stepper_config) (mem : Nat → stepper_path_t)
    (hd : 0 ≤ config.distance_per_step) (ha : config.max_acceleration.nonneg = true)
    (s s1 : Run) (b : Bool) (l : List Nat) (hchain : chain mem s.data.path l)
    (h : update_pass config mem s = .ok (s1, b)) :
    ∃ l', chain mem s1.data.path l' ∧ l'.length ≤ l.length ∧
      (b = true → s.data.current_interval = 0 → s1.data.current_interval = 0 →
        l'.length < l.length) := by
  obtain ⟨_, f2, f3, _⟩ := update_coordinates_fields config s.data
  cases b with
  | false =>
    obtain ⟨_, h2⟩ := update_pass_empty config mem s s1 h
    refine ⟨l, ?_, le_refl _, fun hb => absurd hb (by simp)⟩
    rw [h2]
    simp only [(empty_path_stop_fields _).1, f3]
    exact hchain
  | true =>
    obtain ⟨head, phase, d, hp, h1, h2, h3⟩ := update_pass_full config mem s s1 _ rfl h
    rw [f3] at hp
    have sf := select_interval_fields config mem _ _ _ _ h2
    have e := pass_data_fields mem head (update_coordinates config s.data)
    have hphase : d.current_phase = phase := sf.1
    have hdpath : d.path = some (pass_head mem head (update_coordinates config s.data)) := by
      rw [sf.2.2.1]
      exact e.2.2.1
    -- the queue and the interval after the stop block
    have hpath1 : s1.data.path =
        if phase = STOP then (mem (pass_head mem head (update_coordinates config s.data))).next
        else some (pass_head mem head (update_coordinates config s.data)) := by
      rw [h3]
      unfold stop_pop
      simp only [hphase]
      split
      · rfl
      · exact hdpath
    have hint1 : phase ≠ STOP → s1.data.current_interval = d.current_interval := by
      intro hne
      rw [h3]
      unfold stop_pop
      simp only [hphase, hne, if_false]
    rw [hp] at hchain
    cases l with
    | nil => cases hchain
    | cons a l1 =>
      obtain ⟨ha1, hc1⟩ := hchain
      cases ha1
      cases hw : waypoint_reached mem head (update_coordinates config s.data) with
      | false =>
        have hh := (pass_head_of_not_reached mem head _ hw).1
        rw [hh] at hpath1 h1 h2
        rw [hw] at h2
        by_cases hs : phase = STOP
        · refine ⟨l1, ?_, by simp, fun _ _ _ => by simp⟩
          rw [hpath1, if_pos hs]
          exact hc1
        · refine ⟨head :: l1, ?_, le_refl _, fun _ h0 h10 => ?_⟩
          · rw [hpath1, if_neg hs]
            exact ⟨rfl, hc1⟩
          · exfalso
            rw [hint1 hs] at h10
            have h0' : (update_coordinates config s.data).current_interval = 0 := by
              rw [f2]; exact h0
            exact select_interval_moving config mem head _ d h2 (by
              show (pass_data mem head (update_coordinates config s.data)).current_interval = 0
              rw [e.1]; exact h0')
              (head_ahead_of_stopped mem head _ hw h0') h10
      | true =>
        cases hn : (mem head).next with
        | none =>
          have hh : pass_head mem head (update_coordinates config s.data) = head := by
            unfold pass_head arrival_head
            rw [hw, hn]
            rfl
          rw [hh] at hpath1 h1
          rw [hn] at hc1
          by_cases hs : phase = STOP
          · refine ⟨l1, ?_, by simp, fun _ _ _ => by simp⟩
            rw [hpath1, if_pos hs, hn]
            exact hc1
          · refine ⟨head :: l1, ?_, le_refl _, fun _ h0 _ => ?_⟩
            · rw [hpath1, if_neg hs]
              exact ⟨rfl, by rw [hn]; exact hc1⟩
            · exfalso
              apply hs
              have h0' : (update_coordinates config s.data).current_interval = 0 := by
                rw [f2]; exact h0
              have hf := e.2.2.2.2.2.2.2 h0'
              rw [hh] at hf
              unfold waypoint_reached at hw
              have hx : (mem head).p.x = (update_coordinates config s.data).position.x := by
                simpa using hw
              rw [select_phase_eq] at h1
              unfold lookahead_target at h1
              rw [hn] at h1
              exact get_next_phase_on_target config _ (mem head).p phase hd ha
                (by rw [hf]; simp [hx]) (by rw [e.2.1]; exact hx) (by rw [e.1]; exact h0') h1
        | some n =>
          have hh : pass_head mem head (update_coordinates config s.data) = n := by
            unfold pass_head arrival_head
            rw [hw, hn]
            rfl
          rw [hh] at hpath1
          rw [hn] at hc1
          cases l1 with
          | nil => cases hc1
          | cons a2 l2 =>
            obtain ⟨ha2, hc2⟩ := hc1
            cases ha2
            by_cases hs : phase = STOP
            · refine ⟨l2, ?_, by simp; omega, fun _ _ _ => by simp; omega⟩
              rw [hpath1, if_pos hs]
              exact hc2
            · refine ⟨n :: l2, ?_, by simp, fun _ _ _ => by simp⟩
              rw [hpath1, if_neg hs]
              exact ⟨rfl, hc2⟩

/-- A call of `stepper_update_state` entered at rest with a queue of `n` nodes at most
does not make more than `n` nested recursive calls. -/
theorem rerun_ne_timeout (config : stepper_config) (mem : Nat → stepper_path_t)
    (hd : 0 ≤ config.distance_per_step) (ha : config.max_acceleration.nonneg = true) :
    ∀ (n : Nat) (l : List Nat) (s : Run), chain mem s.data.path l → l.length ≤ n →
      s.data.current_interval = 0 → stepper_update_state config mem (n + 1) s ≠ .timeout := by
  intro n
  induction n with
  | zero =>
    intro l s hchain hlen _
    have hl : l = [] := List.length_eq_zero.mp (Nat.le_zero.mp hlen)
    rw [hl] at hchain
    have hnone : s.data.path = none := hchain
    rw [stepper_update_state_of_empty config mem 0 s hnone]
    simp
  | succ n ih =>
    intro l s hchain hlen h0
    rw [stepper_update_state_succ]
    cases hp : update_pass config mem s with
    | ok r =>
      obtain ⟨s1, b⟩ := r
      rw [res_bind_ok]
      obtain ⟨l', hc', _, hlt⟩ := update_pass_chain config mem hd ha s s1 b l hchain hp
      split
      · rename_i hc
        exact ih l' s1 hc' (by have := hlt hc.1 h0 hc.2; omega) hc.2
      · simp
    | undefined => simp [Res.bind]
    | timeout => exact absurd hp (update_pass_ne_timeout config mem s)

/-- A call of `stepper_update_state` on a queue of `n` nodes at most does not make more
than `n + 1` nested recursive calls. -/
theorem stepper_update_state_ne_timeout (config : stepper_config) (mem : Nat → stepper_path_t)
    (hd : 0 ≤ config.distance_per_step) (ha : config.max_acceleration.nonneg = true)
    (n : Nat) (l : List Nat) (s : Run) (hchain : chain mem s.data.path l)
    (hlen : l.length ≤ n) : stepper_update_state config mem (n + 2) s ≠ .timeout := by
  rw [stepper_update_state_succ]
  cases hp : update_pass config mem s with
  | ok r =>
    obtain ⟨s1, b⟩ := r
    rw [res_bind_ok]
    obtain ⟨l', hc', hle, _⟩ := update_pass_chain config mem hd ha s s1 b l hchain hp
    split
    · rename_i hc
      exact rerun_ne_timeout config mem hd ha n l' s1 hc' (by omega) hc.2
    · simp
  | undefined => simp [Res.bind]
  | timeout => exact absurd hp (update_pass_ne_timeout config mem s)

/-! ## The claim about the depth of the recursion -/

/-- C25 (counterexample): the last call of the run to the single waypoint `x = 4` in the test
configuration. The queue has one node; the first pass arrives at `x = 4` and leaves the
interval 0 without popping the last node, the first re-run pops it, the second re-run finds
the queue empty: the call does not complete with one nested re-run (fuel 2) and completes
with two (fuel 3). -/
theorem rerun_depth_exceeds_queue_length :
    ((trace dev_config (two_nodes 4 none 0) 4 4 start_run).map Run.data)[3]? =
      some (heading true DECELERATE 707109 3 (.fin false 6521888447788655 (-62))) ∧
    chain (two_nodes 4 none 0)
      (heading true DECELERATE 707109 3 (.fin false 6521888447788655 (-62))).path [1] ∧
    stepper_update_state dev_config (two_nodes 4 none 0) 2
        { data := heading true DECELERATE 707109 3 (.fin false 6521888447788655 (-62)),
          calls := [] } = .timeout ∧
    stepper_update_state dev_config (two_nodes 4 none 0) 3
        { data := heading true DECELERATE 707109 3 (.fin false 6521888447788655 (-62)),
          calls := [] } =
      .ok { data := data_at_rest 4, calls := [(1, 4), (1, 4)] } := by
  refine ⟨by decide!, ⟨rfl, rfl⟩, by decide!, by decide!⟩

/-- C25 (amended): for a `distance_per_step` and a `max_acceleration` that are not negative
and every state whose queue is a finite `NULL`-terminated chain of `l.length` nodes,
`stepper_update_state` terminates (it returns, or meets the undefined behaviour of a
conversion) with at most `l.length + 1` nested re-runs, and with at most `l.length` when it
is entered with `current_interval == 0`: every re-run ends with a non-zero interval, pops a
waypoint or finds the queue empty, but the first pass can end with the interval 0 without
popping a waypoint. -/
theorem update_state_terminates (config : stepper_config) (mem : Nat → stepper_path_t)
    (l : List Nat) (s : Run) (fuel : Nat)
    (hd : 0 ≤ config.distance_per_step) (ha : config.max_acceleration.nonneg = true)
    (hchain : chain mem s.data.path l) :
    (l.length + 2 ≤ fuel → stepper_update_state config mem fuel s ≠ .timeout) ∧
    (s.data.current_interval = 0 → l.length + 1 ≤ fuel →
      stepper_update_state config mem fuel s ≠ .timeout) := by
  constructor
  · intro hf
    obtain ⟨n, rfl⟩ : ∃ n, fuel = n + 2 := ⟨fuel - 2, by omega⟩
    exact stepper_update_state_ne_timeout config mem hd ha n l s hchain (by omega)
  · intro h0 hf
    obtain ⟨n, rfl⟩ : ∃ n, fuel = n + 1 := ⟨fuel - 1, by omega⟩
    exact rerun_ne_timeout config mem hd ha n l s hchain (by omega) h0

/-- C25 (witness): the last call of the run to the single waypoint `x = 4` terminates with
the fuel 3, that is with two nested re-runs. -/
theorem update_state_terminates_witness :
    chain (two_nodes 4 none 0)
      (heading true DECELERATE 707109 3 (.fin false 6521888447788655 (-62))).path [1] ∧
    stepper_update_state dev_config (two_nodes 4 none 0) 3
        { data := heading true DECELERATE 707109 3 (.fin false 6521888447788655 (-62)),
          calls := [] } ≠ .timeout :=
  ⟨⟨rfl, rfl⟩,
    (update_state_terminates dev_config (two_nodes 4 none 0) [1]
      { data := heading true DECELERATE 707109 3 (.fin false 6521888447788655 (-62)),
        calls := [] } 3 (by decide) (by decide!) ⟨rfl, rfl⟩).1 (by decide)⟩

end Stepper
